import Mathlib

/-!
Shallow embedding of the process-lifecycle simulator:
the `Process` data model (src/src/models/process.py), the priority scheduler
(src/src/core/scheduler.py, class PriorityScheduler) and the simulation engine
(src/src/core/simulator.py, class SimulatorEngine).

Modelling conventions:
* The Python process table is `Dict[int, Process]`; we model it as an
  insertion-ordered association list (`Table`), matching dict semantics:
  assignment of a fresh key appends, assignment of a present key updates in
  place, iteration follows insertion order.
* Python `Optional[int]` pids are `Option Nat`.  Python truthiness of
  `parent_pid` (`if process.parent_pid:`) is `optTruthy`: falsy for `None`
  and for `0`.
* Randomness (the global `random` module) is threaded explicitly: every draw
  the code makes is a parameter (`TickOracle` for a tick, explicit default
  arguments elsewhere), so a run of the model is one resolution of the RNG.
  `random.random()` results are modelled as rationals.
* The event log (`event_logs`, a bounded deque of display strings) carries no
  control flow and is not modelled.
* `priority_queues` is a `defaultdict(deque)`; keys that ever hold a pid are
  the clamped priorities 0..9 (plus the fallback 5), so we model it as a
  fixed list of ten FIFO queues.  Empty queues are skipped everywhere in the
  source, so defaultdict auto-created empty entries are irrelevant.
-/

/-- Process states (`state` strings in src/src/models/process.py). -/
inductive PState
  | NEW
  | READY
  | RUNNING
  | BLOCKED
  | ZOMBIE
  | TERMINATED
deriving DecidableEq, Repr

/-- The `Process` dataclass of src/src/models/process.py. -/
structure Process where
  pid : Nat
  name : String
  state : PState
  total_burst : Int
  remaining_burst : Int
  priority : Int
  parent_pid : Option Nat
  children : List Nat
  created_tick : Nat
  start_tick : Option Nat
  end_tick : Option Nat
  blocked_count : Nat
  preempt_count : Nat
  io_remaining : Int
  waiting_for_child : Bool
  reaped : Bool
deriving DecidableEq, Repr

/-- The process table: `Dict[int, Process]` as an insertion-ordered
association list. -/
abbrev Table := List (Nat × Process)

/-- Dict lookup `table[pid]` / `pid in table`. -/
def tableGet : Table → Nat → Option Process
  | [], _ => none
  | kv :: rest, k => if kv.1 = k then some kv.2 else tableGet rest k

/-- Dict assignment `table[pid] = v`: update in place when the key is
present, append otherwise. -/
def tableSet : Table → Nat → Process → Table
  | [], k, v => [(k, v)]
  | kv :: rest, k, v => if kv.1 = k then (k, v) :: rest else kv :: tableSet rest k v

/-- Mutation of the process object stored under a key
(`table[pid].field = x` after a lookup); no-op when the key is absent. -/
def tableModify : Table → Nat → (Process → Process) → Table
  | [], _, _ => []
  | kv :: rest, k, f =>
      (if kv.1 = k then (kv.1, f kv.2) else kv) :: tableModify rest k f

/-- The keys of the table in insertion order (`dict.keys()`). -/
def tableKeys (t : Table) : List Nat := t.map (fun kv => kv.1)

/-- Python truthiness of an `Optional[int]`: `None` and `0` are falsy. -/
def optTruthy : Option Nat → Bool
  | some (_ + 1) => true
  | _ => false

/-- `max(0, min(p, max_priority_levels - 1))` in `add_to_ready` and
`adjust_priority`. -/
def clampPriority (p : Int) : Nat := (min (max p 0) 9).toNat

/-- Read queue `i` of the ten priority queues. -/
def qget : List (List Nat) → Nat → List Nat
  | [], _ => []
  | q :: _, 0 => q
  | _ :: qs, n + 1 => qget qs n

/-- Replace queue `i` of the ten priority queues. -/
def qset : List (List Nat) → Nat → List Nat → List (List Nat)
  | [], _, _ => []
  | _ :: qs, 0, l => l :: qs
  | q :: qs, n + 1, l => q :: qset qs n l

/-- Total number of occurrences of `pid` across all priority queues. -/
def qcount (qs : List (List Nat)) (pid : Nat) : Nat :=
  (qs.map (fun q => q.count pid)).sum

/-- The `PriorityScheduler` class of src/src/core/scheduler.py.
`max_priority_levels = 10` and `priority_boost_interval = 20` are the
constants `boostInterval` and the fixed length-10 queue list. -/
structure PriorityScheduler where
  quantum : Int
  queues : List (List Nat)
  current_running_pid : Option Nat
  current_quantum_used : Nat
  context_switches : Nat
  priority_boost_counter : Nat
deriving DecidableEq, Repr

/-- `priority_boost_interval` (aging cadence), 20 in `__init__`. -/
def boostInterval : Nat := 20

/-- Scheduler state built by `PriorityScheduler.__init__` (default quantum 3). -/
def initScheduler : PriorityScheduler :=
  { quantum := 3
    queues := List.replicate 10 []
    current_running_pid := none
    current_quantum_used := 0
    context_switches := 0
    priority_boost_counter := 0 }

/-- `add_to_ready`: enqueue at the tail of the queue for the process's clamped
priority, never duplicating within that queue; the fallback branch (table
falsy or pid unknown, i.e. exactly when the lookup fails) uses queue 5. -/
def add_to_ready (s : PriorityScheduler) (pid : Nat) (t : Table) : PriorityScheduler :=
  match tableGet t pid with
  | some p =>
      let qi := clampPriority p.priority
      if pid ∈ qget s.queues qi then s
      else { s with queues := qset s.queues qi (qget s.queues qi ++ [pid]) }
  | none =>
      if pid ∈ qget s.queues 5 then s
      else { s with queues := qset s.queues 5 (qget s.queues 5 ++ [pid]) }

/-- `remove_from_ready`: rebuild the first queue containing the pid without
any occurrence of it, then stop.  (The source iterates the dict's queues and
breaks after the first hit; under the queue-exclusivity invariant the visit
order is immaterial, and we visit in index order.) -/
def remove_from_ready (s : PriorityScheduler) (pid : Nat) : PriorityScheduler :=
  match (List.range 10).find? (fun i => decide (pid ∈ qget s.queues i)) with
  | some i => { s with queues := qset s.queues i ((qget s.queues i).filter (fun x => x ≠ pid)) }
  | none => s

/-- `get_next_process`: pop the head of the first non-empty queue in
ascending priority order. -/
def get_next_process (s : PriorityScheduler) : Option Nat × PriorityScheduler :=
  match (List.range 10).find? (fun i => !(qget s.queues i).isEmpty) with
  | some i =>
      match qget s.queues i with
      | pid :: rest => (some pid, { s with queues := qset s.queues i rest })
      | [] => (none, s)
  | none => (none, s)

/-- `_preempt_process`: back to READY, bump `preempt_count`, re-enqueue at the
current priority, clear the running slot, count a context switch. -/
def preempt_process (s : PriorityScheduler) (pid : Nat) (t : Table) :
    Table × PriorityScheduler :=
  let t1 := tableModify t pid (fun p =>
    { p with state := PState.READY, preempt_count := p.preempt_count + 1 })
  let s1 := add_to_ready s pid t1
  (t1, { s1 with current_running_pid := none, current_quantum_used := 0,
                 context_switches := s1.context_switches + 1 })

/-- `preempt_current`: priority preemption (a non-empty queue strictly below
the runner's priority number) first, then quantum preemption; no-op when
nothing runs, and the quantum branch is skipped when the runner is missing
from the table. -/
def preempt_current (s : PriorityScheduler) (t : Table) : Table × PriorityScheduler :=
  match s.current_running_pid with
  | none => (t, s)
  | some pid =>
      match tableGet t pid with
      | some p =>
          if (List.range 10).any
              (fun q => decide ((q : Int) < p.priority) && !(qget s.queues q).isEmpty) then
            preempt_process s pid t
          else if (s.current_quantum_used : Int) ≥ s.quantum then
            preempt_process s pid t
          else (t, s)
      | none => (t, s)

/-- `set_running`: mark the process RUNNING, record it as current, reset the
quantum counter, count a context switch; no-op when the pid is unknown. -/
def set_running (s : PriorityScheduler) (pid : Nat) (t : Table) :
    Table × PriorityScheduler :=
  match tableGet t pid with
  | some _ =>
      (tableModify t pid (fun p => { p with state := PState.RUNNING }),
       { s with current_running_pid := some pid, current_quantum_used := 0,
                context_switches := s.context_switches + 1 })
  | none => (t, s)

/-- One pid of `_priority_aging`'s inner `while queue:` loop over the snapshot
of queue `qidx` (qidx ≥ 1): a pid present in the table is promoted one level
with probability 0.3 (one coin per draw, consumed from the stream) by setting
its priority and appending it to queue `qidx - 1`; otherwise it is kept in
`temp`.  Pids absent from the table are kept in `temp` without a draw. -/
def agingQueueStep (qidx : Nat) :
    List Nat → Table → PriorityScheduler → List Bool → List Nat →
    Table × PriorityScheduler × List Bool × List Nat
  | [], t, s, coins, temp => (t, s, coins, temp)
  | pid :: rest, t, s, coins, temp =>
      match tableGet t pid with
      | some _ =>
          let coin := coins.headD false
          let coins1 := coins.tail
          if coin then
            let np : Nat := qidx - 1
            let t1 := tableModify t pid (fun p => { p with priority := (np : Int) })
            let s1 := { s with queues := qset s.queues np (qget s.queues np ++ [pid]) }
            agingQueueStep qidx rest t1 s1 coins1 temp
          else
            agingQueueStep qidx rest t s coins1 (temp ++ [pid])
      | none => agingQueueStep qidx rest t s coins (temp ++ [pid])

/-- `_priority_aging`'s outer loop, priorities 9 down to 1.  The source pops
the live queue empty while appending promotions to the strictly lower-indexed
queue and finally stores the kept pids back; since the loop never reads the
queue being drained, this equals: snapshot the queue, drain it, process the
snapshot, store `temp`. -/
def agingPass :
    List Nat → Table → PriorityScheduler → List Bool → Table × PriorityScheduler × List Bool
  | [], t, s, coins => (t, s, coins)
  | q :: qs, t, s, coins =>
      if qget s.queues q = [] then agingPass qs t s coins
      else
        let cur := qget s.queues q
        let s0 := { s with queues := qset s.queues q [] }
        match agingQueueStep q cur t s0 coins [] with
        | (t1, s1, coins1, temp) =>
            agingPass qs t1 { s1 with queues := qset s1.queues q temp } coins1

/-- `_priority_aging`: no-op for a falsy (empty) table, else the 9→1 pass. -/
def priority_aging (s : PriorityScheduler) (t : Table) (coins : List Bool) :
    Table × PriorityScheduler × List Bool :=
  if t = [] then (t, s, coins)
  else agingPass [9, 8, 7, 6, 5, 4, 3, 2, 1] t s coins

/-- `PriorityScheduler.tick`: bump the quantum counter while something runs,
bump the aging cadence counter, and run aging (resetting the counter) when
the cadence reaches `priority_boost_interval`. -/
def schedTick (s : PriorityScheduler) (t : Table) (coins : List Bool) :
    Table × PriorityScheduler :=
  let s1 :=
    if s.current_running_pid.isSome then
      { s with current_quantum_used := s.current_quantum_used + 1 }
    else s
  let s2 := { s1 with priority_boost_counter := s1.priority_boost_counter + 1 }
  if s2.priority_boost_counter ≥ boostInterval then
    match priority_aging s2 t coins with
    | (t1, s3, _) => (t1, { s3 with priority_boost_counter := 0 })
  else (t, s2)

/-- `PriorityScheduler.adjust_priority`: clamp, store the new priority, and
re-queue (remove then add) when the process is READY. -/
def sched_adjust_priority (s : PriorityScheduler) (pid : Nat) (newPriority : Int)
    (t : Table) : Table × PriorityScheduler :=
  match tableGet t pid with
  | none => (t, s)
  | some p =>
      let np : Int := max 0 (min newPriority 9)
      let t1 := tableModify t pid (fun q => { q with priority := np })
      if p.state = PState.READY then
        let s1 := remove_from_ready s pid
        (t1, add_to_ready s1 pid t1)
      else (t1, s)

/-- The `SimulatorEngine` class of src/src/core/simulator.py.  `p_create` is
defined there but never read by the engine, and the event log carries no
control flow; neither is modelled. -/
structure SimulatorEngine where
  tick : Nat
  pid_counter : Nat
  process_table : Table
  sched : PriorityScheduler
  blocked_list : List Nat
  zombie_list : List Nat
  cpu_busy_ticks : Nat
  idle_ticks : Nat
  p_block : ℚ
  auto_reap_after : Int
deriving DecidableEq, Repr

/-- The init process built by `_create_init_process` (PID 0). -/
def initProcess : Process :=
  { pid := 0
    name := "init"
    state := PState.RUNNING
    total_burst := 999999
    remaining_burst := 999999
    priority := 0
    parent_pid := none
    children := []
    created_tick := 0
    start_tick := none
    end_tick := none
    blocked_count := 0
    preempt_count := 0
    io_remaining := 0
    waiting_for_child := false
    reaped := false }

/-- Engine state after `SimulatorEngine.__init__` (defaults `p_block = 0.1`,
`auto_reap_after = 10`, init process installed). -/
def mkEngine : SimulatorEngine :=
  { tick := 0
    pid_counter := 1
    process_table := [(0, initProcess)]
    sched := initScheduler
    blocked_list := []
    zombie_list := []
    cpu_busy_ticks := 0
    idle_ticks := 0
    p_block := 1 / 10
    auto_reap_after := 10 }

/-- `create_process`: assign the next pid, fill the omitted name/burst/priority
(the random defaults `random.randint(5,15)` / `random.randint(0,8)` are the
explicit parameters `dBurst` / `dPriority`), register the child with a truthy,
present parent, and store the NEW process.  Returns the pid. -/
def create_process (e : SimulatorEngine) (name : Option String) (burst : Option Int)
    (parent_pid : Option Nat) (priority : Option Int) (dBurst dPriority : Int) :
    Nat × SimulatorEngine :=
  let pid := e.pid_counter
  let nm := name.getD ("P" ++ toString pid)
  let b := burst.getD dBurst
  let pr := priority.getD dPriority
  let proc : Process :=
    { pid := pid, name := nm, state := PState.NEW, total_burst := b,
      remaining_burst := b, priority := pr, parent_pid := parent_pid,
      children := [], created_tick := e.tick, start_tick := none,
      end_tick := none, blocked_count := 0, preempt_count := 0,
      io_remaining := 0, waiting_for_child := false, reaped := false }
  let t1 := tableSet e.process_table pid proc
  let t2 :=
    if optTruthy parent_pid ∧ (parent_pid.bind (tableGet t1)).isSome then
      tableModify t1 (parent_pid.getD 0) (fun p => { p with children := p.children ++ [pid] })
    else t1
  (pid, { e with pid_counter := e.pid_counter + 1, process_table := t2 })

/-- One item of `move_new_to_ready`'s loop: promote a NEW process to READY
and enqueue it. -/
def moveNewStep : List Nat → SimulatorEngine → Nat → SimulatorEngine × Nat
  | [], e, c => (e, c)
  | pid :: rest, e, c =>
      match tableGet e.process_table pid with
      | some p =>
          if p.state = PState.NEW then
            let t1 := tableModify e.process_table pid (fun q => { q with state := PState.READY })
            moveNewStep rest { e with process_table := t1, sched := add_to_ready e.sched pid t1 } (c + 1)
          else moveNewStep rest e c
      | none => moveNewStep rest e c

/-- `move_new_to_ready`: promote every NEW process, in table insertion order;
returns the count moved. -/
def move_new_to_ready (e : SimulatorEngine) : SimulatorEngine × Nat :=
  moveNewStep (tableKeys e.process_table) e 0

/-- `force_block_process`: reject unknown pids, pid 0, and states outside
{READY, RUNNING}; otherwise free the CPU if the pid was running, remove it
from the ready queues, mark it BLOCKED for `io_time` ticks (the random
default `random.randint(3,8)` is the explicit `dIo` parameter), bump
`blocked_count` and append it to the blocked list. -/
def force_block_process (e : SimulatorEngine) (pid : Nat) (io_time : Option Int)
    (dIo : Int) : Bool × SimulatorEngine :=
  match tableGet e.process_table pid with
  | none => (false, e)
  | some p =>
      if pid = 0 then (false, e)
      else if p.state = PState.READY ∨ p.state = PState.RUNNING then
        let io := io_time.getD dIo
        let s1 :=
          if e.sched.current_running_pid = some pid then
            { e.sched with current_running_pid := none, current_quantum_used := 0 }
          else e.sched
        let s2 := remove_from_ready s1 pid
        let t1 := tableModify e.process_table pid (fun q =>
          { q with state := PState.BLOCKED, io_remaining := io,
                   blocked_count := q.blocked_count + 1 })
        (true, { e with process_table := t1, sched := s2,
                        blocked_list := e.blocked_list ++ [pid] })
      else (false, e)

/-- The zombie-or-terminate decision block, duplicated verbatim in the source
at the end of `_execute_current_process` and inside `force_terminate_process`:
a falsy (`None` or `0`) or absent parent means TERMINATED directly; a present
parent not waiting means ZOMBIE plus the zombie list; a waiting parent means
TERMINATED with `reaped = True`.  (At both call sites the pid is in the
table; the missing-pid branch is unreachable.) -/
def applyTerminationDecision (e : SimulatorEngine) (pid : Nat) : SimulatorEngine :=
  match tableGet e.process_table pid with
  | none => e
  | some p =>
      match p.parent_pid with
      | some (pp + 1) =>
          match tableGet e.process_table (pp + 1) with
          | some parent =>
              if parent.waiting_for_child = false then
                { e with process_table := tableModify e.process_table pid
                           (fun q => { q with state := PState.ZOMBIE }),
                         zombie_list := e.zombie_list ++ [pid] }
              else
                { e with process_table := tableModify e.process_table pid
                           (fun q => { q with state := PState.TERMINATED, reaped := true }) }
          | none =>
              { e with process_table := tableModify e.process_table pid
                         (fun q => { q with state := PState.TERMINATED }) }
      | _ =>
          { e with process_table := tableModify e.process_table pid
                     (fun q => { q with state := PState.TERMINATED }) }

/-- `_remove_from_queues`: drop the pid from the ready queues, the blocked
list and the zombie list (Python `list.remove` drops the first occurrence;
`List.erase` matches, and like the guarded source call it is a no-op when
absent). -/
def remove_from_queues (e : SimulatorEngine) (pid : Nat) : SimulatorEngine :=
  { e with sched := remove_from_ready e.sched pid,
           blocked_list := e.blocked_list.erase pid,
           zombie_list := e.zombie_list.erase pid }

/-- `force_terminate_process`: reject unknown pids, pid 0 and TERMINATED
processes; otherwise free the CPU if running, remove from all queues, zero
the burst, stamp `end_tick` with the current tick and apply the
termination/zombie decision. -/
def force_terminate_process (e : SimulatorEngine) (pid : Nat) : Bool × SimulatorEngine :=
  match tableGet e.process_table pid with
  | none => (false, e)
  | some p =>
      if pid = 0 then (false, e)
      else if p.state = PState.TERMINATED then (false, e)
      else
        let s1 :=
          if e.sched.current_running_pid = some pid then
            { e.sched with current_running_pid := none, current_quantum_used := 0 }
          else e.sched
        let e1 := remove_from_queues { e with sched := s1 } pid
        let t2 := tableModify e1.process_table pid
          (fun q => { q with remaining_burst := 0, end_tick := some e1.tick })
        (true, applyTerminationDecision { e1 with process_table := t2 } pid)

/-- One child of `wait_for_child`'s loop over the snapshot of the parent's
children: a ZOMBIE child is turned TERMINATED, marked reaped, removed from
the zombie list and collected. -/
def waitStep : List Nat → SimulatorEngine → List Nat → List Nat × SimulatorEngine
  | [], e, acc => (acc, e)
  | c :: rest, e, acc =>
      match tableGet e.process_table c with
      | some child =>
          if child.state = PState.ZOMBIE then
            let e1 := { e with
              process_table := tableModify e.process_table c
                (fun q => { q with state := PState.TERMINATED, reaped := true }),
              zombie_list := e.zombie_list.erase c }
            waitStep rest e1 (acc ++ [c])
          else waitStep rest e acc
      | none => waitStep rest e acc

/-- `wait_for_child`: empty result for an unknown parent, else reap every
currently-ZOMBIE child. -/
def wait_for_child (e : SimulatorEngine) (parent_pid : Nat) :
    List Nat × SimulatorEngine :=
  match tableGet e.process_table parent_pid with
  | none => ([], e)
  | some parent => waitStep parent.children e []

/-- One pid of `_handle_blocked_processes`'s loop over the snapshot of the
blocked list: decrement a positive `io_remaining`; at zero, promote to READY,
enqueue and record as unblocked.  Pids missing from the table are skipped
(and so stay on the blocked list). -/
def handleBlockedStep : List Nat → SimulatorEngine → List Nat → SimulatorEngine × List Nat
  | [], e, unblocked => (e, unblocked)
  | pid :: rest, e, unblocked =>
      match tableGet e.process_table pid with
      | none => handleBlockedStep rest e unblocked
      | some p =>
          let p1 := if p.io_remaining > 0 then { p with io_remaining := p.io_remaining - 1 } else p
          if p1.io_remaining = 0 then
            let t1 := tableModify e.process_table pid
              (fun q => { (if q.io_remaining > 0 then { q with io_remaining := q.io_remaining - 1 } else q) with
                          state := PState.READY })
            handleBlockedStep rest
              { e with process_table := t1, sched := add_to_ready e.sched pid t1 }
              (unblocked ++ [pid])
          else
            let t2 := tableModify e.process_table pid
              (fun q => if q.io_remaining > 0 then { q with io_remaining := q.io_remaining - 1 } else q)
            handleBlockedStep rest { e with process_table := t2 } unblocked

/-- `_handle_blocked_processes`: advance every blocked pid, then remove the
unblocked ones from the blocked list (sequential `list.remove` calls). -/
def handle_blocked_processes (e : SimulatorEngine) : SimulatorEngine :=
  match handleBlockedStep e.blocked_list e [] with
  | (e1, unblocked) =>
      { e1 with blocked_list := unblocked.foldl (fun l pid => l.erase pid) e1.blocked_list }

/-- The random draws one call of `tick_simulation` can consume:
`rBlock` is the `random.random()` value compared against `p_block`
(a real RNG yields `0 ≤ rBlock < 1`), `ioTime` the `random.randint(2, 5)`
duration if the block fires, and `agingCoins` the stream of
`random.random() < 0.3` outcomes drawn inside `_priority_aging`. -/
structure TickOracle where
  rBlock : ℚ
  ioTime : Int
  agingCoins : List Bool

/-- `_execute_current_process`: drop a vanished runner; else count a busy
tick, advance the scheduler clock (possibly aging), burn one burst unit, and
then either finish (stamp `end_tick`, clear the slot, apply the
termination/zombie decision), randomly block (`random.random() < p_block`),
or let the scheduler evaluate preemption. -/
def executeCurrent (e : SimulatorEngine) (o : TickOracle) : SimulatorEngine :=
  match e.sched.current_running_pid with
  | none => e
  | some pid =>
      match tableGet e.process_table pid with
      | none => { e with sched := { e.sched with current_running_pid := none } }
      | some _ =>
          let e1 := { e with cpu_busy_ticks := e.cpu_busy_ticks + 1 }
          let e2 :=
            match schedTick e1.sched e1.process_table o.agingCoins with
            | (t1, s1) => { e1 with process_table := t1, sched := s1 }
          let t3 := tableModify e2.process_table pid
            (fun p => { p with remaining_burst := p.remaining_burst - 1 })
          let e3 := { e2 with process_table := t3 }
          match tableGet e3.process_table pid with
          | none => e3
          | some p =>
              if p.remaining_burst ≤ 0 then
                let e4 := { e3 with
                  process_table := tableModify e3.process_table pid
                    (fun q => { q with end_tick := some e3.tick }),
                  sched := { e3.sched with current_running_pid := none,
                                           current_quantum_used := 0 } }
                applyTerminationDecision e4 pid
              else if o.rBlock < e3.p_block then
                { e3 with
                  process_table := tableModify e3.process_table pid
                    (fun q => { q with state := PState.BLOCKED, io_remaining := o.ioTime,
                                       blocked_count := q.blocked_count + 1 }),
                  blocked_list := e3.blocked_list ++ [pid],
                  sched := { e3.sched with current_running_pid := none,
                                           current_quantum_used := 0 } }
              else
                match preempt_current e3.sched e3.process_table with
                | (t2, s2) => { e3 with process_table := t2, sched := s2 }

/-- `_schedule_processes`: with an idle CPU, pop the next ready pid and start
it (the source guards with `if next_pid and next_pid in self.process_table`,
so a popped pid 0 or unknown pid is dropped), stamping `start_tick` on first
run; then execute the runner for one unit, or count an idle tick. -/
def schedule_processes (e : SimulatorEngine) (o : TickOracle) : SimulatorEngine :=
  let e1 :=
    if e.sched.current_running_pid = none then
      match get_next_process e.sched with
      | (next, s1) =>
          let eA := { e with sched := s1 }
          match next with
          | some npid =>
              if npid ≠ 0 ∧ (tableGet eA.process_table npid).isSome then
                match set_running eA.sched npid eA.process_table with
                | (t2, s2) =>
                    let eB := { eA with process_table := t2, sched := s2 }
                    let t3 := tableModify eB.process_table npid
                      (fun p => if p.start_tick = none then { p with start_tick := some eB.tick } else p)
                    { eB with process_table := t3 }
              else eA
          | none => eA
    else e
  if e1.sched.current_running_pid.isSome then executeCurrent e1 o
  else { e1 with idle_ticks := e1.idle_ticks + 1 }

/-- One pid of `_auto_reap_zombies`'s loop over the snapshot of the zombie
list: a table-resident pid whose age `tick - (end_tick or 0)` has reached
`auto_reap_after` is turned TERMINATED, marked reaped and removed from the
zombie list. -/
def autoReapStep : List Nat → SimulatorEngine → SimulatorEngine
  | [], e => e
  | pid :: rest, e =>
      match tableGet e.process_table pid with
      | none => autoReapStep rest e
      | some p =>
          let age : Int := (e.tick : Int) - ((p.end_tick.getD 0 : Nat) : Int)
          if age ≥ e.auto_reap_after then
            let t1 := tableModify e.process_table pid
              (fun q => { q with state := PState.TERMINATED, reaped := true })
            autoReapStep rest { e with process_table := t1, zombie_list := e.zombie_list.erase pid }
          else autoReapStep rest e

/-- `_auto_reap_zombies`. -/
def auto_reap_zombies (e : SimulatorEngine) : SimulatorEngine :=
  autoReapStep e.zombie_list e

/-- `tick_simulation`: advance the clock, then blocked handling, NEW→READY
promotion, scheduling/execution, and (while `auto_reap_after > 0`) the
zombie auto-reap, in this order. -/
def tick_simulation (e : SimulatorEngine) (o : TickOracle) : SimulatorEngine :=
  let e1 := { e with tick := e.tick + 1 }
  let e2 := handle_blocked_processes e1
  let e3 := (move_new_to_ready e2).1
  let e4 := schedule_processes e3 o
  if e4.auto_reap_after > 0 then auto_reap_zombies e4 else e4

/-- Engine-level `adjust_priority` (the scheduler method called with the
engine's table). -/
def adjust_priority (e : SimulatorEngine) (pid : Nat) (newPriority : Int) : SimulatorEngine :=
  match sched_adjust_priority e.sched pid newPriority e.process_table with
  | (t1, s1) => { e with process_table := t1, sched := s1 }

/-- `set_quantum`: clamp to at least 1. -/
def set_quantum (e : SimulatorEngine) (q : Int) : SimulatorEngine :=
  { e with sched := { e.sched with quantum := max 1 q } }

/-- `reset`: fresh clock, table (with a fresh init process), scheduler state
and side lists; `PriorityScheduler.reset` keeps the configured quantum, and
the engine keeps `p_block` and `auto_reap_after`. -/
def resetEngine (e : SimulatorEngine) : SimulatorEngine :=
  { tick := 0
    pid_counter := 1
    process_table := [(0, initProcess)]
    sched := { quantum := e.sched.quantum, queues := List.replicate 10 [],
               current_running_pid := none, current_quantum_used := 0,
               context_switches := 0, priority_boost_counter := 0 }
    blocked_list := []
    zombie_list := []
    cpu_busy_ticks := 0
    idle_ticks := 0
    p_block := e.p_block
    auto_reap_after := e.auto_reap_after }

/-- The `end_tick` currently recorded for a pid. -/
def endTickOf (t : Table) (pid : Nat) : Option Nat :=
  (tableGet t pid).bind Process.end_tick

/-- The state currently recorded for a pid. -/
def stateOf (t : Table) (pid : Nat) : Option PState :=
  (tableGet t pid).map Process.state

/-!  Concrete scenario runs.  `oracleZ` is one resolution of the RNG: the
`random.random()` draw is 0 (any value in `[0,1)` behaves identically once
`p_block = 0`), and no other draw is reached on these paths. -/

/-- A fixed tick oracle for deterministic scenario runs. -/
def oracleZ : TickOracle := { rBlock := 0, ioTime := 0, agingCoins := [] }

/-- Fresh engine with default configuration except `p_block = 0`. -/
def engV0 : SimulatorEngine := { mkEngine with p_block := 0 }

/-- `engV0` after `create_process(burst=5, priority=0)` (pid 1). -/
def engC3a : SimulatorEngine := (create_process engV0 none (some 5) none (some 0) 0 0).2

/-- `engC3a` after `move_new_to_ready()`. -/
def engC3b : SimulatorEngine := (move_new_to_ready engC3a).1

/-- `engC3b` after five `tick_simulation()` calls. -/
def engC3 : SimulatorEngine :=
  tick_simulation (tick_simulation (tick_simulation (tick_simulation
    (tick_simulation engC3b oracleZ) oracleZ) oracleZ) oracleZ) oracleZ

/-- `engV0` after creating parent P = pid 1 (`burst=5, priority=5`). -/
def engC6a : SimulatorEngine := (create_process engV0 none (some 5) none (some 5) 0 0).2

/-- `engC6a` after creating child C = pid 2 of P (`burst=1, priority=0`);
P's `waiting_for_child` is false (the dataclass default). -/
def engC6b : SimulatorEngine := (create_process engC6a none (some 1) (some 1) (some 0) 0 0).2

/-- `engC6b` after one tick: C runs first (highest priority) and exhausts its
burst. -/
def engC6 : SimulatorEngine := tick_simulation engC6b oracleZ

/-- `engV0` after creating pid 1 with `parent_pid = 0` (a child of init,
`burst=1, priority=0`). -/
def engC1a : SimulatorEngine := (create_process engV0 none (some 1) (some 0) (some 0) 0 0).2

/-- `engC1a` after one tick: pid 1 runs and exhausts its burst. -/
def engC1 : SimulatorEngine := tick_simulation engC1a oracleZ

/-- `engC6` after one more tick (the clock reaches 2; P runs one unit). -/
def engC2a : SimulatorEngine := tick_simulation engC6 oracleZ

/-- The READY process of `engC3b` (pid 1 after creation and promotion). -/
def procC3b : Process :=
  { pid := 1, name := "P1", state := PState.READY, total_burst := 5,
    remaining_burst := 5, priority := 0, parent_pid := none, children := [],
    created_tick := 0, start_tick := none, end_tick := none, blocked_count := 0,
    preempt_count := 0, io_remaining := 0, waiting_for_child := false,
    reaped := false }

/-- A RUNNING process for the quantum-preemption scenario: pid 1, burst 10,
priority 5, fresh quantum window. -/
def procC4run : Process :=
  { pid := 1, name := "P1", state := PState.RUNNING, total_burst := 10,
    remaining_burst := 10, priority := 5, parent_pid := none, children := [],
    created_tick := 0, start_tick := some 1, end_tick := none, blocked_count := 0,
    preempt_count := 0, io_remaining := 0, waiting_for_child := false,
    reaped := false }

/-- A READY process of equal priority waiting in queue 5 (so priority
preemption cannot fire against pid 1). -/
def procC4ready : Process :=
  { pid := 2, name := "P2", state := PState.READY, total_burst := 5,
    remaining_burst := 5, priority := 5, parent_pid := none, children := [],
    created_tick := 0, start_tick := none, end_tick := none, blocked_count := 0,
    preempt_count := 0, io_remaining := 0, waiting_for_child := false,
    reaped := false }

/-- Engine mid-run: pid 1 RUNNING with `current_quantum_used = 0`,
`quantum = 3`, `p_block = 0`; pid 2 READY at the same priority. -/
def engC4 : SimulatorEngine :=
  { tick := 1
    pid_counter := 3
    process_table := [(0, initProcess), (1, procC4run), (2, procC4ready)]
    sched := { quantum := 3, queues := [[], [], [], [], [], [2], [], [], [], []],
               current_running_pid := some 1, current_quantum_used := 0,
               context_switches := 1, priority_boost_counter := 0 }
    blocked_list := []
    zombie_list := []
    cpu_busy_ticks := 0
    idle_ticks := 0
    p_block := 0
    auto_reap_after := 10 }

/-- Arguments of one `create_process` call (the two `d` fields are the
random defaults drawn when burst/priority are omitted). -/
structure CreateArgs where
  name : Option String
  burst : Option Int
  parent_pid : Option Nat
  priority : Option Int
  dBurst : Int
  dPriority : Int

/-- Run a sequence of `create_process` calls, collecting the returned pids. -/
def runCreates : SimulatorEngine → List CreateArgs → List Nat × SimulatorEngine
  | e, [] => ([], e)
  | e, a :: rest =>
      match create_process e a.name a.burst a.parent_pid a.priority a.dBurst a.dPriority with
      | (pid, e1) =>
          match runCreates e1 rest with
          | (pids, e2) => (pid :: pids, e2)

/-- A sample argument tuple for `create_process`. -/
def argsA : CreateArgs :=
  { name := none, burst := some 5, parent_pid := none, priority := some 0,
    dBurst := 7, dPriority := 4 }

/-- Engine states reachable from construction through the public operations
(plus the `p_block` configuration the presentation layer writes directly).
Every random draw is universally quantified, so this covers every RNG
resolution. -/
inductive Reachable : SimulatorEngine → Prop
  | base : Reachable mkEngine
  | create (e : SimulatorEngine) (nm : Option String) (b : Option Int)
      (pp : Option Nat) (pr : Option Int) (dB dP : Int) :
      Reachable e → Reachable (create_process e nm b pp pr dB dP).2
  | move_new (e : SimulatorEngine) : Reachable e → Reachable (move_new_to_ready e).1
  | block (e : SimulatorEngine) (pid : Nat) (io : Option Int) (dIo : Int) :
      Reachable e → Reachable (force_block_process e pid io dIo).2
  | terminate (e : SimulatorEngine) (pid : Nat) :
      Reachable e → Reachable (force_terminate_process e pid).2
  | wait (e : SimulatorEngine) (pp : Nat) : Reachable e → Reachable (wait_for_child e pp).2
  | tick (e : SimulatorEngine) (o : TickOracle) : Reachable e → Reachable (tick_simulation e o)
  | adjust (e : SimulatorEngine) (pid : Nat) (np : Int) :
      Reachable e → Reachable (adjust_priority e pid np)
  | quantum (e : SimulatorEngine) (q : Int) : Reachable e → Reachable (set_quantum e q)
  | reset (e : SimulatorEngine) : Reachable e → Reachable (resetEngine e)
  | config (e : SimulatorEngine) (pb : ℚ) : Reachable e → Reachable { e with p_block := pb }

/-- The state-consistency invariant of reachable engines: pid bookkeeping,
queue exclusivity, side-list/state agreement, and the `end_tick` discipline
(an `end_tick`-stamped process is ZOMBIE or TERMINATED and sits in no
scheduling structure). -/
structure EngineInv (e : SimulatorEngine) : Prop where
  keys_lt : ∀ k, (tableGet e.process_table k).isSome → k < e.pid_counter
  counter_pos : 1 ≤ e.pid_counter
  init_mem : (tableGet e.process_table 0).isSome
  init_alive : ∀ p, tableGet e.process_table 0 = some p → p.end_tick = none
  cur_ne0 : e.sched.current_running_pid ≠ some 0
  queues_len : e.sched.queues.length = 10
  queued_ready : ∀ pid, 1 ≤ qcount e.sched.queues pid →
    ∃ p, tableGet e.process_table pid = some p ∧ p.state = PState.READY
  queue_once : ∀ pid, qcount e.sched.queues pid ≤ 1
  running_run : ∀ pid, e.sched.current_running_pid = some pid →
    ∃ p, tableGet e.process_table pid = some p ∧ p.state = PState.RUNNING
  cur_not_queued : ∀ pid, e.sched.current_running_pid = some pid →
    qcount e.sched.queues pid = 0
  cur_not_blocked : ∀ pid, e.sched.current_running_pid = some pid →
    pid ∉ e.blocked_list
  blocked_mem : ∀ pid, pid ∈ e.blocked_list →
    ∃ p, tableGet e.process_table pid = some p ∧ p.state = PState.BLOCKED
  blocked_nodup : e.blocked_list.Nodup
  zombie_state : ∀ pid p, tableGet e.process_table pid = some p →
    p.state = PState.ZOMBIE → pid ∈ e.zombie_list
  zombie_mem : ∀ pid, pid ∈ e.zombie_list →
    ∃ p, tableGet e.process_table pid = some p ∧ p.state = PState.ZOMBIE
  zombie_nodup : e.zombie_list.Nodup
  end_done : ∀ pid p, tableGet e.process_table pid = some p → p.end_tick.isSome →
    p.state = PState.ZOMBIE ∨ p.state = PState.TERMINATED
  reap_default : e.auto_reap_after = 10

/-- The pid-2 entry of `engC6`: the zombie child, `end_tick = some 1`. -/
def procZ2 : Process :=
  { pid := 2, name := "P2", state := PState.ZOMBIE, total_burst := 1,
    remaining_burst := 0, priority := 0, parent_pid := some 1, children := [],
    created_tick := 0, start_tick := some 1, end_tick := some 1,
    blocked_count := 0, preempt_count := 0, io_remaining := 0,
    waiting_for_child := false, reaped := false }

-- END-OF-DEFINITIONS

/-- C3: on a fresh engine with default configuration except `p_block = 0`,
after `create_process(burst=5, priority=0)`, `move_new_to_ready()` and five
`tick_simulation()` calls, the process is TERMINATED with `end_tick = 5` and
`remaining_burst = 0`, having suffered exactly one (quantum) preemption at
the default quantum 3. -/
theorem c3_default_run :
    (tableGet engC3.process_table 1).map
        (fun p => (p.state, p.end_tick, p.remaining_burst, p.preempt_count)) =
      some (PState.TERMINATED, some 5, 0, 1) := by decide

/-- C6: with `p_block = 0`, after creating parent P (pid 1) and child C
(pid 2, `total_burst = 1`, parent P, P not waiting), one tick leaves C
ZOMBIE; `wait_for_child(P)` then returns exactly `[2]`, leaves C TERMINATED
with `reaped = true`, and removes C from the zombie list. -/
theorem c6_zombie_reap_roundtrip :
    stateOf engC6.process_table 2 = some PState.ZOMBIE ∧
    2 ∈ engC6.zombie_list ∧
    (wait_for_child engC6 1).1 = [2] ∧
    (tableGet (wait_for_child engC6 1).2.process_table 2).map
        (fun p => (p.state, p.reaped)) = some (PState.TERMINATED, true) ∧
    2 ∉ (wait_for_child engC6 1).2.zombie_list := by decide

/-- C1, counterexample: pid 1 terminates with `parent_pid = 0`; init (pid 0)
is in the table with `waiting_for_child = false`, so the claim predicts
ZOMBIE, but the truthiness test `if process.parent_pid:` treats parent 0 as
no parent and the process is TERMINATED directly, never entering the zombie
list. -/
theorem c1_init_parent_counterexample :
    (tableGet engC1.process_table 1).map (fun p => (p.parent_pid, p.state, p.reaped)) =
      some (some 0, PState.TERMINATED, false) ∧
    (tableGet engC1.process_table 0).map (fun p => p.waiting_for_child) = some false ∧
    1 ∉ engC1.zombie_list := by decide

/-- C2, counterexample: child pid 2 dies at tick 1 (`end_tick = 1`, ZOMBIE);
at tick 2 a later operation, `force_terminate_process(2)`, succeeds on the
ZOMBIE process and overwrites `end_tick` with 2 — so `end_tick` is not
assigned exactly once. -/
theorem c2_end_tick_reassigned :
    endTickOf engC6.process_table 2 = some 1 ∧
    stateOf engC2a.process_table 2 = some PState.ZOMBIE ∧
    engC2a.tick = 2 ∧
    (force_terminate_process engC2a 2).1 = true ∧
    endTickOf (force_terminate_process engC2a 2).2.process_table 2 = some 2 := by decide

/-!  Basic lemmas about the table and queue primitives. -/

theorem tableGet_tableModify_self (t : Table) (k : Nat) (f : Process → Process) :
    tableGet (tableModify t k f) k = (tableGet t k).map f := by
  induction t with
  | nil => rfl
  | cons kv rest ih =>
      by_cases h : kv.1 = k
      · simp [tableModify, tableGet, h]
      · simp [tableModify, tableGet, h, ih]

theorem tableGet_tableModify_ne (t : Table) (k k' : Nat) (hne : k' ≠ k)
    (f : Process → Process) :
    tableGet (tableModify t k f) k' = tableGet t k' := by
  have hkk : ¬(k = k') := fun hh => hne hh.symm
  induction t with
  | nil => rfl
  | cons kv rest ih =>
      by_cases h : kv.1 = k
      · simp [tableModify, tableGet, h, hkk, ih]
      · simp [tableModify, tableGet, h, ih]

theorem tableGet_tableSet_self (t : Table) (k : Nat) (v : Process) :
    tableGet (tableSet t k v) k = some v := by
  induction t with
  | nil => simp [tableSet, tableGet]
  | cons kv rest ih =>
      by_cases h : kv.1 = k
      · simp [tableSet, tableGet, h]
      · simp [tableSet, tableGet, h, ih]

theorem tableGet_tableSet_ne (t : Table) (k k' : Nat) (hne : k' ≠ k) (v : Process) :
    tableGet (tableSet t k v) k' = tableGet t k' := by
  have hkk : ¬(k = k') := fun hh => hne hh.symm
  induction t with
  | nil => simp [tableSet, tableGet, hkk]
  | cons kv rest ih =>
      by_cases h : kv.1 = k
      · simp [tableSet, tableGet, h, hkk]
      · simp [tableSet, tableGet, h, ih]

theorem qget_of_le (qs : List (List Nat)) : ∀ i, qs.length ≤ i → qget qs i = [] := by
  induction qs with
  | nil => intro i _; cases i <;> rfl
  | cons q rest ih =>
      intro i hi
      cases i with
      | zero => simp at hi
      | succ n => exact ih n (by simpa using hi)

theorem qget_qset_self (qs : List (List Nat)) : ∀ i, i < qs.length →
    ∀ l, qget (qset qs i l) i = l := by
  induction qs with
  | nil => intro i hi; simp at hi
  | cons q rest ih =>
      intro i hi l
      cases i with
      | zero => rfl
      | succ n => exact ih n (by simpa using hi) l

theorem qget_qset_ne (qs : List (List Nat)) : ∀ i j, j ≠ i →
    ∀ l, qget (qset qs i l) j = qget qs j := by
  induction qs with
  | nil => intro i j _ l; cases i <;> rfl
  | cons q rest ih =>
      intro i j hne l
      cases i with
      | zero => cases j with
          | zero => exact absurd rfl hne
          | succ m => rfl
      | succ n =>
          cases j with
          | zero => rfl
          | succ m => exact ih n m (fun h => hne (by rw [h])) l

theorem qset_length (qs : List (List Nat)) : ∀ i l, (qset qs i l).length = qs.length := by
  induction qs with
  | nil => intro i l; cases i <;> rfl
  | cons q rest ih =>
      intro i l
      cases i with
      | zero => rfl
      | succ n => simp [qset, ih n l]

theorem qcount_nil (pid : Nat) : qcount [] pid = 0 := rfl

theorem qcount_cons (q : List Nat) (qs : List (List Nat)) (pid : Nat) :
    qcount (q :: qs) pid = q.count pid + qcount qs pid := by
  simp [qcount]

theorem count_qget_le (qs : List (List Nat)) (pid : Nat) :
    ∀ i, (qget qs i).count pid ≤ qcount qs pid := by
  induction qs with
  | nil => intro i; cases i <;> simp [qget, qcount_nil]
  | cons q rest ih =>
      intro i
      cases i with
      | zero => rw [qcount_cons]; exact Nat.le_add_right _ _
      | succ n =>
          rw [qcount_cons]
          calc (qget rest n).count pid ≤ qcount rest pid := ih n
          _ ≤ q.count pid + qcount rest pid := Nat.le_add_left _ _

theorem two_queues_count_le (qs : List (List Nat)) (pid : Nat) :
    ∀ i j, i ≠ j → (qget qs i).count pid + (qget qs j).count pid ≤ qcount qs pid := by
  induction qs with
  | nil => intro i j _; cases i <;> cases j <;> simp [qget, qcount_nil]
  | cons q rest ih =>
      intro i j hij
      cases i with
      | zero =>
          cases j with
          | zero => exact absurd rfl hij
          | succ m =>
              rw [qcount_cons]
              have := count_qget_le rest pid m
              simp only [qget]
              omega
      | succ n =>
          cases j with
          | zero =>
              rw [qcount_cons]
              have := count_qget_le rest pid n
              simp only [qget]
              omega
          | succ m =>
              rw [qcount_cons]
              have := ih n m (fun h => hij (by rw [h]))
              simp only [qget]
              omega

theorem one_le_count_of_mem {l : List Nat} {a : Nat} (h : a ∈ l) : 1 ≤ l.count a := by
  have := List.count_pos_iff.mpr h
  omega

theorem remove_from_ready_current (s : PriorityScheduler) (pid : Nat) :
    (remove_from_ready s pid).current_running_pid = s.current_running_pid := by
  unfold remove_from_ready
  cases (List.range 10).find? (fun i => decide (pid ∈ qget s.queues i)) <;> rfl

theorem remove_from_ready_not_mem (s : PriorityScheduler) (pid : Nat)
    (hlen : s.queues.length = 10) (hq : qcount s.queues pid ≤ 1) :
    ∀ i, pid ∉ qget (remove_from_ready s pid).queues i := by
  intro i
  unfold remove_from_ready
  cases hfind : (List.range 10).find? (fun i => decide (pid ∈ qget s.queues i)) with
  | none =>
      simp only
      intro hmem
      by_cases hi : i < 10
      · have hnone := List.find?_eq_none.mp hfind i (List.mem_range.mpr hi)
        simp at hnone
        exact hnone hmem
      · rw [qget_of_le s.queues i (by omega)] at hmem
        exact absurd hmem (List.not_mem_nil pid)
  | some j =>
      have hj := List.find?_some hfind
      have hjmem : pid ∈ qget s.queues j := by simpa using hj
      have hj10 : j < 10 := List.mem_range.mp (List.mem_of_find?_eq_some hfind)
      simp only
      by_cases hij : i = j
      · subst hij
        rw [qget_qset_self s.queues i (by omega)]
        intro hmem
        rcases List.mem_filter.mp hmem with ⟨_, hx⟩
        simp at hx
      · rw [qget_qset_ne s.queues j i hij]
        intro hmem
        have h1 := one_le_count_of_mem hjmem
        have h2 := one_le_count_of_mem hmem
        have := two_queues_count_le s.queues pid i j hij
        omega

/-- C1 (amended): the termination decision — shared by natural termination in
`_execute_current_process` and by `force_terminate_process` — sends a process
whose `parent_pid` is falsy (None **or 0**, by the `if process.parent_pid:`
truthiness test) or absent from the table straight to TERMINATED; otherwise a
non-waiting parent yields ZOMBIE plus the zombie list, and a waiting parent
yields TERMINATED with `reaped = true`.  In particular a child of init
(`parent_pid = 0`) is TERMINATED directly even though pid 0 is in the table. -/
theorem c1_termination_decision (e : SimulatorEngine) (pid : Nat) (p : Process)
    (hget : tableGet e.process_table pid = some p) :
    ((optTruthy p.parent_pid = false ∨ p.parent_pid.bind (tableGet e.process_table) = none) →
       applyTerminationDecision e pid =
         { e with process_table := tableModify e.process_table pid (fun q => { q with state := PState.TERMINATED }) }) ∧
    (∀ pp parent, p.parent_pid = some pp → pp ≠ 0 →
       tableGet e.process_table pp = some parent →
       (parent.waiting_for_child = false →
          applyTerminationDecision e pid =
            { e with process_table := tableModify e.process_table pid (fun q => { q with state := PState.ZOMBIE }),
                     zombie_list := e.zombie_list ++ [pid] }) ∧
       (parent.waiting_for_child = true →
          applyTerminationDecision e pid =
            { e with process_table := tableModify e.process_table pid (fun q => { q with state := PState.TERMINATED, reaped := true }) })) := by
  constructor
  · intro h
    match hpp : p.parent_pid with
    | none => simp [applyTerminationDecision, hget, hpp]
    | some 0 => simp [applyTerminationDecision, hget, hpp]
    | some (k + 1) =>
        rcases h with h | h
        · rw [hpp] at h; exact absurd h (by simp [optTruthy])
        · rw [hpp] at h
          simp only [Option.bind_eq_bind, Option.some_bind] at h
          simp [applyTerminationDecision, hget, hpp, h]
  · intro pp parent hpp hpp0 hparent
    obtain ⟨k, rfl⟩ := Nat.exists_eq_succ_of_ne_zero hpp0
    refine ⟨fun hw => ?_, fun hw => ?_⟩
    · simp [applyTerminationDecision, hget, hpp, hparent, hw]
    · simp [applyTerminationDecision, hget, hpp, hparent, hw]

/-- Witness for `c1_termination_decision`: the init process itself has no
parent, so the decision on it is direct termination. -/
theorem c1_termination_decision_witness :
    tableGet mkEngine.process_table 0 = some initProcess ∧
    applyTerminationDecision mkEngine 0 =
      { mkEngine with process_table := tableModify mkEngine.process_table 0 (fun q => { q with state := PState.TERMINATED }) } :=
  ⟨rfl, (c1_termination_decision mkEngine 0 initProcess rfl).1 (Or.inl rfl)⟩

/-- C5: `force_block_process(pid, io_time)` fails (returning `false` with the
engine untouched) exactly on unknown pids, pid 0, or states outside
{READY, RUNNING}; on success it returns `true`, marks the process BLOCKED
with `io_remaining = io_time` and `blocked_count` bumped, appends the pid to
the blocked list, and leaves it neither running nor in any ready queue.
(The two scheduler-shape hypotheses are the queue-exclusivity invariant of
reachable engines.) -/
theorem c5_force_block_spec (e : SimulatorEngine) (pid : Nat) (io dIo : Int)
    (hlen : e.sched.queues.length = 10) (hq : qcount e.sched.queues pid ≤ 1) :
    (((tableGet e.process_table pid).isNone ∨ pid = 0 ∨
        (∀ p, tableGet e.process_table pid = some p →
           p.state ≠ PState.READY ∧ p.state ≠ PState.RUNNING)) →
       force_block_process e pid (some io) dIo = (false, e)) ∧
    (∀ p, tableGet e.process_table pid = some p → pid ≠ 0 →
       (p.state = PState.READY ∨ p.state = PState.RUNNING) →
       (force_block_process e pid (some io) dIo).1 = true ∧
       tableGet (force_block_process e pid (some io) dIo).2.process_table pid =
         some { p with state := PState.BLOCKED, io_remaining := io,
                       blocked_count := p.blocked_count + 1 } ∧
       (force_block_process e pid (some io) dIo).2.blocked_list = e.blocked_list ++ [pid] ∧
       (force_block_process e pid (some io) dIo).2.sched.current_running_pid ≠ some pid ∧
       (∀ i, pid ∉ qget (force_block_process e pid (some io) dIo).2.sched.queues i)) := by
  constructor
  · intro h
    match hg : tableGet e.process_table pid with
    | none => simp [force_block_process, hg]
    | some p =>
        rcases h with h | h | h
        · rw [hg] at h; simp at h
        · subst h; simp [force_block_process, hg]
        · have hst := h p hg
          by_cases h0 : pid = 0
          · subst h0; simp [force_block_process, hg]
          · have : ¬(p.state = PState.READY ∨ p.state = PState.RUNNING) := by
              rcases hst with ⟨h1, h2⟩
              rintro (hh | hh) <;> [exact h1 hh; exact h2 hh]
            simp [force_block_process, hg, h0, this]
  · intro p hget h0 hst
    have hres : force_block_process e pid (some io) dIo =
        (true,
         { e with
             process_table := tableModify e.process_table pid (fun q => { q with state := PState.BLOCKED, io_remaining := io, blocked_count := q.blocked_count + 1 }),
             sched := remove_from_ready (if e.sched.current_running_pid = some pid then { e.sched with current_running_pid := none, current_quantum_used := 0 } else e.sched) pid,
             blocked_list := e.blocked_list ++ [pid] }) := by
      simp [force_block_process, hget, h0, hst]
    refine ⟨by rw [hres], ?_, by rw [hres], ?_, ?_⟩
    · rw [hres]
      simp only
      rw [tableGet_tableModify_self, hget]
      rfl
    · rw [hres]
      simp only
      rw [remove_from_ready_current]
      by_cases hc : e.sched.current_running_pid = some pid
      · rw [if_pos hc]
        simp
      · rw [if_neg hc]
        exact hc
    · intro i
      rw [hres]
      simp only
      by_cases hc : e.sched.current_running_pid = some pid
      · rw [if_pos hc]
        exact remove_from_ready_not_mem { e.sched with current_running_pid := none, current_quantum_used := 0 } pid hlen hq i
      · rw [if_neg hc]
        exact remove_from_ready_not_mem e.sched pid hlen hq i

/-- Witness for `c5_force_block_spec`: blocking the READY pid 1 of `engC3b`
succeeds, and blocking pid 0 fails with the engine unchanged. -/
theorem c5_force_block_spec_witness :
    (force_block_process engC3b 1 (some 4) 0).1 = true ∧
    (force_block_process engC3b 1 (some 4) 0).2.blocked_list = engC3b.blocked_list ++ [1] ∧
    (∀ i, 1 ∉ qget (force_block_process engC3b 1 (some 4) 0).2.sched.queues i) ∧
    force_block_process engC3b 0 (some 4) 0 = (false, engC3b) := by
  have h := c5_force_block_spec engC3b 1 4 0 (by decide) (by decide)
  obtain ⟨h1, h2, h3, h4, h5⟩ :=
    h.2 procC3b (by decide) (by decide) (Or.inl (by decide))
  exact ⟨h1, h3, h5,
    (c5_force_block_spec engC3b 0 4 0 (by decide) (by decide)).1 (Or.inr (Or.inl rfl))⟩

/-- An auxiliary induction for `wait_for_child`: a children scan that meets no
ZOMBIE changes nothing and collects nothing. -/
theorem waitStep_no_zombie (l : List Nat) (e : SimulatorEngine) (acc : List Nat)
    (h : ∀ c ∈ l, ∀ p, tableGet e.process_table c = some p → p.state ≠ PState.ZOMBIE) :
    waitStep l e acc = (acc, e) := by
  induction l with
  | nil => rfl
  | cons c rest ih =>
      cases hg : tableGet e.process_table c with
      | none =>
          simp only [waitStep, hg]
          exact ih (fun c' hc' => h c' (List.mem_cons_of_mem _ hc'))
      | some child =>
          simp only [waitStep, hg]
          rw [if_neg (h c (List.mem_cons_self c rest) child hg)]
          exact ih (fun c' hc' => h c' (List.mem_cons_of_mem _ hc'))

/-- C10: `wait_for_child` on an unknown parent returns `[]` and leaves the
engine unchanged, and likewise when the parent exists but has no child
currently in state ZOMBIE. -/
theorem c10_wait_for_child_noop (e : SimulatorEngine) (pp : Nat) :
    (tableGet e.process_table pp = none → wait_for_child e pp = ([], e)) ∧
    (∀ parent, tableGet e.process_table pp = some parent →
       (∀ c ∈ parent.children, ∀ p, tableGet e.process_table c = some p →
          p.state ≠ PState.ZOMBIE) →
       wait_for_child e pp = ([], e)) := by
  constructor
  · intro h
    simp [wait_for_child, h]
  · intro parent hget h
    simp only [wait_for_child, hget]
    exact waitStep_no_zombie parent.children e [] h

/-- Witness for `c10_wait_for_child_noop`: pid 7 is unknown to a fresh
engine, and init (pid 0) has no children at all. -/
theorem c10_wait_for_child_noop_witness :
    wait_for_child mkEngine 7 = ([], mkEngine) ∧
    wait_for_child mkEngine 0 = ([], mkEngine) :=
  ⟨(c10_wait_for_child_noop mkEngine 7).1 rfl,
   (c10_wait_for_child_noop mkEngine 0).2 initProcess rfl
     (fun c hc => absurd hc (List.not_mem_nil c))⟩

/-- One execute unit that neither terminates, blocks, ages nor preempts:
burn a burst unit, advance the quantum and aging counters. -/
theorem executeCurrent_noPreempt (e : SimulatorEngine) (o : TickOracle) (pid : Nat) (p : Process)
    (hcur : e.sched.current_running_pid = some pid)
    (hget : tableGet e.process_table pid = some p)
    (hboost : e.sched.priority_boost_counter + 1 < boostInterval)
    (hrem : ¬ p.remaining_burst - 1 ≤ 0)
    (hpb : e.p_block = 0) (hr : 0 ≤ o.rBlock)
    (hq : ∀ i : Nat, i < 10 → (i : Int) < p.priority → qget e.sched.queues i = [])
    (hquant : ¬ (e.sched.quantum ≤ ((e.sched.current_quantum_used + 1 : Nat) : Int))) :
    executeCurrent e o = { e with
      cpu_busy_ticks := e.cpu_busy_ticks + 1,
      process_table := tableModify e.process_table pid (fun q => { q with remaining_burst := q.remaining_burst - 1 }),
      sched := { e.sched with current_quantum_used := e.sched.current_quantum_used + 1, priority_boost_counter := e.sched.priority_boost_counter + 1 } } := by
  have hmod : tableGet (tableModify e.process_table pid (fun q => { q with remaining_burst := q.remaining_burst - 1 })) pid
      = some { p with remaining_burst := p.remaining_burst - 1 } := by
    rw [tableGet_tableModify_self, hget]; rfl
  have hnb : ¬ (o.rBlock < (0 : ℚ)) := not_lt.mpr hr
  have hnboost : ¬ (e.sched.priority_boost_counter + 1 ≥ boostInterval) := by omega
  have hany : ((List.range 10).any
      (fun q => decide ((q : Int) < p.priority) && !(qget e.sched.queues q).isEmpty)) = false := by
    rw [List.any_eq_false]
    intro x hx
    by_cases hlt : (x : Int) < p.priority
    · rw [hq x (List.mem_range.mp hx) hlt]
      simp
    · simp [hlt]
  simp only [executeCurrent, hcur, hget, schedTick, Option.isSome_some, if_true, hnboost,
    if_false, hmod, hrem, hpb, hnb, preempt_current, hany, ge_iff_le, hquant, ite_false,
    ite_true, Bool.false_eq_true]

/-- One execute unit that hits the quantum wall (priority preemption silent):
burn a burst unit, then preempt back to READY at the current priority. -/
theorem executeCurrent_quantumPreempt (e : SimulatorEngine) (o : TickOracle) (pid : Nat) (p : Process)
    (hcur : e.sched.current_running_pid = some pid)
    (hget : tableGet e.process_table pid = some p)
    (hboost : e.sched.priority_boost_counter + 1 < boostInterval)
    (hrem : ¬ p.remaining_burst - 1 ≤ 0)
    (hpb : e.p_block = 0) (hr : 0 ≤ o.rBlock)
    (hq : ∀ i : Nat, i < 10 → (i : Int) < p.priority → qget e.sched.queues i = [])
    (hquant : e.sched.quantum ≤ ((e.sched.current_quantum_used + 1 : Nat) : Int))
    (hnotin : pid ∉ qget e.sched.queues (clampPriority p.priority)) :
    executeCurrent e o = { e with
      cpu_busy_ticks := e.cpu_busy_ticks + 1,
      process_table := tableModify (tableModify e.process_table pid (fun q => { q with remaining_burst := q.remaining_burst - 1 })) pid (fun q => { q with state := PState.READY, preempt_count := q.preempt_count + 1 }),
      sched := { e.sched with
        queues := qset e.sched.queues (clampPriority p.priority) (qget e.sched.queues (clampPriority p.priority) ++ [pid]),
        current_running_pid := none,
        current_quantum_used := 0,
        context_switches := e.sched.context_switches + 1,
        priority_boost_counter := e.sched.priority_boost_counter + 1 } } := by
  have hmod : tableGet (tableModify e.process_table pid (fun q => { q with remaining_burst := q.remaining_burst - 1 })) pid
      = some { p with remaining_burst := p.remaining_burst - 1 } := by
    rw [tableGet_tableModify_self, hget]; rfl
  have hmod2 : tableGet (tableModify (tableModify e.process_table pid (fun q => { q with remaining_burst := q.remaining_burst - 1 })) pid (fun q => { q with state := PState.READY, preempt_count := q.preempt_count + 1 })) pid
      = some { p with remaining_burst := p.remaining_burst - 1, state := PState.READY, preempt_count := p.preempt_count + 1 } := by
    rw [tableGet_tableModify_self, hmod]; rfl
  have hnb : ¬ (o.rBlock < (0 : ℚ)) := not_lt.mpr hr
  have hnboost : ¬ (e.sched.priority_boost_counter + 1 ≥ boostInterval) := by omega
  have hany : ((List.range 10).any
      (fun q => decide ((q : Int) < p.priority) && !(qget e.sched.queues q).isEmpty)) = false := by
    rw [List.any_eq_false]
    intro x hx
    by_cases hlt : (x : Int) < p.priority
    · rw [hq x (List.mem_range.mp hx) hlt]
      simp
    · simp [hlt]
  simp only [executeCurrent, hcur, hget, schedTick, Option.isSome_some, if_true, hnboost,
    if_false, hmod, hrem, hpb, hnb, preempt_current, hany, ge_iff_le, hquant, ite_false,
    ite_true, Bool.false_eq_true, preempt_process, add_to_ready, hmod2, hnotin]

/-- C4: a RUNNING process at the start of its quantum window with
`quantum = 3`, `total_burst = remaining_burst = 10`, `p_block = 0`, no
strictly-higher-priority ready process (so priority preemption never fires;
the aging-cadence bound keeps the 30% promotion lottery out of the window)
runs exactly 3 consecutive execute units and is then preempted back to
READY with `preempt_count` incremented by 1, the running slot cleared, the
quantum counter reset, and the pid re-enqueued at its current priority. -/
theorem c4_quantum_preemption (e : SimulatorEngine) (o1 o2 o3 : TickOracle) (pid : Nat) (p : Process)
    (hcur : e.sched.current_running_pid = some pid)
    (hget : tableGet e.process_table pid = some p)
    (hrun : p.state = PState.RUNNING)
    (hquantum : e.sched.quantum = 3)
    (hused : e.sched.current_quantum_used = 0)
    (htb : p.total_burst = 10) (hrb : p.remaining_burst = 10)
    (hpb : e.p_block = 0)
    (hr1 : 0 ≤ o1.rBlock) (hr2 : 0 ≤ o2.rBlock) (hr3 : 0 ≤ o3.rBlock)
    (hboost : e.sched.priority_boost_counter + 3 < boostInterval)
    (hlen : e.sched.queues.length = 10)
    (hq : ∀ i : Nat, i < 10 → (i : Int) < p.priority → qget e.sched.queues i = [])
    (hnotin : pid ∉ qget e.sched.queues (clampPriority p.priority)) :
    (stateOf (executeCurrent e o1).process_table pid = some PState.RUNNING ∧
     (executeCurrent e o1).sched.current_running_pid = some pid ∧
     (tableGet (executeCurrent e o1).process_table pid).map Process.preempt_count = some p.preempt_count) ∧
    (stateOf (executeCurrent (executeCurrent e o1) o2).process_table pid = some PState.RUNNING ∧
     (executeCurrent (executeCurrent e o1) o2).sched.current_running_pid = some pid ∧
     (tableGet (executeCurrent (executeCurrent e o1) o2).process_table pid).map Process.preempt_count = some p.preempt_count) ∧
    (stateOf (executeCurrent (executeCurrent (executeCurrent e o1) o2) o3).process_table pid = some PState.READY ∧
     (tableGet (executeCurrent (executeCurrent (executeCurrent e o1) o2) o3).process_table pid).map Process.preempt_count = some (p.preempt_count + 1) ∧
     (executeCurrent (executeCurrent (executeCurrent e o1) o2) o3).sched.current_running_pid = none ∧
     (executeCurrent (executeCurrent (executeCurrent e o1) o2) o3).sched.current_quantum_used = 0 ∧
     pid ∈ qget (executeCurrent (executeCurrent (executeCurrent e o1) o2) o3).sched.queues (clampPriority p.priority)) := by
  have E1 := executeCurrent_noPreempt e o1 pid p hcur hget (by omega)
    (by omega) hpb hr1 hq
    (by rw [hquantum, hused]; decide)
  have hcur1 : (executeCurrent e o1).sched.current_running_pid = some pid := by
    rw [E1]; exact hcur
  have hget1 : tableGet (executeCurrent e o1).process_table pid =
      some { p with remaining_burst := p.remaining_burst - 1 } := by
    rw [E1]
    show tableGet (tableModify e.process_table pid _) pid = _
    rw [tableGet_tableModify_self, hget]
    rfl
  have E2 := executeCurrent_noPreempt (executeCurrent e o1) o2 pid
    { p with remaining_burst := p.remaining_burst - 1 } hcur1 hget1
    (by rw [E1]; show e.sched.priority_boost_counter + 1 + 1 < boostInterval; omega)
    (by show ¬ p.remaining_burst - 1 - 1 ≤ 0; omega)
    (by rw [E1]; exact hpb) hr2
    (fun i hi hlt => by rw [E1]; exact hq i hi hlt)
    (by rw [E1]
        show ¬ (e.sched.quantum ≤ ((e.sched.current_quantum_used + 1 + 1 : Nat) : Int))
        rw [hquantum, hused]; decide)
  have hcur2 : (executeCurrent (executeCurrent e o1) o2).sched.current_running_pid = some pid := by
    rw [E2]; exact hcur1
  have hget2 : tableGet (executeCurrent (executeCurrent e o1) o2).process_table pid =
      some { p with remaining_burst := p.remaining_burst - 1 - 1 } := by
    rw [E2]
    show tableGet (tableModify (executeCurrent e o1).process_table pid _) pid = _
    rw [tableGet_tableModify_self, hget1]
    rfl
  have E3 := executeCurrent_quantumPreempt (executeCurrent (executeCurrent e o1) o2) o3 pid
    { p with remaining_burst := p.remaining_burst - 1 - 1 } hcur2 hget2
    (by rw [E2, E1]; show e.sched.priority_boost_counter + 1 + 1 + 1 < boostInterval; omega)
    (by show ¬ p.remaining_burst - 1 - 1 - 1 ≤ 0; omega)
    (by rw [E2, E1]; exact hpb) hr3
    (fun i hi hlt => by rw [E2, E1]; exact hq i hi hlt)
    (by rw [E2, E1]
        show e.sched.quantum ≤ ((e.sched.current_quantum_used + 1 + 1 + 1 : Nat) : Int)
        rw [hquantum, hused]; decide)
    (by rw [E2, E1]; exact hnotin)
  have hget3 : tableGet (executeCurrent (executeCurrent (executeCurrent e o1) o2) o3).process_table pid =
      some { p with remaining_burst := p.remaining_burst - 1 - 1 - 1,
                    state := PState.READY, preempt_count := p.preempt_count + 1 } := by
    rw [E3]
    show tableGet (tableModify (tableModify (executeCurrent (executeCurrent e o1) o2).process_table pid _) pid _) pid = _
    rw [tableGet_tableModify_self, tableGet_tableModify_self, hget2]
    rfl
  refine ⟨⟨?_, hcur1, ?_⟩, ⟨?_, hcur2, ?_⟩, ?_, ?_, ?_, ?_, ?_⟩
  · simp [stateOf, hget1, hrun]
  · simp [hget1]
  · simp [stateOf, hget2, hrun]
  · simp [hget2]
  · simp [stateOf, hget3]
  · simp [hget3]
  · rw [E3]
  · rw [E3]
  · rw [E3]
    show pid ∈ qget (qset (executeCurrent (executeCurrent e o1) o2).sched.queues
      (clampPriority p.priority) (qget (executeCurrent (executeCurrent e o1) o2).sched.queues (clampPriority p.priority) ++ [pid])) (clampPriority p.priority)
    have hlen2 : (executeCurrent (executeCurrent e o1) o2).sched.queues.length = 10 := by
      rw [E2, E1]; exact hlen
    have hcl : clampPriority p.priority < 10 := by
      unfold clampPriority; omega
    rw [qget_qset_self _ (clampPriority p.priority) (by omega) _]
    simp

/-- Witness for `c4_quantum_preemption`: the mid-run engine `engC4` (pid 1
RUNNING at priority 5, pid 2 READY at priority 5, quantum 3) satisfies every
hypothesis and is preempted on the third unit. -/
theorem c4_quantum_preemption_witness :
    (stateOf (executeCurrent engC4 oracleZ).process_table 1 = some PState.RUNNING ∧
     (executeCurrent engC4 oracleZ).sched.current_running_pid = some 1 ∧
     (tableGet (executeCurrent engC4 oracleZ).process_table 1).map Process.preempt_count = some procC4run.preempt_count) ∧
    (stateOf (executeCurrent (executeCurrent engC4 oracleZ) oracleZ).process_table 1 = some PState.RUNNING ∧
     (executeCurrent (executeCurrent engC4 oracleZ) oracleZ).sched.current_running_pid = some 1 ∧
     (tableGet (executeCurrent (executeCurrent engC4 oracleZ) oracleZ).process_table 1).map Process.preempt_count = some procC4run.preempt_count) ∧
    (stateOf (executeCurrent (executeCurrent (executeCurrent engC4 oracleZ) oracleZ) oracleZ).process_table 1 = some PState.READY ∧
     (tableGet (executeCurrent (executeCurrent (executeCurrent engC4 oracleZ) oracleZ) oracleZ).process_table 1).map Process.preempt_count = some (procC4run.preempt_count + 1) ∧
     (executeCurrent (executeCurrent (executeCurrent engC4 oracleZ) oracleZ) oracleZ).sched.current_running_pid = none ∧
     (executeCurrent (executeCurrent (executeCurrent engC4 oracleZ) oracleZ) oracleZ).sched.current_quantum_used = 0 ∧
     1 ∈ qget (executeCurrent (executeCurrent (executeCurrent engC4 oracleZ) oracleZ) oracleZ).sched.queues (clampPriority procC4run.priority)) :=
  c4_quantum_preemption engC4 oracleZ oracleZ oracleZ 1 procC4run rfl rfl rfl rfl rfl rfl rfl rfl
    (by decide) (by decide) (by decide) (by decide) rfl (by decide) (by decide)

/-!  Helper lemmas for the invariant proofs. -/

theorem isSome_tableModify (t : Table) (k : Nat) (f : Process → Process) (x : Nat) :
    (tableGet (tableModify t k f) x).isSome = (tableGet t x).isSome := by
  by_cases h : x = k
  · subst h; rw [tableGet_tableModify_self]; cases tableGet t x <;> rfl
  · rw [tableGet_tableModify_ne t k x h]

theorem map_state_tableModify (t : Table) (k : Nat) (f : Process → Process)
    (hf : ∀ q, (f q).state = q.state) (x : Nat) :
    (tableGet (tableModify t k f) x).map Process.state =
      (tableGet t x).map Process.state := by
  by_cases h : x = k
  · subst h
    rw [tableGet_tableModify_self]
    cases tableGet t x with
    | none => rfl
    | some p => simp [hf p]
  · rw [tableGet_tableModify_ne t k x h]

theorem bind_end_tableModify (t : Table) (k : Nat) (f : Process → Process)
    (hf : ∀ q, (f q).end_tick = q.end_tick) (x : Nat) :
    (tableGet (tableModify t k f) x).bind Process.end_tick =
      (tableGet t x).bind Process.end_tick := by
  by_cases h : x = k
  · subst h
    rw [tableGet_tableModify_self]
    cases tableGet t x with
    | none => rfl
    | some p => simp [hf p]
  · rw [tableGet_tableModify_ne t k x h]

theorem qcount_qset (qs : List (List Nat)) : ∀ i, i < qs.length → ∀ l x,
    qcount (qset qs i l) x + (qget qs i).count x = qcount qs x + l.count x := by
  induction qs with
  | nil => intro i hi; simp at hi
  | cons q rest ih =>
      intro i hi l x
      cases i with
      | zero =>
          simp only [qset, qget, qcount_cons]
          omega
      | succ n =>
          simp only [qset, qget, qcount_cons]
          have := ih n (by simpa using hi) l x
          omega

theorem one_le_qcount_of_mem {qs : List (List Nat)} {pid i : Nat}
    (h : pid ∈ qget qs i) : 1 ≤ qcount qs pid :=
  le_trans (one_le_count_of_mem h) (count_qget_le qs pid i)

theorem qcount_eq_zero_of (x : Nat) : ∀ qs : List (List Nat),
    (∀ i, x ∉ qget qs i) → qcount qs x = 0 := by
  intro qs
  induction qs with
  | nil => intro _; rfl
  | cons q rest ih =>
      intro h
      rw [qcount_cons]
      have hq : q.count x = 0 := List.count_eq_zero.mpr (h 0)
      have hrest := ih (fun i => h (i + 1))
      omega

theorem not_mem_qget_of_qcount_zero {qs : List (List Nat)} {x : Nat}
    (h : qcount qs x = 0) (i : Nat) : x ∉ qget qs i := by
  intro hmem
  have := one_le_qcount_of_mem hmem
  omega

theorem count_filter_ne (l : List Nat) (pid x : Nat) (hne : x ≠ pid) :
    (l.filter (fun y => y ≠ pid)).count x = l.count x := by
  induction l with
  | nil => rfl
  | cons a rest ih =>
      rw [List.filter_cons]
      by_cases ha : a = pid
      · rw [if_neg (by simp [ha]), ih, List.count_cons]
        have h2 : ¬ (a = x) := by intro h; exact hne (by omega)
        simp [h2]
      · rw [if_pos (by simp [ha]), List.count_cons, List.count_cons, ih]

theorem clampPriority_lt (p : Int) : clampPriority p < 10 := by
  have h1 : min (max p 0) 9 ≤ 9 := min_le_right _ _
  unfold clampPriority
  omega

theorem enqueue_spec (s : PriorityScheduler) (pid i : Nat) (hi : i < 10)
    (hlen : s.queues.length = 10) :
    ∃ qs', (if pid ∈ qget s.queues i then s
            else { s with queues := qset s.queues i (qget s.queues i ++ [pid]) }) =
             { s with queues := qs' } ∧
      qs'.length = 10 ∧ (∀ x, x ≠ pid → qcount qs' x = qcount s.queues x) ∧
      (qcount s.queues pid = 0 → qcount qs' pid = 1) ∧
      qcount qs' pid ≤ qcount s.queues pid + 1 ∧ 1 ≤ qcount qs' pid := by
  by_cases hmem : pid ∈ qget s.queues i
  · refine ⟨s.queues, by rw [if_pos hmem], hlen, fun x _ => rfl, ?_, Nat.le_succ _,
      one_le_qcount_of_mem hmem⟩
    intro h0
    have := one_le_qcount_of_mem hmem
    omega
  · have hq := qcount_qset s.queues i (by omega) (qget s.queues i ++ [pid])
    have hc0 : (qget s.queues i).count pid = 0 := List.count_eq_zero.mpr hmem
    refine ⟨qset s.queues i (qget s.queues i ++ [pid]), by rw [if_neg hmem],
      by rw [qset_length]; exact hlen, ?_, ?_, ?_, ?_⟩
    · intro x hx
      have h1 := hq x
      have hcnt : (qget s.queues i ++ [pid]).count x = (qget s.queues i).count x := by
        rw [List.count_append]
        simp [List.count_cons, hx]
      omega
    · intro h0
      have h1 := hq pid
      have hcnt : (qget s.queues i ++ [pid]).count pid = (qget s.queues i).count pid + 1 := by
        rw [List.count_append]
        simp [List.count_cons]
      omega
    · have h1 := hq pid
      have hcnt : (qget s.queues i ++ [pid]).count pid = (qget s.queues i).count pid + 1 := by
        rw [List.count_append]
        simp [List.count_cons]
      omega
    · have h1 := hq pid
      have hcnt : (qget s.queues i ++ [pid]).count pid = (qget s.queues i).count pid + 1 := by
        rw [List.count_append]
        simp [List.count_cons]
      omega

theorem add_to_ready_spec (s : PriorityScheduler) (pid : Nat) (t : Table)
    (hlen : s.queues.length = 10) :
    ∃ qs', add_to_ready s pid t = { s with queues := qs' } ∧
      qs'.length = 10 ∧ (∀ x, x ≠ pid → qcount qs' x = qcount s.queues x) ∧
      (qcount s.queues pid = 0 → qcount qs' pid = 1) ∧
      qcount qs' pid ≤ qcount s.queues pid + 1 ∧ 1 ≤ qcount qs' pid := by
  unfold add_to_ready
  cases hg : tableGet t pid with
  | some p => exact enqueue_spec s pid (clampPriority p.priority) (clampPriority_lt _) hlen
  | none => exact enqueue_spec s pid 5 (by omega) hlen

theorem remove_from_ready_spec (s : PriorityScheduler) (pid : Nat)
    (hlen : s.queues.length = 10) :
    ∃ qs', remove_from_ready s pid = { s with queues := qs' } ∧
      qs'.length = 10 ∧ (∀ x, x ≠ pid → qcount qs' x = qcount s.queues x) ∧
      qcount qs' pid ≤ qcount s.queues pid := by
  unfold remove_from_ready
  cases hfind : (List.range 10).find? (fun i => decide (pid ∈ qget s.queues i)) with
  | none => exact ⟨s.queues, rfl, hlen, fun _ _ => rfl, le_refl _⟩
  | some j =>
      have hj := List.find?_some hfind
      have hjmem : pid ∈ qget s.queues j := by simpa using hj
      have hj10 : j < 10 := List.mem_range.mp (List.mem_of_find?_eq_some hfind)
      have hq := qcount_qset s.queues j (by omega) ((qget s.queues j).filter (fun x => x ≠ pid))
      refine ⟨qset s.queues j ((qget s.queues j).filter (fun x => x ≠ pid)), rfl,
        by rw [qset_length]; exact hlen, ?_, ?_⟩
      · intro x hx
        have h1 := hq x
        have h2 := count_filter_ne (qget s.queues j) pid x hx
        omega
      · have h1 := hq pid
        have h2 : ((qget s.queues j).filter (fun x => x ≠ pid)).count pid = 0 := by
          rw [List.count_eq_zero]
          intro hmem
          rcases List.mem_filter.mp hmem with ⟨_, hx⟩
          simp at hx
        have h3 := one_le_count_of_mem hjmem
        omega

theorem qcount_zero_of_remove (s : PriorityScheduler) (pid : Nat)
    (hlen : s.queues.length = 10) (honce : qcount s.queues pid ≤ 1) :
    qcount (remove_from_ready s pid).queues pid = 0 := by
  apply qcount_eq_zero_of
  exact remove_from_ready_not_mem s pid hlen honce

theorem get_next_facts (s : PriorityScheduler) (hlen : s.queues.length = 10) :
    ((get_next_process s).1 = none → (get_next_process s).2 = s) ∧
    (∀ npid, (get_next_process s).1 = some npid →
       (get_next_process s).2.queues.length = 10 ∧
       (get_next_process s).2.current_running_pid = s.current_running_pid ∧
       1 ≤ qcount s.queues npid ∧
       (∀ x, qcount (get_next_process s).2.queues x + (if x = npid then 1 else 0) =
          qcount s.queues x)) := by
  cases hfind : (List.range 10).find? (fun i => !(qget s.queues i).isEmpty) with
  | none =>
      have key : get_next_process s = (none, s) := by
        unfold get_next_process
        simp only [hfind]
      rw [key]
      exact ⟨fun _ => rfl, fun npid h => by simp at h⟩
  | some j =>
      have hj := List.find?_some hfind
      have hj10 : j < 10 := List.mem_range.mp (List.mem_of_find?_eq_some hfind)
      cases hq : qget s.queues j with
      | nil => rw [hq] at hj; simp at hj
      | cons pid rest =>
          have key : get_next_process s = (some pid, { s with queues := qset s.queues j rest }) := by
            unfold get_next_process
            simp only [hfind, hq]
          rw [key]
          refine ⟨fun h => by simp at h, fun npid h => ?_⟩
          have hpid : pid = npid := by simpa using h
          subst hpid
          refine ⟨by rw [qset_length]; exact hlen, rfl, ?_, ?_⟩
          · have hm : pid ∈ qget s.queues j := by rw [hq]; exact List.mem_cons_self _ _
            exact one_le_qcount_of_mem hm
          · intro x
            show qcount (qset s.queues j rest) x + (if x = pid then 1 else 0) = qcount s.queues x
            have hqq := qcount_qset s.queues j (by omega) rest x
            rw [hq, List.count_cons] at hqq
            simp only [beq_iff_eq] at hqq
            by_cases hx : pid = x
            · subst hx
              rw [if_pos rfl] at hqq
              rw [if_pos rfl]
              omega
            · rw [if_neg hx] at hqq
              rw [if_neg (fun h => hx h.symm)]
              omega

theorem map_state_tableModify_priority (t : Table) (k : Nat) (pr : Int) (x : Nat) :
    (tableGet (tableModify t k (fun p => { p with priority := pr })) x).map Process.state =
      (tableGet t x).map Process.state :=
  map_state_tableModify t k (fun p => { p with priority := pr }) (fun _ => rfl) x

theorem bind_end_tableModify_priority (t : Table) (k : Nat) (pr : Int) (x : Nat) :
    (tableGet (tableModify t k (fun p => { p with priority := pr })) x).bind Process.end_tick =
      (tableGet t x).bind Process.end_tick :=
  bind_end_tableModify t k (fun p => { p with priority := pr }) (fun _ => rfl) x

theorem agingQueueStep_facts (qidx : Nat) (hq10 : qidx < 10) :
    ∀ (pending : List Nat) (t : Table) (s : PriorityScheduler) (coins : List Bool)
      (temp : List Nat) (t' : Table) (s' : PriorityScheduler) (coins' : List Bool)
      (temp' : List Nat),
      s.queues.length = 10 →
      agingQueueStep qidx pending t s coins temp = (t', s', coins', temp') →
      s'.queues.length = 10 ∧
      (∀ x, qcount s'.queues x + temp'.count x =
         qcount s.queues x + pending.count x + temp.count x) ∧
      (∀ x, (tableGet t' x).isSome = (tableGet t x).isSome) ∧
      (∀ x, (tableGet t' x).map Process.state = (tableGet t x).map Process.state) ∧
      (∀ x, (tableGet t' x).bind Process.end_tick = (tableGet t x).bind Process.end_tick) ∧
      s'.current_running_pid = s.current_running_pid ∧
      s'.quantum = s.quantum ∧
      s'.current_quantum_used = s.current_quantum_used ∧
      s'.context_switches = s.context_switches ∧
      s'.priority_boost_counter = s.priority_boost_counter ∧
      (1 ≤ qidx → qget s'.queues qidx = qget s.queues qidx) := by
  intro pending
  induction pending with
  | nil =>
      intro t s coins temp t' s' coins' temp' hlen heq
      simp only [agingQueueStep, Prod.mk.injEq] at heq
      obtain ⟨rfl, rfl, rfl, rfl⟩ := heq
      exact ⟨hlen, fun x => by rw [List.count_nil]; omega, fun x => rfl, fun x => rfl,
        fun x => rfl, rfl, rfl, rfl, rfl, rfl, fun _ => rfl⟩
  | cons pid rest ih =>
      intro t s coins temp t' s' coins' temp' hlen heq
      simp only [agingQueueStep] at heq
      cases hg : tableGet t pid with
      | none =>
          rw [hg] at heq
          have H := ih t s coins (temp ++ [pid]) t' s' coins' temp' hlen heq
          refine ⟨H.1, ?_, H.2.2.1, H.2.2.2.1, H.2.2.2.2.1, H.2.2.2.2.2.1,
            H.2.2.2.2.2.2.1, H.2.2.2.2.2.2.2.1, H.2.2.2.2.2.2.2.2.1,
            H.2.2.2.2.2.2.2.2.2.1, H.2.2.2.2.2.2.2.2.2.2⟩
          intro x
          have h1 := H.2.1 x
          rw [List.count_append, List.count_cons, List.count_nil] at h1
          rw [List.count_cons]
          simp only [beq_iff_eq] at h1 ⊢
          omega
      | some p0 =>
          rw [hg] at heq
          simp only at heq
          by_cases hc : coins.headD false = true
          · rw [if_pos hc] at heq
            have hlen1 : ({ s with queues := qset s.queues (qidx - 1) (qget s.queues (qidx - 1) ++ [pid]) } : PriorityScheduler).queues.length = 10 := by
              simp only
              rw [qset_length]
              exact hlen
            have H := ih (tableModify t pid (fun p => { p with priority := ((qidx - 1 : Nat) : Int) }))
              { s with queues := qset s.queues (qidx - 1) (qget s.queues (qidx - 1) ++ [pid]) }
              coins.tail temp t' s' coins' temp' hlen1 heq
            have hqs : ∀ x, qcount (qset s.queues (qidx - 1) (qget s.queues (qidx - 1) ++ [pid])) x =
                qcount s.queues x + (if pid = x then 1 else 0) := by
              intro x
              have h1 := qcount_qset s.queues (qidx - 1) (by omega) (qget s.queues (qidx - 1) ++ [pid]) x
              rw [List.count_append, List.count_cons, List.count_nil] at h1
              simp only [beq_iff_eq] at h1
              omega
            refine ⟨H.1, ?_, ?_, ?_, ?_, H.2.2.2.2.2.1, H.2.2.2.2.2.2.1,
              H.2.2.2.2.2.2.2.1, H.2.2.2.2.2.2.2.2.1, H.2.2.2.2.2.2.2.2.2.1, ?_⟩
            · intro x
              have h1 : qcount s'.queues x + List.count x temp' =
                  qcount (qset s.queues (qidx - 1) (qget s.queues (qidx - 1) ++ [pid])) x +
                    List.count x rest + List.count x temp := H.2.1 x
              have h2 := hqs x
              rw [List.count_cons]
              simp only [beq_iff_eq]
              omega
            · intro x
              exact (H.2.2.1 x).trans (isSome_tableModify t pid _ x)
            · intro x
              exact (H.2.2.2.1 x).trans (map_state_tableModify_priority t pid _ x)
            · intro x
              exact (H.2.2.2.2.1 x).trans (bind_end_tableModify_priority t pid _ x)
            · intro h1
              rw [H.2.2.2.2.2.2.2.2.2.2 h1]
              simp only
              rw [qget_qset_ne]
              omega
          · rw [if_neg hc] at heq
            have H := ih t s coins.tail (temp ++ [pid]) t' s' coins' temp' hlen heq
            refine ⟨H.1, ?_, H.2.2.1, H.2.2.2.1, H.2.2.2.2.1, H.2.2.2.2.2.1,
              H.2.2.2.2.2.2.1, H.2.2.2.2.2.2.2.1, H.2.2.2.2.2.2.2.2.1,
              H.2.2.2.2.2.2.2.2.2.1, H.2.2.2.2.2.2.2.2.2.2⟩
            intro x
            have h1 := H.2.1 x
            rw [List.count_append, List.count_cons, List.count_nil] at h1
            rw [List.count_cons]
            simp only [beq_iff_eq] at h1 ⊢
            omega

theorem agingPass_facts :
    ∀ (idxs : List Nat), (∀ q ∈ idxs, 1 ≤ q ∧ q < 10) →
    ∀ (t : Table) (s : PriorityScheduler) (coins : List Bool) (t' : Table)
      (s' : PriorityScheduler) (coins' : List Bool),
      s.queues.length = 10 →
      agingPass idxs t s coins = (t', s', coins') →
      s'.queues.length = 10 ∧
      (∀ x, qcount s'.queues x = qcount s.queues x) ∧
      (∀ x, (tableGet t' x).isSome = (tableGet t x).isSome) ∧
      (∀ x, (tableGet t' x).map Process.state = (tableGet t x).map Process.state) ∧
      (∀ x, (tableGet t' x).bind Process.end_tick = (tableGet t x).bind Process.end_tick) ∧
      s'.current_running_pid = s.current_running_pid ∧
      s'.quantum = s.quantum ∧
      s'.current_quantum_used = s.current_quantum_used ∧
      s'.priority_boost_counter = s.priority_boost_counter := by
  intro idxs
  induction idxs with
  | nil =>
      intro _ t s coins t' s' coins' hlen heq
      simp only [agingPass, Prod.mk.injEq] at heq
      obtain ⟨rfl, rfl, rfl⟩ := heq
      exact ⟨hlen, fun _ => rfl, fun _ => rfl, fun _ => rfl, fun _ => rfl, rfl, rfl, rfl, rfl⟩
  | cons q rest ih =>
      intro hmem t s coins t' s' coins' hlen heq
      have hq1 : 1 ≤ q := (hmem q (List.mem_cons_self q rest)).1
      have hq10 : q < 10 := (hmem q (List.mem_cons_self q rest)).2
      have hmem' : ∀ x ∈ rest, 1 ≤ x ∧ x < 10 := fun x hx => hmem x (List.mem_cons_of_mem _ hx)
      simp only [agingPass] at heq
      by_cases hempty : qget s.queues q = []
      · rw [if_pos hempty] at heq
        exact ih hmem' t s coins t' s' coins' hlen heq
      · rw [if_neg hempty] at heq
        rcases hstep : agingQueueStep q (qget s.queues q) t
            { s with queues := qset s.queues q [] } coins [] with ⟨t1, s1, coins1, temp1⟩
        rw [hstep] at heq
        have hlen0 : ({ s with queues := qset s.queues q [] } : PriorityScheduler).queues.length = 10 := by
          simp only
          rw [qset_length]
          exact hlen
        have S := agingQueueStep_facts q hq10 (qget s.queues q) t
          { s with queues := qset s.queues q [] } coins [] t1 s1 coins1 temp1 hlen0 hstep
        have hlen1 : ({ s1 with queues := qset s1.queues q temp1 } : PriorityScheduler).queues.length = 10 := by
          simp only
          rw [qset_length]
          exact S.1
        have P := ih hmem' t1 { s1 with queues := qset s1.queues q temp1 } coins1 t' s' coins' hlen1 heq
        have hkeep : qget s1.queues q = [] := by
          have h1 : qget s1.queues q = qget (qset s.queues q []) q := S.2.2.2.2.2.2.2.2.2.2 hq1
          rw [h1, qget_qset_self s.queues q (by omega) []]
        refine ⟨P.1, ?_, fun x => (P.2.2.1 x).trans (S.2.2.1 x),
          fun x => (P.2.2.2.1 x).trans (S.2.2.2.1 x),
          fun x => (P.2.2.2.2.1 x).trans (S.2.2.2.2.1 x), ?_, ?_, ?_, ?_⟩
        · intro x
          have p1 : qcount s'.queues x = qcount (qset s1.queues q temp1) x := P.2.1 x
          have p2 := qcount_qset s1.queues q (by omega) temp1 x
          rw [hkeep] at p2
          have p3 : qcount s1.queues x + List.count x temp1 =
              qcount (qset s.queues q []) x + List.count x (qget s.queues q) + List.count x [] :=
            S.2.1 x
          have p4 := qcount_qset s.queues q (by omega) [] x
          rw [List.count_nil] at p2 p3 p4
          omega
        · have p1 : s'.current_running_pid = s1.current_running_pid := P.2.2.2.2.2.1
          rw [p1, S.2.2.2.2.2.1]
        · have p1 : s'.quantum = s1.quantum := P.2.2.2.2.2.2.1
          rw [p1, S.2.2.2.2.2.2.1]
        · have p1 : s'.current_quantum_used = s1.current_quantum_used := P.2.2.2.2.2.2.2.1
          rw [p1, S.2.2.2.2.2.2.2.1]
        · have p1 : s'.priority_boost_counter = s1.priority_boost_counter := P.2.2.2.2.2.2.2.2
          rw [p1, S.2.2.2.2.2.2.2.2.2.1]

theorem priority_aging_facts (s : PriorityScheduler) (t : Table) (coins : List Bool)
    (hlen : s.queues.length = 10) :
    ∀ t' s' coins', priority_aging s t coins = (t', s', coins') →
      s'.queues.length = 10 ∧
      (∀ x, qcount s'.queues x = qcount s.queues x) ∧
      (∀ x, (tableGet t' x).isSome = (tableGet t x).isSome) ∧
      (∀ x, (tableGet t' x).map Process.state = (tableGet t x).map Process.state) ∧
      (∀ x, (tableGet t' x).bind Process.end_tick = (tableGet t x).bind Process.end_tick) ∧
      s'.current_running_pid = s.current_running_pid ∧
      s'.quantum = s.quantum ∧
      s'.current_quantum_used = s.current_quantum_used := by
  intro t' s' coins' heq
  unfold priority_aging at heq
  by_cases ht : t = []
  · rw [if_pos ht] at heq
    simp only [Prod.mk.injEq] at heq
    obtain ⟨rfl, rfl, rfl⟩ := heq
    exact ⟨hlen, fun _ => rfl, fun _ => rfl, fun _ => rfl, fun _ => rfl, rfl, rfl, rfl⟩
  · rw [if_neg ht] at heq
    have H := agingPass_facts [9, 8, 7, 6, 5, 4, 3, 2, 1] (by decide) t s coins t' s' coins' hlen heq
    exact ⟨H.1, H.2.1, H.2.2.1, H.2.2.2.1, H.2.2.2.2.1, H.2.2.2.2.2.1,
      H.2.2.2.2.2.2.1, H.2.2.2.2.2.2.2.1⟩

theorem schedTick_facts (s : PriorityScheduler) (t : Table) (coins : List Bool)
    (hlen : s.queues.length = 10) :
    ∀ t' s', schedTick s t coins = (t', s') →
      s'.queues.length = 10 ∧
      (∀ x, qcount s'.queues x = qcount s.queues x) ∧
      (∀ x, (tableGet t' x).isSome = (tableGet t x).isSome) ∧
      (∀ x, (tableGet t' x).map Process.state = (tableGet t x).map Process.state) ∧
      (∀ x, (tableGet t' x).bind Process.end_tick = (tableGet t x).bind Process.end_tick) ∧
      s'.current_running_pid = s.current_running_pid ∧
      s'.quantum = s.quantum := by
  have core : ∀ (s2 : PriorityScheduler), s2.queues = s.queues →
      s2.current_running_pid = s.current_running_pid → s2.quantum = s.quantum →
      ∀ t' s', (if s2.priority_boost_counter ≥ boostInterval then
          match priority_aging s2 t coins with
          | (t1, s3, _) => (t1, { s3 with priority_boost_counter := 0 })
        else (t, s2)) = (t', s') →
      s'.queues.length = 10 ∧
      (∀ x, qcount s'.queues x = qcount s.queues x) ∧
      (∀ x, (tableGet t' x).isSome = (tableGet t x).isSome) ∧
      (∀ x, (tableGet t' x).map Process.state = (tableGet t x).map Process.state) ∧
      (∀ x, (tableGet t' x).bind Process.end_tick = (tableGet t x).bind Process.end_tick) ∧
      s'.current_running_pid = s.current_running_pid ∧
      s'.quantum = s.quantum := by
    intro s2 hqs hcur hquant t' s' heq
    by_cases hb : s2.priority_boost_counter ≥ boostInterval
    · rw [if_pos hb] at heq
      rcases haging : priority_aging s2 t coins with ⟨t1, s3, c3⟩
      rw [haging] at heq
      simp only [Prod.mk.injEq] at heq
      obtain ⟨rfl, rfl⟩ := heq
      have H := priority_aging_facts s2 t coins (by rw [hqs]; exact hlen) t1 s3 c3 haging
      refine ⟨H.1, ?_, H.2.2.1, H.2.2.2.1, H.2.2.2.2.1, ?_, ?_⟩
      · intro x
        rw [H.2.1 x, hqs]
      · rw [H.2.2.2.2.2.1, hcur]
      · rw [H.2.2.2.2.2.2.1, hquant]
    · rw [if_neg hb] at heq
      simp only [Prod.mk.injEq] at heq
      obtain ⟨rfl, rfl⟩ := heq
      refine ⟨by rw [hqs]; exact hlen, fun x => by rw [hqs], fun _ => rfl, fun _ => rfl,
        fun _ => rfl, hcur, hquant⟩
  intro t' s' heq
  unfold schedTick at heq
  by_cases hrun : s.current_running_pid.isSome = true
  · rw [if_pos hrun] at heq
    refine core { s with current_quantum_used := s.current_quantum_used + 1, priority_boost_counter := s.priority_boost_counter + 1 } rfl rfl rfl t' s' ?_
    exact heq
  · rw [if_neg hrun] at heq
    refine core { s with priority_boost_counter := s.priority_boost_counter + 1 } rfl rfl rfl t' s' ?_
    exact heq

theorem EngineInv_transport (e e' : SimulatorEngine)
    (hpid : e'.pid_counter = e.pid_counter)
    (hisSome : ∀ x, (tableGet e'.process_table x).isSome = (tableGet e.process_table x).isSome)
    (hstate : ∀ x, (tableGet e'.process_table x).map Process.state =
       (tableGet e.process_table x).map Process.state)
    (hend : ∀ x, (tableGet e'.process_table x).bind Process.end_tick =
       (tableGet e.process_table x).bind Process.end_tick)
    (hqc : ∀ x, qcount e'.sched.queues x = qcount e.sched.queues x)
    (hlen : e'.sched.queues.length = 10)
    (hcur : e'.sched.current_running_pid = e.sched.current_running_pid)
    (hbl : e'.blocked_list = e.blocked_list)
    (hzl : e'.zombie_list = e.zombie_list)
    (hreap : e'.auto_reap_after = e.auto_reap_after)
    (hInv : EngineInv e) : EngineInv e' := by
  have hfwd : ∀ x p', tableGet e'.process_table x = some p' →
      ∃ p, tableGet e.process_table x = some p ∧ p'.state = p.state ∧
        p'.end_tick = p.end_tick := by
    intro x p' h'
    have h1 := hisSome x
    rw [h'] at h1
    cases hx : tableGet e.process_table x with
    | none => rw [hx] at h1; simp at h1
    | some p =>
        refine ⟨p, rfl, ?_, ?_⟩
        · have h2 := hstate x
          rw [h', hx] at h2
          simpa using h2
        · have h3 := hend x
          rw [h', hx] at h3
          simpa using h3
  have hbwd : ∀ x p, tableGet e.process_table x = some p →
      ∃ p', tableGet e'.process_table x = some p' ∧ p'.state = p.state ∧
        p'.end_tick = p.end_tick := by
    intro x p hx
    have h1 := hisSome x
    rw [hx] at h1
    cases h' : tableGet e'.process_table x with
    | none => rw [h'] at h1; simp at h1
    | some p' =>
        refine ⟨p', rfl, ?_, ?_⟩
        · have h2 := hstate x
          rw [h', hx] at h2
          simpa using h2
        · have h3 := hend x
          rw [h', hx] at h3
          simpa using h3
  refine ⟨?_, ?_, ?_, ?_, ?_, hlen, ?_, ?_, ?_, ?_, ?_, ?_, ?_, ?_, ?_, ?_, ?_, ?_⟩
  · intro k hk
    rw [hpid]
    exact hInv.keys_lt k (by rw [← hisSome k]; exact hk)
  · rw [hpid]; exact hInv.counter_pos
  · simp only [hisSome 0]; exact hInv.init_mem
  · intro p h0
    obtain ⟨p0, hp0, _, hend0⟩ := hfwd 0 p h0
    rw [hend0]
    exact hInv.init_alive p0 hp0
  · rw [hcur]; exact hInv.cur_ne0
  · intro pid h1
    rw [hqc] at h1
    obtain ⟨p, hp, hps⟩ := hInv.queued_ready pid h1
    obtain ⟨p', hp', hs', _⟩ := hbwd pid p hp
    exact ⟨p', hp', hs'.trans hps⟩
  · intro pid
    rw [hqc]
    exact hInv.queue_once pid
  · intro pid h1
    rw [hcur] at h1
    obtain ⟨p, hp, hps⟩ := hInv.running_run pid h1
    obtain ⟨p', hp', hs', _⟩ := hbwd pid p hp
    exact ⟨p', hp', hs'.trans hps⟩
  · intro pid h1
    rw [hcur] at h1
    rw [hqc]
    exact hInv.cur_not_queued pid h1
  · intro pid h1
    rw [hcur] at h1
    rw [hbl]
    exact hInv.cur_not_blocked pid h1
  · intro pid h1
    rw [hbl] at h1
    obtain ⟨p, hp, hps⟩ := hInv.blocked_mem pid h1
    obtain ⟨p', hp', hs', _⟩ := hbwd pid p hp
    exact ⟨p', hp', hs'.trans hps⟩
  · rw [hbl]; exact hInv.blocked_nodup
  · intro pid p' hp' hz
    obtain ⟨p, hp, hs, _⟩ := hfwd pid p' hp'
    rw [hzl]
    exact hInv.zombie_state pid p hp (hs.symm.trans hz)
  · intro pid h1
    rw [hzl] at h1
    obtain ⟨p, hp, hps⟩ := hInv.zombie_mem pid h1
    obtain ⟨p', hp', hs', _⟩ := hbwd pid p hp
    exact ⟨p', hp', hs'.trans hps⟩
  · rw [hzl]; exact hInv.zombie_nodup
  · intro pid p' hp' hsome
    obtain ⟨p, hp, hs, he⟩ := hfwd pid p' hp'
    have h2 := hInv.end_done pid p hp (by rw [← he]; exact hsome)
    rw [hs]
    exact h2
  · rw [hreap]; exact hInv.reap_default

theorem tableGet_single (k : Nat) (v : Process) (x : Nat) :
    tableGet [(k, v)] x = if k = x then some v else none := rfl

theorem qcount_replicate_empty (x : Nat) : qcount (List.replicate 10 []) x = 0 := rfl

theorem engineInv_fresh (e : SimulatorEngine) (hpc : e.pid_counter = 1)
    (ht : e.process_table = [(0, initProcess)])
    (hs : e.sched.queues = List.replicate 10 [] ∧ e.sched.current_running_pid = none)
    (hbl : e.blocked_list = []) (hzl : e.zombie_list = [])
    (hreap : e.auto_reap_after = 10) : EngineInv e := by
  obtain ⟨hq, hcur⟩ := hs
  refine ⟨?_, ?_, ?_, ?_, ?_, ?_, ?_, ?_, ?_, ?_, ?_, ?_, ?_, ?_, ?_, ?_, ?_, ?_⟩
  · intro k hk
    rw [ht, tableGet_single] at hk
    by_cases h0 : 0 = k
    · omega
    · rw [if_neg h0] at hk; simp at hk
  · rw [hpc]
  · rw [ht]; rfl
  · intro p h0
    rw [ht, tableGet_single, if_pos rfl] at h0
    cases h0; rfl
  · rw [hcur]; exact fun h => by simp at h
  · rw [hq]; rfl
  · intro pid h1
    rw [hq, qcount_replicate_empty] at h1
    omega
  · intro pid
    rw [hq, qcount_replicate_empty]
    omega
  · intro pid h1
    rw [hcur] at h1
    simp at h1
  · intro pid h1
    rw [hcur] at h1
    simp at h1
  · intro pid h1
    rw [hcur] at h1
    simp at h1
  · intro pid h1
    rw [hbl] at h1
    simp at h1
  · rw [hbl]; exact List.nodup_nil
  · intro pid p hp hz
    rw [ht, tableGet_single] at hp
    by_cases h0 : 0 = pid
    · rw [if_pos h0] at hp
      cases hp
      simp [initProcess] at hz
    · rw [if_neg h0] at hp; simp at hp
  · intro pid h1
    rw [hzl] at h1
    simp at h1
  · rw [hzl]; exact List.nodup_nil
  · intro pid p hp hsome
    rw [ht, tableGet_single] at hp
    by_cases h0 : 0 = pid
    · rw [if_pos h0] at hp
      cases hp
      simp [initProcess] at hsome
    · rw [if_neg h0] at hp; simp at hp
  · exact hreap

theorem engineInv_mk : EngineInv mkEngine :=
  engineInv_fresh mkEngine rfl rfl ⟨rfl, rfl⟩ rfl rfl rfl

theorem engineInv_reset (e : SimulatorEngine) (hInv : EngineInv e) :
    EngineInv (resetEngine e) :=
  engineInv_fresh (resetEngine e) rfl rfl ⟨rfl, rfl⟩ rfl rfl hInv.reap_default

theorem engineInv_config (e : SimulatorEngine) (pb : ℚ) (hInv : EngineInv e) :
    EngineInv { e with p_block := pb } :=
  ⟨hInv.keys_lt, hInv.counter_pos, hInv.init_mem, hInv.init_alive, hInv.cur_ne0,
   hInv.queues_len, hInv.queued_ready, hInv.queue_once, hInv.running_run,
   hInv.cur_not_queued, hInv.cur_not_blocked, hInv.blocked_mem, hInv.blocked_nodup,
   hInv.zombie_state, hInv.zombie_mem, hInv.zombie_nodup, hInv.end_done,
   hInv.reap_default⟩

theorem engineInv_quantum (e : SimulatorEngine) (q : Int) (hInv : EngineInv e) :
    EngineInv (set_quantum e q) :=
  ⟨hInv.keys_lt, hInv.counter_pos, hInv.init_mem, hInv.init_alive, hInv.cur_ne0,
   hInv.queues_len, hInv.queued_ready, hInv.queue_once, hInv.running_run,
   hInv.cur_not_queued, hInv.cur_not_blocked, hInv.blocked_mem, hInv.blocked_nodup,
   hInv.zombie_state, hInv.zombie_mem, hInv.zombie_nodup, hInv.end_done,
   hInv.reap_default⟩

theorem engineInv_tick_bump (e : SimulatorEngine) (hInv : EngineInv e) :
    EngineInv { e with tick := e.tick + 1 } :=
  ⟨hInv.keys_lt, hInv.counter_pos, hInv.init_mem, hInv.init_alive, hInv.cur_ne0,
   hInv.queues_len, hInv.queued_ready, hInv.queue_once, hInv.running_run,
   hInv.cur_not_queued, hInv.cur_not_blocked, hInv.blocked_mem, hInv.blocked_nodup,
   hInv.zombie_state, hInv.zombie_mem, hInv.zombie_nodup, hInv.end_done,
   hInv.reap_default⟩

theorem engineInv_create (e : SimulatorEngine) (nm : Option String) (b : Option Int)
    (pp : Option Nat) (pr : Option Int) (dB dP : Int) (hInv : EngineInv e) :
    EngineInv (create_process e nm b pp pr dB dP).2 := by
  have hfresh : tableGet e.process_table e.pid_counter = none := by
    cases hx : tableGet e.process_table e.pid_counter with
    | none => rfl
    | some p =>
        have := hInv.keys_lt e.pid_counter (by rw [hx]; rfl)
        omega
  have main : ∀ t2 : Table,
      (∀ x, (tableGet t2 x).isSome =
        (tableGet (tableSet e.process_table e.pid_counter
          { pid := e.pid_counter, name := nm.getD ("P" ++ toString e.pid_counter),
            state := PState.NEW, total_burst := b.getD dB, remaining_burst := b.getD dB,
            priority := pr.getD dP, parent_pid := pp, children := [],
            created_tick := e.tick, start_tick := none, end_tick := none,
            blocked_count := 0, preempt_count := 0, io_remaining := 0,
            waiting_for_child := false, reaped := false }) x).isSome) →
      (∀ x, (tableGet t2 x).map Process.state =
        (tableGet (tableSet e.process_table e.pid_counter
          { pid := e.pid_counter, name := nm.getD ("P" ++ toString e.pid_counter),
            state := PState.NEW, total_burst := b.getD dB, remaining_burst := b.getD dB,
            priority := pr.getD dP, parent_pid := pp, children := [],
            created_tick := e.tick, start_tick := none, end_tick := none,
            blocked_count := 0, preempt_count := 0, io_remaining := 0,
            waiting_for_child := false, reaped := false }) x).map Process.state) →
      (∀ x, (tableGet t2 x).bind Process.end_tick =
        (tableGet (tableSet e.process_table e.pid_counter
          { pid := e.pid_counter, name := nm.getD ("P" ++ toString e.pid_counter),
            state := PState.NEW, total_burst := b.getD dB, remaining_burst := b.getD dB,
            priority := pr.getD dP, parent_pid := pp, children := [],
            created_tick := e.tick, start_tick := none, end_tick := none,
            blocked_count := 0, preempt_count := 0, io_remaining := 0,
            waiting_for_child := false, reaped := false }) x).bind Process.end_tick) →
      EngineInv { e with pid_counter := e.pid_counter + 1, process_table := t2 } := by
    intro t2 hisS hstS hendS
    have hisSome2 : ∀ x, x ≠ e.pid_counter →
        (tableGet t2 x).isSome = (tableGet e.process_table x).isSome := by
      intro x hx
      rw [hisS x, tableGet_tableSet_ne _ _ _ hx]
    have hst : ∀ x, x ≠ e.pid_counter →
        (tableGet t2 x).map Process.state = (tableGet e.process_table x).map Process.state := by
      intro x hx
      rw [hstS x, tableGet_tableSet_ne _ _ _ hx]
    have hend : ∀ x, x ≠ e.pid_counter →
        (tableGet t2 x).bind Process.end_tick = (tableGet e.process_table x).bind Process.end_tick := by
      intro x hx
      rw [hendS x, tableGet_tableSet_ne _ _ _ hx]
    have hNew : ∀ p', tableGet t2 e.pid_counter = some p' →
        p'.state = PState.NEW ∧ p'.end_tick = none := by
      intro p' hp'
      have h1 := hstS e.pid_counter
      have h2 := hendS e.pid_counter
      rw [hp', tableGet_tableSet_self] at h1 h2
      simp only [Option.map_some', Option.some_bind] at h1 h2
      exact ⟨by injection h1, h2⟩
    have hpid_pos : 1 ≤ e.pid_counter := hInv.counter_pos
    refine ⟨?_, ?_, ?_, ?_, hInv.cur_ne0, hInv.queues_len, ?_, hInv.queue_once, ?_,
      hInv.cur_not_queued, hInv.cur_not_blocked, ?_, hInv.blocked_nodup, ?_, ?_,
      hInv.zombie_nodup, ?_, hInv.reap_default⟩
    · intro k hk
      show k < e.pid_counter + 1
      by_cases hke : k = e.pid_counter
      · omega
      · rw [hisSome2 k hke] at hk
        have := hInv.keys_lt k hk
        omega
    · show 1 ≤ e.pid_counter + 1
      omega
    · have h0 : (0 : Nat) ≠ e.pid_counter := by omega
      rw [show ({ e with pid_counter := e.pid_counter + 1, process_table := t2 } : SimulatorEngine).process_table = t2 from rfl, hisSome2 0 h0]
      exact hInv.init_mem
    · intro p h0
      have h0ne : (0 : Nat) ≠ e.pid_counter := by omega
      have h1 := hend 0 h0ne
      rw [h0] at h1
      obtain ⟨p0, hp0⟩ := Option.isSome_iff_exists.mp hInv.init_mem
      rw [hp0] at h1
      have h2 := hInv.init_alive p0 hp0
      simp only [Option.some_bind] at h1
      rw [h1, h2]
    · intro pid h1
      have hne : pid ≠ e.pid_counter := by
        intro hx
        obtain ⟨p, hp, _⟩ := hInv.queued_ready pid h1
        rw [hx, hfresh] at hp
        cases hp
      obtain ⟨p, hp, hps⟩ := hInv.queued_ready pid h1
      have h2 := hst pid hne
      rw [hp] at h2
      cases hx : tableGet t2 pid with
      | none => rw [hx] at h2; simp at h2
      | some p' =>
          rw [hx] at h2
          simp only [Option.map_some'] at h2
          exact ⟨p', rfl, by injection h2 with h3; rw [h3, hps]⟩
    · intro pid h1
      have hne : pid ≠ e.pid_counter := by
        intro hx
        obtain ⟨p, hp, _⟩ := hInv.running_run pid h1
        rw [hx, hfresh] at hp
        cases hp
      obtain ⟨p, hp, hps⟩ := hInv.running_run pid h1
      have h2 := hst pid hne
      rw [hp] at h2
      cases hx : tableGet t2 pid with
      | none => rw [hx] at h2; simp at h2
      | some p' =>
          rw [hx] at h2
          simp only [Option.map_some'] at h2
          exact ⟨p', rfl, by injection h2 with h3; rw [h3, hps]⟩
    · intro pid h1
      have hne : pid ≠ e.pid_counter := by
        intro hx
        obtain ⟨p, hp, _⟩ := hInv.blocked_mem pid h1
        rw [hx, hfresh] at hp
        cases hp
      obtain ⟨p, hp, hps⟩ := hInv.blocked_mem pid h1
      have h2 := hst pid hne
      rw [hp] at h2
      cases hx : tableGet t2 pid with
      | none => rw [hx] at h2; simp at h2
      | some p' =>
          rw [hx] at h2
          simp only [Option.map_some'] at h2
          exact ⟨p', rfl, by injection h2 with h3; rw [h3, hps]⟩
    · intro pid p' hp' hz
      by_cases hne : pid = e.pid_counter
      · subst hne
        have := (hNew p' hp').1
        rw [this] at hz
        cases hz
      · have h2 := hst pid hne
        rw [hp'] at h2
        cases hx : tableGet e.process_table pid with
        | none => rw [hx] at h2; simp at h2
        | some p =>
            rw [hx] at h2
            simp only [Option.map_some'] at h2
            injection h2 with h3
            exact hInv.zombie_state pid p hx (by rw [← h3, hz])
    · intro pid h1
      obtain ⟨p, hp, hps⟩ := hInv.zombie_mem pid h1
      have hne : pid ≠ e.pid_counter := by
        intro hx
        rw [hx, hfresh] at hp
        cases hp
      have h2 := hst pid hne
      rw [hp] at h2
      cases hx : tableGet t2 pid with
      | none => rw [hx] at h2; simp at h2
      | some p' =>
          rw [hx] at h2
          simp only [Option.map_some'] at h2
          exact ⟨p', rfl, by injection h2 with h3; rw [h3, hps]⟩
    · intro pid p' hp' hsome
      by_cases hne : pid = e.pid_counter
      · subst hne
        have := (hNew p' hp').2
        rw [this] at hsome
        cases hsome
      · have h2 := hend pid hne
        have h3 := hst pid hne
        rw [hp'] at h2 h3
        cases hx : tableGet e.process_table pid with
        | none => rw [hx] at h3; simp at h3
        | some p =>
            rw [hx] at h2 h3
            simp only [Option.some_bind] at h2
            simp only [Option.map_some'] at h3
            injection h3 with h4
            have h5 := hInv.end_done pid p hx (by rw [← h2]; exact hsome)
            rw [h4]
            exact h5
  unfold create_process
  simp only
  by_cases hc : optTruthy pp = true ∧ ((pp.bind (tableGet (tableSet e.process_table e.pid_counter
      { pid := e.pid_counter, name := nm.getD ("P" ++ toString e.pid_counter),
        state := PState.NEW, total_burst := b.getD dB, remaining_burst := b.getD dB,
        priority := pr.getD dP, parent_pid := pp, children := [],
        created_tick := e.tick, start_tick := none, end_tick := none,
        blocked_count := 0, preempt_count := 0, io_remaining := 0,
        waiting_for_child := false, reaped := false }))).isSome = true)
  · rw [if_pos hc]
    apply main
    · intro x
      rw [isSome_tableModify]
    · intro x
      apply map_state_tableModify
      intro q
      rfl
    · intro x
      apply bind_end_tableModify
      intro q
      rfl
  · rw [if_neg hc]
    apply main
    · intro x
      rfl
    · intro x
      rfl
    · intro x
      rfl

theorem entry_state_transfer {t t' : Table} {x : Nat}
    (h : (tableGet t' x).map Process.state = (tableGet t x).map Process.state)
    {p : Process} (hp : tableGet t x = some p) :
    ∃ p', tableGet t' x = some p' ∧ p'.state = p.state := by
  rw [hp] at h
  cases hx : tableGet t' x with
  | none => rw [hx] at h; simp at h
  | some p' =>
      rw [hx] at h
      simp only [Option.map_some'] at h
      exact ⟨p', rfl, by injection h⟩

theorem engineInv_promote (e : SimulatorEngine) (pid : Nat) (p : Process)
    (hInv : EngineInv e) (hget : tableGet e.process_table pid = some p)
    (hnew : p.state = PState.NEW) :
    EngineInv { e with
      process_table := tableModify e.process_table pid (fun q => { q with state := PState.READY }),
      sched := add_to_ready e.sched pid
        (tableModify e.process_table pid (fun q => { q with state := PState.READY })) } := by
  have ht1pid : tableGet (tableModify e.process_table pid (fun q => { q with state := PState.READY })) pid
      = some { p with state := PState.READY } := by
    rw [tableGet_tableModify_self, hget]
    rfl
  have ht1ne : ∀ x, x ≠ pid →
      tableGet (tableModify e.process_table pid (fun q => { q with state := PState.READY })) x
        = tableGet e.process_table x :=
    fun x hx => tableGet_tableModify_ne _ _ _ hx _
  have hq0 : qcount e.sched.queues pid = 0 := by
    by_cases h1 : 1 ≤ qcount e.sched.queues pid
    · obtain ⟨p2, hp2, hps2⟩ := hInv.queued_ready pid h1
      rw [hget] at hp2
      injection hp2 with h3
      rw [← h3, hnew] at hps2
      cases hps2
    · omega
  have hnotcur : e.sched.current_running_pid ≠ some pid := by
    intro hcur
    obtain ⟨p2, hp2, hps2⟩ := hInv.running_run pid hcur
    rw [hget] at hp2
    injection hp2 with h3
    rw [← h3, hnew] at hps2
    cases hps2
  have hnotbl : pid ∉ e.blocked_list := by
    intro hmem
    obtain ⟨p2, hp2, hps2⟩ := hInv.blocked_mem pid hmem
    rw [hget] at hp2
    injection hp2 with h3
    rw [← h3, hnew] at hps2
    cases hps2
  have hnotz : pid ∉ e.zombie_list := by
    intro hmem
    obtain ⟨p2, hp2, hps2⟩ := hInv.zombie_mem pid hmem
    rw [hget] at hp2
    injection hp2 with h3
    rw [← h3, hnew] at hps2
    cases hps2
  have hendnone : p.end_tick = none := by
    cases hx : p.end_tick with
    | none => rfl
    | some v =>
        have := hInv.end_done pid p hget (by rw [hx]; rfl)
        rw [hnew] at this
        rcases this with h | h <;> cases h
  obtain ⟨qs', hadd, hlen', hqne, hq1, hqle, hqpos⟩ :=
    add_to_ready_spec e.sched pid
      (tableModify e.process_table pid (fun q => { q with state := PState.READY }))
      hInv.queues_len
  rw [hadd]
  refine ⟨?_, hInv.counter_pos, ?_, ?_, hInv.cur_ne0, hlen', ?_, ?_, ?_, ?_, ?_, ?_,
    hInv.blocked_nodup, ?_, ?_, hInv.zombie_nodup, ?_, hInv.reap_default⟩
  · intro k hk
    rw [isSome_tableModify] at hk
    exact hInv.keys_lt k hk
  · show (tableGet (tableModify e.process_table pid (fun q => { q with state := PState.READY })) 0).isSome
    rw [isSome_tableModify]
    exact hInv.init_mem
  · intro p0 h0
    by_cases h0p : (0 : Nat) = pid
    · subst h0p
      rw [ht1pid] at h0
      injection h0 with h1
      rw [← h1]
      show p.end_tick = none
      exact hendnone
    · rw [ht1ne 0 h0p] at h0
      exact hInv.init_alive p0 h0
  · intro x h1
    show ∃ q, tableGet (tableModify e.process_table pid (fun w => { w with state := PState.READY })) x = some q ∧ q.state = PState.READY
    by_cases hx : x = pid
    · subst hx
      exact ⟨_, ht1pid, rfl⟩
    · rw [hqne x hx] at h1
      obtain ⟨p2, hp2, hps2⟩ := hInv.queued_ready x h1
      rw [ht1ne x hx, hp2]
      exact ⟨p2, rfl, hps2⟩
  · intro x
    by_cases hx : x = pid
    · subst hx
      rw [hq1 hq0]
    · rw [hqne x hx]
      exact hInv.queue_once x
  · intro x hcur
    have hx : x ≠ pid := by
      intro h2
      rw [h2] at hcur
      exact hnotcur hcur
    obtain ⟨p2, hp2, hps2⟩ := hInv.running_run x hcur
    rw [ht1ne x hx, hp2]
    exact ⟨p2, rfl, hps2⟩
  · intro x hcur
    have hx : x ≠ pid := by
      intro h2
      rw [h2] at hcur
      exact hnotcur hcur
    rw [hqne x hx]
    exact hInv.cur_not_queued x hcur
  · intro x hcur
    exact hInv.cur_not_blocked x hcur
  · intro x hmem
    have hx : x ≠ pid := fun h2 => hnotbl (h2 ▸ hmem)
    obtain ⟨p2, hp2, hps2⟩ := hInv.blocked_mem x hmem
    rw [ht1ne x hx, hp2]
    exact ⟨p2, rfl, hps2⟩
  · intro x p' hp' hz
    by_cases hx : x = pid
    · subst hx
      rw [ht1pid] at hp'
      injection hp' with h1
      rw [← h1] at hz
      cases hz
    · rw [ht1ne x hx] at hp'
      exact hInv.zombie_state x p' hp' hz
  · intro x hmem
    have hx : x ≠ pid := fun h2 => hnotz (h2 ▸ hmem)
    obtain ⟨p2, hp2, hps2⟩ := hInv.zombie_mem x hmem
    rw [ht1ne x hx, hp2]
    exact ⟨p2, rfl, hps2⟩
  · intro x p' hp' hsome
    by_cases hx : x = pid
    · subst hx
      rw [ht1pid] at hp'
      injection hp' with h1
      rw [← h1] at hsome
      have h2 : ({ p with state := PState.READY } : Process).end_tick = p.end_tick := rfl
      rw [h2, hendnone] at hsome
      cases hsome
    · rw [ht1ne x hx] at hp'
      exact hInv.end_done x p' hp' hsome

theorem engineInv_moveNewStep (ks : List Nat) : ∀ (e : SimulatorEngine) (c : Nat),
    EngineInv e → EngineInv (moveNewStep ks e c).1 := by
  induction ks with
  | nil => intro e c hInv; exact hInv
  | cons pid rest ih =>
      intro e c hInv
      cases hg : tableGet e.process_table pid with
      | none =>
          simp only [moveNewStep, hg]
          exact ih e c hInv
      | some p =>
          simp only [moveNewStep, hg]
          by_cases hs : p.state = PState.NEW
          · simp only [if_pos hs]
            exact ih _ _ (engineInv_promote e pid p hInv hg hs)
          · simp only [if_neg hs]
            exact ih e c hInv

theorem engineInv_moveNew (e : SimulatorEngine) (hInv : EngineInv e) :
    EngineInv (move_new_to_ready e).1 :=
  engineInv_moveNewStep (tableKeys e.process_table) e 0 hInv

theorem table_correspond (t t' : Table)
    (hisSome : ∀ x, (tableGet t' x).isSome = (tableGet t x).isSome)
    (hstate : ∀ x, (tableGet t' x).map Process.state = (tableGet t x).map Process.state)
    (hend : ∀ x, (tableGet t' x).bind Process.end_tick = (tableGet t x).bind Process.end_tick) :
    ∀ x p', tableGet t' x = some p' →
      ∃ p, tableGet t x = some p ∧ p'.state = p.state ∧ p'.end_tick = p.end_tick := by
  intro x p' h'
  have h1 := hisSome x
  rw [h'] at h1
  cases hx : tableGet t x with
  | none => rw [hx] at h1; simp at h1
  | some p =>
      refine ⟨p, rfl, ?_, ?_⟩
      · have h2 := hstate x
        rw [h', hx] at h2
        simpa using h2
      · have h3 := hend x
        rw [h', hx] at h3
        simpa using h3

theorem EngineInv_requeue (e e' : SimulatorEngine) (pid : Nat) (p : Process)
    (hget : tableGet e.process_table pid = some p)
    (hready : p.state = PState.READY)
    (hpid : e'.pid_counter = e.pid_counter)
    (hisSome : ∀ x, (tableGet e'.process_table x).isSome = (tableGet e.process_table x).isSome)
    (hstate : ∀ x, (tableGet e'.process_table x).map Process.state =
       (tableGet e.process_table x).map Process.state)
    (hend : ∀ x, (tableGet e'.process_table x).bind Process.end_tick =
       (tableGet e.process_table x).bind Process.end_tick)
    (hqcne : ∀ x, x ≠ pid → qcount e'.sched.queues x = qcount e.sched.queues x)
    (hqcpid : qcount e'.sched.queues pid ≤ 1)
    (hlen : e'.sched.queues.length = 10)
    (hcur : e'.sched.current_running_pid = e.sched.current_running_pid)
    (hbl : e'.blocked_list = e.blocked_list)
    (hzl : e'.zombie_list = e.zombie_list)
    (hreap : e'.auto_reap_after = e.auto_reap_after)
    (hInv : EngineInv e) : EngineInv e' := by
  have hfwd := table_correspond e.process_table e'.process_table hisSome hstate hend
  have hbwd := table_correspond e'.process_table e.process_table
    (fun x => (hisSome x).symm) (fun x => (hstate x).symm) (fun x => (hend x).symm)
  refine ⟨?_, ?_, ?_, ?_, ?_, hlen, ?_, ?_, ?_, ?_, ?_, ?_, ?_, ?_, ?_, ?_, ?_, ?_⟩
  · intro k hk
    rw [hpid]
    exact hInv.keys_lt k (by rw [← hisSome k]; exact hk)
  · rw [hpid]; exact hInv.counter_pos
  · simp only [hisSome 0]; exact hInv.init_mem
  · intro q h0
    obtain ⟨p0, hp0, _, hend0⟩ := hfwd 0 q h0
    rw [hend0]
    exact hInv.init_alive p0 hp0
  · rw [hcur]; exact hInv.cur_ne0
  · intro x h1
    by_cases hx : x = pid
    · subst hx
      obtain ⟨p', hp', hs', _⟩ := hbwd x p hget
      exact ⟨p', hp', hs'.symm.trans hready⟩
    · rw [hqcne x hx] at h1
      obtain ⟨q, hq, hqs⟩ := hInv.queued_ready x h1
      obtain ⟨p', hp', hs', _⟩ := hbwd x q hq
      exact ⟨p', hp', hs'.symm.trans hqs⟩
  · intro x
    by_cases hx : x = pid
    · subst hx; exact hqcpid
    · rw [hqcne x hx]
      exact hInv.queue_once x
  · intro x h1
    rw [hcur] at h1
    obtain ⟨q, hq, hqs⟩ := hInv.running_run x h1
    obtain ⟨p', hp', hs', _⟩ := hbwd x q hq
    exact ⟨p', hp', hs'.symm.trans hqs⟩
  · intro x h1
    rw [hcur] at h1
    by_cases hx : x = pid
    · subst hx
      obtain ⟨q, hq, hqs⟩ := hInv.running_run x h1
      rw [hget] at hq
      injection hq with h2
      rw [← h2, hready] at hqs
      cases hqs
    · rw [hqcne x hx]
      exact hInv.cur_not_queued x h1
  · intro x h1
    rw [hcur] at h1
    rw [hbl]
    exact hInv.cur_not_blocked x h1
  · intro x h1
    rw [hbl] at h1
    obtain ⟨q, hq, hqs⟩ := hInv.blocked_mem x h1
    obtain ⟨p', hp', hs', _⟩ := hbwd x q hq
    exact ⟨p', hp', hs'.symm.trans hqs⟩
  · rw [hbl]; exact hInv.blocked_nodup
  · intro x p' hp' hz
    obtain ⟨q, hq, hs, _⟩ := hfwd x p' hp'
    rw [hzl]
    exact hInv.zombie_state x q hq (hs.symm.trans hz)
  · intro x h1
    rw [hzl] at h1
    obtain ⟨q, hq, hqs⟩ := hInv.zombie_mem x h1
    obtain ⟨p', hp', hs', _⟩ := hbwd x q hq
    exact ⟨p', hp', hs'.symm.trans hqs⟩
  · rw [hzl]; exact hInv.zombie_nodup
  · intro x p' hp' hsome
    obtain ⟨q, hq, hs, he⟩ := hfwd x p' hp'
    have h2 := hInv.end_done x q hq (by rw [← he]; exact hsome)
    rw [hs]
    exact h2
  · rw [hreap]; exact hInv.reap_default

theorem engineInv_adjust (e : SimulatorEngine) (pid : Nat) (np : Int)
    (hInv : EngineInv e) : EngineInv (adjust_priority e pid np) := by
  cases hg : tableGet e.process_table pid with
  | none =>
      have h0 : adjust_priority e pid np = e := by
        simp only [adjust_priority, sched_adjust_priority, hg]
      rw [h0]
      exact hInv
  | some p =>
      by_cases hs : p.state = PState.READY
      · have h0 : adjust_priority e pid np =
            { e with
              process_table := tableModify e.process_table pid
                (fun q => { q with priority := max 0 (min np 9) }),
              sched := add_to_ready (remove_from_ready e.sched pid) pid
                (tableModify e.process_table pid
                  (fun q => { q with priority := max 0 (min np 9) })) } := by
          simp only [adjust_priority, sched_adjust_priority, hg, if_pos hs]
        rw [h0]
        obtain ⟨qs_r, hrem, hlen_r, hqne_r, _⟩ := remove_from_ready_spec e.sched pid hInv.queues_len
        have hzero : qcount (remove_from_ready e.sched pid).queues pid = 0 :=
          qcount_zero_of_remove e.sched pid hInv.queues_len (hInv.queue_once pid)
        have hlen_r' : (remove_from_ready e.sched pid).queues.length = 10 := by
          rw [hrem]; exact hlen_r
        obtain ⟨qs_a, hadd, hlen_a, hqne_a, hq1_a, _, _⟩ :=
          add_to_ready_spec (remove_from_ready e.sched pid) pid
            (tableModify e.process_table pid
              (fun q => { q with priority := max 0 (min np 9) })) hlen_r'
        refine EngineInv_requeue e _ pid p hg hs rfl
          (fun x => isSome_tableModify _ _ _ x)
          (fun x => map_state_tableModify_priority _ _ _ x)
          (fun x => bind_end_tableModify_priority _ _ _ x)
          ?_ ?_ ?_ ?_ rfl rfl rfl hInv
        · intro x hx
          show qcount (add_to_ready (remove_from_ready e.sched pid) pid _).queues x
            = qcount e.sched.queues x
          rw [hadd]
          have h1 : qcount qs_a x = qcount (remove_from_ready e.sched pid).queues x :=
            hqne_a x hx
          have h2 : qcount (remove_from_ready e.sched pid).queues x = qcount e.sched.queues x := by
            rw [hrem]; exact hqne_r x hx
          exact h1.trans h2
        · show qcount (add_to_ready (remove_from_ready e.sched pid) pid _).queues pid ≤ 1
          rw [hadd]
          have h1 : qcount qs_a pid = 1 := hq1_a hzero
          show qcount qs_a pid ≤ 1
          omega
        · show (add_to_ready (remove_from_ready e.sched pid) pid _).queues.length = 10
          rw [hadd]
          exact hlen_a
        · show (add_to_ready (remove_from_ready e.sched pid) pid _).current_running_pid
            = e.sched.current_running_pid
          rw [hadd]
          show (remove_from_ready e.sched pid).current_running_pid = e.sched.current_running_pid
          exact remove_from_ready_current e.sched pid
      · have h0 : adjust_priority e pid np =
            { e with
              process_table := tableModify e.process_table pid
                (fun q => { q with priority := max 0 (min np 9) }) } := by
          simp only [adjust_priority, sched_adjust_priority, hg, if_neg hs]
        rw [h0]
        refine EngineInv_transport e _ rfl
          (fun x => isSome_tableModify _ _ _ x)
          (fun x => map_state_tableModify_priority _ _ _ x)
          (fun x => bind_end_tableModify_priority _ _ _ x)
          (fun x => rfl) hInv.queues_len rfl rfl rfl rfl hInv

theorem engineInv_forceBlock_main (e : SimulatorEngine) (pid : Nat) (p : Process) (io : Int)
    (s1 : PriorityScheduler)
    (hget : tableGet e.process_table pid = some p)
    (hne0 : pid ≠ 0)
    (hrr : p.state = PState.READY ∨ p.state = PState.RUNNING)
    (hs1q : s1.queues = e.sched.queues)
    (hs1cur : ∀ x, s1.current_running_pid = some x →
       e.sched.current_running_pid = some x ∧ x ≠ pid)
    (hInv : EngineInv e) :
    EngineInv { e with
      process_table := tableModify e.process_table pid (fun q =>
        { q with state := PState.BLOCKED, io_remaining := io,
                 blocked_count := q.blocked_count + 1 }),
      sched := remove_from_ready s1 pid,
      blocked_list := e.blocked_list ++ [pid] } := by
  have hlen1 : s1.queues.length = 10 := by rw [hs1q]; exact hInv.queues_len
  obtain ⟨qs_r, hrem, hlen_r, hqne_r, _⟩ := remove_from_ready_spec s1 pid hlen1
  have honce1 : qcount s1.queues pid ≤ 1 := by rw [hs1q]; exact hInv.queue_once pid
  have hzero : qcount (remove_from_ready s1 pid).queues pid = 0 :=
    qcount_zero_of_remove s1 pid hlen1 honce1
  have ht1pid : tableGet (tableModify e.process_table pid (fun q =>
      { q with state := PState.BLOCKED, io_remaining := io,
               blocked_count := q.blocked_count + 1 })) pid
      = some { p with state := PState.BLOCKED, io_remaining := io,
                      blocked_count := p.blocked_count + 1 } := by
    rw [tableGet_tableModify_self, hget]
    rfl
  have ht1ne : ∀ x, x ≠ pid →
      tableGet (tableModify e.process_table pid (fun q =>
        { q with state := PState.BLOCKED, io_remaining := io,
                 blocked_count := q.blocked_count + 1 })) x
        = tableGet e.process_table x :=
    fun x hx => tableGet_tableModify_ne _ _ _ hx _
  have hendnone : p.end_tick = none := by
    cases hx : p.end_tick with
    | none => rfl
    | some v =>
        have h2 := hInv.end_done pid p hget (by rw [hx]; rfl)
        rcases hrr with h | h <;> rw [h] at h2 <;> rcases h2 with h3 | h3 <;> cases h3
  have hnotbl : pid ∉ e.blocked_list := by
    intro hmem
    obtain ⟨p2, hp2, hps2⟩ := hInv.blocked_mem pid hmem
    rw [hget] at hp2
    injection hp2 with h3
    rw [← h3] at hps2
    rcases hrr with h | h <;> rw [h] at hps2 <;> cases hps2
  have hnotz : pid ∉ e.zombie_list := by
    intro hmem
    obtain ⟨p2, hp2, hps2⟩ := hInv.zombie_mem pid hmem
    rw [hget] at hp2
    injection hp2 with h3
    rw [← h3] at hps2
    rcases hrr with h | h <;> rw [h] at hps2 <;> cases hps2
  have hcur2 : (remove_from_ready s1 pid).current_running_pid = s1.current_running_pid :=
    remove_from_ready_current s1 pid
  have hq2 : ∀ x, x ≠ pid →
      qcount (remove_from_ready s1 pid).queues x = qcount e.sched.queues x := by
    intro x hx
    rw [hrem]
    show qcount qs_r x = qcount e.sched.queues x
    rw [hqne_r x hx, hs1q]
  refine ⟨?_, hInv.counter_pos, ?_, ?_, ?_, ?_, ?_, ?_, ?_, ?_, ?_, ?_, ?_, ?_, ?_,
    hInv.zombie_nodup, ?_, hInv.reap_default⟩
  · intro k hk
    rw [isSome_tableModify] at hk
    exact hInv.keys_lt k hk
  · show (tableGet (tableModify e.process_table pid _) 0).isSome
    rw [isSome_tableModify]
    exact hInv.init_mem
  · intro p0 h0
    rw [ht1ne 0 (fun h => hne0 h.symm)] at h0
    exact hInv.init_alive p0 h0
  · intro h0
    rw [hcur2] at h0
    obtain ⟨h1, _⟩ := hs1cur 0 h0
    exact hInv.cur_ne0 h1
  · show (remove_from_ready s1 pid).queues.length = 10
    rw [hrem]
    exact hlen_r
  · intro x h1
    by_cases hx : x = pid
    · subst hx
      rw [hzero] at h1
      omega
    · rw [hq2 x hx] at h1
      obtain ⟨p2, hp2, hps2⟩ := hInv.queued_ready x h1
      rw [ht1ne x hx, hp2]
      exact ⟨p2, rfl, hps2⟩
  · intro x
    by_cases hx : x = pid
    · subst hx
      rw [hzero]
      omega
    · rw [hq2 x hx]
      exact hInv.queue_once x
  · intro x h1
    rw [hcur2] at h1
    obtain ⟨h2, hx⟩ := hs1cur x h1
    obtain ⟨p2, hp2, hps2⟩ := hInv.running_run x h2
    rw [ht1ne x hx, hp2]
    exact ⟨p2, rfl, hps2⟩
  · intro x h1
    rw [hcur2] at h1
    obtain ⟨h2, hx⟩ := hs1cur x h1
    rw [hq2 x hx]
    exact hInv.cur_not_queued x h2
  · intro x h1
    rw [hcur2] at h1
    obtain ⟨h2, hx⟩ := hs1cur x h1
    intro hmem
    rw [List.mem_append] at hmem
    rcases hmem with hmem | hmem
    · exact hInv.cur_not_blocked x h2 hmem
    · rw [List.mem_singleton] at hmem
      exact hx hmem
  · intro x hmem
    rw [List.mem_append] at hmem
    rcases hmem with hmem | hmem
    · obtain ⟨p2, hp2, hps2⟩ := hInv.blocked_mem x hmem
      have hx : x ≠ pid := by
        intro h2
        rw [h2, hget] at hp2
        injection hp2 with h3
        rw [← h3] at hps2
        rcases hrr with h | h <;> rw [h] at hps2 <;> cases hps2
      rw [ht1ne x hx, hp2]
      exact ⟨p2, rfl, hps2⟩
    · rw [List.mem_singleton] at hmem
      subst hmem
      exact ⟨_, ht1pid, rfl⟩
  · rw [List.nodup_append]
    exact ⟨hInv.blocked_nodup, List.nodup_singleton pid,
      fun a ha hb => by rw [List.mem_singleton] at hb; exact hnotbl (hb ▸ ha)⟩
  · intro x p' hp' hz
    by_cases hx : x = pid
    · subst hx
      rw [ht1pid] at hp'
      injection hp' with h1
      rw [← h1] at hz
      cases hz
    · rw [ht1ne x hx] at hp'
      exact hInv.zombie_state x p' hp' hz
  · intro x hmem
    have hx : x ≠ pid := fun h2 => hnotz (h2 ▸ hmem)
    obtain ⟨p2, hp2, hps2⟩ := hInv.zombie_mem x hmem
    rw [ht1ne x hx, hp2]
    exact ⟨p2, rfl, hps2⟩
  · intro x p' hp' hsome
    by_cases hx : x = pid
    · subst hx
      rw [ht1pid] at hp'
      injection hp' with h1
      rw [← h1] at hsome
      have h2 : ({ p with state := PState.BLOCKED, io_remaining := io, blocked_count := p.blocked_count + 1 } : Process).end_tick = p.end_tick := rfl
      rw [h2, hendnone] at hsome
      cases hsome
    · rw [ht1ne x hx] at hp'
      exact hInv.end_done x p' hp' hsome

theorem engineInv_forceBlock (e : SimulatorEngine) (pid : Nat) (io_time : Option Int)
    (dIo : Int) (hInv : EngineInv e) : EngineInv (force_block_process e pid io_time dIo).2 := by
  cases hg : tableGet e.process_table pid with
  | none =>
      have h0 : (force_block_process e pid io_time dIo).2 = e := by
        simp only [force_block_process, hg]
      rw [h0]; exact hInv
  | some p =>
      by_cases h0p : pid = 0
      · have h0 : (force_block_process e pid io_time dIo).2 = e := by
          simp only [force_block_process, hg, if_pos h0p]
        rw [h0]; exact hInv
      · by_cases hrr : p.state = PState.READY ∨ p.state = PState.RUNNING
        · by_cases hc : e.sched.current_running_pid = some pid
          · have h0 : (force_block_process e pid io_time dIo).2 =
                { e with
                  process_table := tableModify e.process_table pid (fun q =>
                    { q with state := PState.BLOCKED, io_remaining := io_time.getD dIo, blocked_count := q.blocked_count + 1 }),
                  sched := remove_from_ready
                    { e.sched with current_running_pid := none, current_quantum_used := 0 } pid,
                  blocked_list := e.blocked_list ++ [pid] } := by
              simp only [force_block_process, hg, if_neg h0p, if_pos hrr, if_pos hc]
            rw [h0]
            exact engineInv_forceBlock_main e pid p (io_time.getD dIo) _ hg h0p hrr rfl
              (fun x hx => by cases hx) hInv
          · have h0 : (force_block_process e pid io_time dIo).2 =
                { e with
                  process_table := tableModify e.process_table pid (fun q =>
                    { q with state := PState.BLOCKED, io_remaining := io_time.getD dIo, blocked_count := q.blocked_count + 1 }),
                  sched := remove_from_ready e.sched pid,
                  blocked_list := e.blocked_list ++ [pid] } := by
              simp only [force_block_process, hg, if_neg h0p, if_pos hrr, if_neg hc]
            rw [h0]
            refine engineInv_forceBlock_main e pid p (io_time.getD dIo) e.sched hg h0p hrr rfl
              ?_ hInv
            intro x hx
            refine ⟨hx, ?_⟩
            intro h2
            rw [h2] at hx
            exact hc hx
        · have h0 : (force_block_process e pid io_time dIo).2 = e := by
            simp only [force_block_process, hg, if_neg h0p, if_neg hrr]
          rw [h0]; exact hInv

theorem tableModify_tableModify (t : Table) (k : Nat) (f g : Process → Process) :
    tableModify (tableModify t k f) k g = tableModify t k (fun q => g (f q)) := by
  induction t with
  | nil => rfl
  | cons kv rest ih =>
      by_cases h : kv.1 = k
      · simp only [tableModify, if_pos h, ih]
      · simp only [tableModify, if_neg h, ih]

theorem applyTD_shape (E : SimulatorEngine) (pid : Nat) (q : Process)
    (hget : tableGet E.process_table pid = some q) :
    ∃ st g zl',
      (st = PState.ZOMBIE ∧ zl' = E.zombie_list ++ [pid] ∨
       st = PState.TERMINATED ∧ zl' = E.zombie_list) ∧
      applyTerminationDecision E pid =
        { E with process_table := tableModify E.process_table pid g, zombie_list := zl' } ∧
      (∀ w, (g w).state = st) ∧ (∀ w, (g w).end_tick = w.end_tick) := by
  cases hpp : q.parent_pid with
  | none =>
      refine ⟨PState.TERMINATED, fun w => { w with state := PState.TERMINATED },
        E.zombie_list, Or.inr ⟨rfl, rfl⟩, ?_, fun w => rfl, fun w => rfl⟩
      simp only [applyTerminationDecision, hget, hpp]
  | some n =>
      cases n with
      | zero =>
          refine ⟨PState.TERMINATED, fun w => { w with state := PState.TERMINATED },
            E.zombie_list, Or.inr ⟨rfl, rfl⟩, ?_, fun w => rfl, fun w => rfl⟩
          simp only [applyTerminationDecision, hget, hpp]
      | succ pp =>
          cases hpar : tableGet E.process_table (pp + 1) with
          | none =>
              refine ⟨PState.TERMINATED, fun w => { w with state := PState.TERMINATED },
                E.zombie_list, Or.inr ⟨rfl, rfl⟩, ?_, fun w => rfl, fun w => rfl⟩
              simp only [applyTerminationDecision, hget, hpp, hpar]
          | some parent =>
              by_cases hw : parent.waiting_for_child = false
              · refine ⟨PState.ZOMBIE, fun w => { w with state := PState.ZOMBIE },
                  E.zombie_list ++ [pid], Or.inl ⟨rfl, rfl⟩, ?_, fun w => rfl, fun w => rfl⟩
                simp only [applyTerminationDecision, hget, hpp, hpar, if_pos hw]
              · refine ⟨PState.TERMINATED,
                  fun w => { w with state := PState.TERMINATED, reaped := true },
                  E.zombie_list, Or.inr ⟨rfl, rfl⟩, ?_, fun w => rfl, fun w => rfl⟩
                simp only [applyTerminationDecision, hget, hpp, hpar, if_neg hw]

theorem engineInv_sealed (e : SimulatorEngine) (pid : Nat) (p : Process)
    (hget : tableGet e.process_table pid = some p)
    (hne0 : pid ≠ 0)
    (s1 : PriorityScheduler)
    (hs1q : s1.queues = e.sched.queues)
    (hs1cur : ∀ x, s1.current_running_pid = some x →
       e.sched.current_running_pid = some x ∧ x ≠ pid)
    (st : PState) (g : Process → Process) (zl' : List Nat)
    (hcase : st = PState.ZOMBIE ∧ zl' = e.zombie_list.erase pid ++ [pid] ∨
             st = PState.TERMINATED ∧ zl' = e.zombie_list.erase pid)
    (hg_state : ∀ w, (g w).state = st)
    (hInv : EngineInv e) :
    EngineInv { e with
      process_table := tableModify e.process_table pid g,
      sched := remove_from_ready s1 pid,
      blocked_list := e.blocked_list.erase pid,
      zombie_list := zl' } := by
  have hlen1 : s1.queues.length = 10 := by rw [hs1q]; exact hInv.queues_len
  obtain ⟨qs_r, hrem, hlen_r, hqne_r, _⟩ := remove_from_ready_spec s1 pid hlen1
  have honce1 : qcount s1.queues pid ≤ 1 := by rw [hs1q]; exact hInv.queue_once pid
  have hzero : qcount (remove_from_ready s1 pid).queues pid = 0 :=
    qcount_zero_of_remove s1 pid hlen1 honce1
  have ht1pid : tableGet (tableModify e.process_table pid g) pid = some (g p) := by
    rw [tableGet_tableModify_self, hget]
    rfl
  have ht1ne : ∀ x, x ≠ pid →
      tableGet (tableModify e.process_table pid g) x = tableGet e.process_table x :=
    fun x hx => tableGet_tableModify_ne _ _ _ hx _
  have hcur2 : (remove_from_ready s1 pid).current_running_pid = s1.current_running_pid :=
    remove_from_ready_current s1 pid
  have hq2 : ∀ x, x ≠ pid →
      qcount (remove_from_ready s1 pid).queues x = qcount e.sched.queues x := by
    intro x hx
    rw [hrem]
    show qcount qs_r x = qcount e.sched.queues x
    rw [hqne_r x hx, hs1q]
  have hstZT : st = PState.ZOMBIE ∨ st = PState.TERMINATED := by
    rcases hcase with ⟨h1, _⟩ | ⟨h1, _⟩
    · exact Or.inl h1
    · exact Or.inr h1
  have hble : ∀ y, y ∈ e.blocked_list.erase pid → y ≠ pid ∧ y ∈ e.blocked_list :=
    fun y hy => ⟨(hInv.blocked_nodup.mem_erase_iff.mp hy).1, (hInv.blocked_nodup.mem_erase_iff.mp hy).2⟩
  have hzle : ∀ y, y ∈ e.zombie_list.erase pid → y ≠ pid ∧ y ∈ e.zombie_list :=
    fun y hy => ⟨(hInv.zombie_nodup.mem_erase_iff.mp hy).1, (hInv.zombie_nodup.mem_erase_iff.mp hy).2⟩
  refine ⟨?_, hInv.counter_pos, ?_, ?_, ?_, ?_, ?_, ?_, ?_, ?_, ?_, ?_, ?_, ?_, ?_, ?_, ?_,
    hInv.reap_default⟩
  · intro k hk
    rw [isSome_tableModify] at hk
    exact hInv.keys_lt k hk
  · show (tableGet (tableModify e.process_table pid g) 0).isSome
    rw [isSome_tableModify]
    exact hInv.init_mem
  · intro p0 h0
    rw [ht1ne 0 (fun h => hne0 h.symm)] at h0
    exact hInv.init_alive p0 h0
  · intro h0
    rw [hcur2] at h0
    obtain ⟨h1, _⟩ := hs1cur 0 h0
    exact hInv.cur_ne0 h1
  · show (remove_from_ready s1 pid).queues.length = 10
    rw [hrem]
    exact hlen_r
  · intro x h1
    by_cases hx : x = pid
    · subst hx
      rw [hzero] at h1
      omega
    · rw [hq2 x hx] at h1
      obtain ⟨p2, hp2, hps2⟩ := hInv.queued_ready x h1
      rw [ht1ne x hx, hp2]
      exact ⟨p2, rfl, hps2⟩
  · intro x
    by_cases hx : x = pid
    · subst hx
      rw [hzero]
      omega
    · rw [hq2 x hx]
      exact hInv.queue_once x
  · intro x h1
    rw [hcur2] at h1
    obtain ⟨h2, hx⟩ := hs1cur x h1
    obtain ⟨p2, hp2, hps2⟩ := hInv.running_run x h2
    rw [ht1ne x hx, hp2]
    exact ⟨p2, rfl, hps2⟩
  · intro x h1
    rw [hcur2] at h1
    obtain ⟨h2, hx⟩ := hs1cur x h1
    rw [hq2 x hx]
    exact hInv.cur_not_queued x h2
  · intro x h1
    rw [hcur2] at h1
    obtain ⟨h2, _⟩ := hs1cur x h1
    intro hmem
    exact hInv.cur_not_blocked x h2 (hble x hmem).2
  · intro x hmem
    obtain ⟨hx, hmem'⟩ := hble x hmem
    obtain ⟨p2, hp2, hps2⟩ := hInv.blocked_mem x hmem'
    rw [ht1ne x hx, hp2]
    exact ⟨p2, rfl, hps2⟩
  · exact hInv.blocked_nodup.erase pid
  · intro x p' hp' hz
    by_cases hx : x = pid
    · subst hx
      rcases hcase with ⟨h1, h2⟩ | ⟨h1, h2⟩
      · rw [h2]
        exact List.mem_append.mpr (Or.inr (List.mem_singleton.mpr rfl))
      · rw [ht1pid] at hp'
        injection hp' with h3
        rw [← h3, hg_state p, h1] at hz
        cases hz
    · rw [ht1ne x hx] at hp'
      have h4 := hInv.zombie_state x p' hp' hz
      have h5 : x ∈ e.zombie_list.erase pid := hInv.zombie_nodup.mem_erase_iff.mpr ⟨hx, h4⟩
      rcases hcase with ⟨_, h2⟩ | ⟨_, h2⟩
      · rw [h2]
        exact List.mem_append.mpr (Or.inl h5)
      · rw [h2]
        exact h5
  · intro x hmem
    rcases hcase with ⟨h1, h2⟩ | ⟨h1, h2⟩
    · rw [h2, List.mem_append] at hmem
      rcases hmem with hmem | hmem
      · obtain ⟨hx, hmem'⟩ := hzle x hmem
        obtain ⟨p2, hp2, hps2⟩ := hInv.zombie_mem x hmem'
        rw [ht1ne x hx, hp2]
        exact ⟨p2, rfl, hps2⟩
      · rw [List.mem_singleton] at hmem
        subst hmem
        refine ⟨g p, ht1pid, ?_⟩
        rw [hg_state p, h1]
    · rw [h2] at hmem
      obtain ⟨hx, hmem'⟩ := hzle x hmem
      obtain ⟨p2, hp2, hps2⟩ := hInv.zombie_mem x hmem'
      rw [ht1ne x hx, hp2]
      exact ⟨p2, rfl, hps2⟩
  · rcases hcase with ⟨_, h2⟩ | ⟨_, h2⟩
    · rw [h2, List.nodup_append]
      refine ⟨hInv.zombie_nodup.erase pid, List.nodup_singleton pid, ?_⟩
      intro a ha hb
      rw [List.mem_singleton] at hb
      subst hb
      exact (hzle a ha).1 rfl
    · rw [h2]
      exact hInv.zombie_nodup.erase pid
  · intro x p' hp' hsome
    by_cases hx : x = pid
    · subst hx
      rw [ht1pid] at hp'
      injection hp' with h1
      rw [← h1, hg_state p]
      exact hstZT
    · rw [ht1ne x hx] at hp'
      exact hInv.end_done x p' hp' hsome

theorem engineInv_forceTerminate_main (e : SimulatorEngine) (pid : Nat) (p : Process)
    (hget : tableGet e.process_table pid = some p)
    (hne0 : pid ≠ 0)
    (s1 : PriorityScheduler)
    (hs1q : s1.queues = e.sched.queues)
    (hs1cur : ∀ x, s1.current_running_pid = some x →
       e.sched.current_running_pid = some x ∧ x ≠ pid)
    (hInv : EngineInv e) :
    EngineInv (applyTerminationDecision { e with
      process_table := tableModify e.process_table pid
        (fun q => { q with remaining_burst := 0, end_tick := some e.tick }),
      sched := remove_from_ready s1 pid,
      blocked_list := e.blocked_list.erase pid,
      zombie_list := e.zombie_list.erase pid } pid) := by
  have hget2 : tableGet (tableModify e.process_table pid
      (fun q => { q with remaining_burst := 0, end_tick := some e.tick })) pid
      = some { p with remaining_burst := 0, end_tick := some e.tick } := by
    rw [tableGet_tableModify_self, hget]
    rfl
  obtain ⟨st, g, zl', hcase, heq, hg_state, _⟩ :=
    applyTD_shape { e with
      process_table := tableModify e.process_table pid
        (fun q => { q with remaining_burst := 0, end_tick := some e.tick }),
      sched := remove_from_ready s1 pid,
      blocked_list := e.blocked_list.erase pid,
      zombie_list := e.zombie_list.erase pid } pid
      { p with remaining_burst := 0, end_tick := some e.tick } hget2
  rw [heq]
  have hcomp := tableModify_tableModify e.process_table pid
    (fun q => { q with remaining_burst := 0, end_tick := some e.tick }) g
  have hfin : EngineInv { e with
      process_table := tableModify e.process_table pid
        (fun q => g { q with remaining_burst := 0, end_tick := some e.tick }),
      sched := remove_from_ready s1 pid,
      blocked_list := e.blocked_list.erase pid,
      zombie_list := zl' } := by
    refine engineInv_sealed e pid p hget hne0 s1 hs1q hs1cur st
      (fun q => g { q with remaining_burst := 0, end_tick := some e.tick }) zl'
      ?_ (fun w => hg_state _) hInv
    exact hcase
  show EngineInv { e with
      process_table := tableModify (tableModify e.process_table pid
        (fun q => { q with remaining_burst := 0, end_tick := some e.tick })) pid g,
      sched := remove_from_ready s1 pid,
      blocked_list := e.blocked_list.erase pid,
      zombie_list := zl' }
  rw [hcomp]
  exact hfin

theorem engineInv_forceTerminate (e : SimulatorEngine) (pid : Nat)
    (hInv : EngineInv e) : EngineInv (force_terminate_process e pid).2 := by
  cases hg : tableGet e.process_table pid with
  | none =>
      have h0 : (force_terminate_process e pid).2 = e := by
        simp only [force_terminate_process, hg]
      rw [h0]; exact hInv
  | some p =>
      by_cases h0p : pid = 0
      · have h0 : (force_terminate_process e pid).2 = e := by
          simp only [force_terminate_process, hg, if_pos h0p]
        rw [h0]; exact hInv
      · by_cases hT : p.state = PState.TERMINATED
        · have h0 : (force_terminate_process e pid).2 = e := by
            simp only [force_terminate_process, hg, if_neg h0p, if_pos hT]
          rw [h0]; exact hInv
        · by_cases hc : e.sched.current_running_pid = some pid
          · have h0 : (force_terminate_process e pid).2 =
                applyTerminationDecision { e with
                  process_table := tableModify e.process_table pid
                    (fun q => { q with remaining_burst := 0, end_tick := some e.tick }),
                  sched := remove_from_ready
                    { e.sched with current_running_pid := none, current_quantum_used := 0 } pid,
                  blocked_list := e.blocked_list.erase pid,
                  zombie_list := e.zombie_list.erase pid } pid := by
              simp only [force_terminate_process, hg, if_neg h0p, if_neg hT, if_pos hc,
                remove_from_queues]
            rw [h0]
            exact engineInv_forceTerminate_main e pid p hg h0p _ rfl
              (fun x hx => by cases hx) hInv
          · have h0 : (force_terminate_process e pid).2 =
                applyTerminationDecision { e with
                  process_table := tableModify e.process_table pid
                    (fun q => { q with remaining_burst := 0, end_tick := some e.tick }),
                  sched := remove_from_ready e.sched pid,
                  blocked_list := e.blocked_list.erase pid,
                  zombie_list := e.zombie_list.erase pid } pid := by
              simp only [force_terminate_process, hg, if_neg h0p, if_neg hT, if_neg hc,
                remove_from_queues]
            rw [h0]
            refine engineInv_forceTerminate_main e pid p hg h0p e.sched rfl ?_ hInv
            intro x hx
            refine ⟨hx, ?_⟩
            intro h2
            rw [h2] at hx
            exact hc hx

theorem engineInv_waitReap (e : SimulatorEngine) (c : Nat) (child : Process)
    (hget : tableGet e.process_table c = some child)
    (hz : child.state = PState.ZOMBIE)
    (hInv : EngineInv e) :
    EngineInv { e with
      process_table := tableModify e.process_table c
        (fun q => { q with state := PState.TERMINATED, reaped := true }),
      zombie_list := e.zombie_list.erase c } := by
  have ht1c : tableGet (tableModify e.process_table c
      (fun q => { q with state := PState.TERMINATED, reaped := true })) c
      = some { child with state := PState.TERMINATED, reaped := true } := by
    rw [tableGet_tableModify_self, hget]
    rfl
  have ht1ne : ∀ x, x ≠ c →
      tableGet (tableModify e.process_table c
        (fun q => { q with state := PState.TERMINATED, reaped := true })) x
        = tableGet e.process_table x :=
    fun x hx => tableGet_tableModify_ne _ _ _ hx _
  have hzle : ∀ y, y ∈ e.zombie_list.erase c → y ≠ c ∧ y ∈ e.zombie_list :=
    fun y hy => ⟨(hInv.zombie_nodup.mem_erase_iff.mp hy).1,
      (hInv.zombie_nodup.mem_erase_iff.mp hy).2⟩
  refine ⟨?_, hInv.counter_pos, ?_, ?_, hInv.cur_ne0, hInv.queues_len, ?_, hInv.queue_once,
    ?_, hInv.cur_not_queued, hInv.cur_not_blocked, ?_, hInv.blocked_nodup, ?_, ?_, ?_, ?_,
    hInv.reap_default⟩
  · intro k hk
    rw [isSome_tableModify] at hk
    exact hInv.keys_lt k hk
  · show (tableGet (tableModify e.process_table c _) 0).isSome
    rw [isSome_tableModify]
    exact hInv.init_mem
  · intro p0 h0
    by_cases h0c : (0 : Nat) = c
    · subst h0c
      rw [ht1c] at h0
      injection h0 with h1
      have h2 : ({ child with state := PState.TERMINATED, reaped := true } : Process).end_tick = child.end_tick := rfl
      rw [← h1]
      show ({ child with state := PState.TERMINATED, reaped := true } : Process).end_tick = none
      rw [h2]
      exact hInv.init_alive child hget
    · rw [ht1ne 0 h0c] at h0
      exact hInv.init_alive p0 h0
  · intro x h1
    obtain ⟨p2, hp2, hps2⟩ := hInv.queued_ready x h1
    have hx : x ≠ c := by
      intro h2
      rw [h2, hget] at hp2
      injection hp2 with h3
      rw [← h3, hz] at hps2
      cases hps2
    rw [ht1ne x hx, hp2]
    exact ⟨p2, rfl, hps2⟩
  · intro x h1
    obtain ⟨p2, hp2, hps2⟩ := hInv.running_run x h1
    have hx : x ≠ c := by
      intro h2
      rw [h2, hget] at hp2
      injection hp2 with h3
      rw [← h3, hz] at hps2
      cases hps2
    rw [ht1ne x hx, hp2]
    exact ⟨p2, rfl, hps2⟩
  · intro x hmem
    obtain ⟨p2, hp2, hps2⟩ := hInv.blocked_mem x hmem
    have hx : x ≠ c := by
      intro h2
      rw [h2, hget] at hp2
      injection hp2 with h3
      rw [← h3, hz] at hps2
      cases hps2
    rw [ht1ne x hx, hp2]
    exact ⟨p2, rfl, hps2⟩
  · intro x p' hp' hz'
    by_cases hx : x = c
    · subst hx
      rw [ht1c] at hp'
      injection hp' with h1
      rw [← h1] at hz'
      cases hz'
    · rw [ht1ne x hx] at hp'
      have h4 := hInv.zombie_state x p' hp' hz'
      exact hInv.zombie_nodup.mem_erase_iff.mpr ⟨hx, h4⟩
  · intro x hmem
    obtain ⟨hx, hmem'⟩ := hzle x hmem
    obtain ⟨p2, hp2, hps2⟩ := hInv.zombie_mem x hmem'
    rw [ht1ne x hx, hp2]
    exact ⟨p2, rfl, hps2⟩
  · exact hInv.zombie_nodup.erase c
  · intro x p' hp' hsome
    by_cases hx : x = c
    · subst hx
      rw [ht1c] at hp'
      injection hp' with h1
      rw [← h1]
      exact Or.inr rfl
    · rw [ht1ne x hx] at hp'
      exact hInv.end_done x p' hp' hsome

theorem engineInv_waitStep (l : List Nat) : ∀ (e : SimulatorEngine) (acc : List Nat),
    EngineInv e → EngineInv (waitStep l e acc).2 := by
  induction l with
  | nil => intro e acc hInv; exact hInv
  | cons c rest ih =>
      intro e acc hInv
      cases hg : tableGet e.process_table c with
      | none =>
          simp only [waitStep, hg]
          exact ih e acc hInv
      | some child =>
          simp only [waitStep, hg]
          by_cases hz : child.state = PState.ZOMBIE
          · simp only [if_pos hz]
            exact ih _ _ (engineInv_waitReap e c child hg hz hInv)
          · simp only [if_neg hz]
            exact ih e acc hInv

theorem engineInv_wait (e : SimulatorEngine) (parent_pid : Nat)
    (hInv : EngineInv e) : EngineInv (wait_for_child e parent_pid).2 := by
  cases hg : tableGet e.process_table parent_pid with
  | none =>
      have h0 : (wait_for_child e parent_pid).2 = e := by
        simp only [wait_for_child, hg]
      rw [h0]; exact hInv
  | some parent =>
      have h0 : (wait_for_child e parent_pid).2 = (waitStep parent.children e []).2 := by
        simp only [wait_for_child, hg]
      rw [h0]
      exact engineInv_waitStep parent.children e [] hInv

theorem engineInv_unblock (V : SimulatorEngine) (pid : Nat) (p : Process)
    (hget : tableGet V.process_table pid = some p)
    (hbl : p.state = PState.BLOCKED)
    (f : Process → Process)
    (hf_state : ∀ q, (f q).state = PState.READY)
    (hf_end : ∀ q, (f q).end_tick = q.end_tick)
    (hInv : EngineInv V) :
    EngineInv { V with
      process_table := tableModify V.process_table pid f,
      sched := add_to_ready V.sched pid (tableModify V.process_table pid f),
      blocked_list := V.blocked_list.erase pid } := by
  have ht1pid : tableGet (tableModify V.process_table pid f) pid = some (f p) := by
    rw [tableGet_tableModify_self, hget]
    rfl
  have ht1ne : ∀ x, x ≠ pid →
      tableGet (tableModify V.process_table pid f) x = tableGet V.process_table x :=
    fun x hx => tableGet_tableModify_ne _ _ _ hx _
  have hq0 : qcount V.sched.queues pid = 0 := by
    by_cases h1 : 1 ≤ qcount V.sched.queues pid
    · obtain ⟨p2, hp2, hps2⟩ := hInv.queued_ready pid h1
      rw [hget] at hp2
      injection hp2 with h3
      rw [← h3, hbl] at hps2
      cases hps2
    · omega
  have hnotcur : V.sched.current_running_pid ≠ some pid := by
    intro hcur
    obtain ⟨p2, hp2, hps2⟩ := hInv.running_run pid hcur
    rw [hget] at hp2
    injection hp2 with h3
    rw [← h3, hbl] at hps2
    cases hps2
  have hnotz : pid ∉ V.zombie_list := by
    intro hmem2
    obtain ⟨p2, hp2, hps2⟩ := hInv.zombie_mem pid hmem2
    rw [hget] at hp2
    injection hp2 with h3
    rw [← h3, hbl] at hps2
    cases hps2
  have hendnone : p.end_tick = none := by
    cases hx : p.end_tick with
    | none => rfl
    | some v =>
        have h2 := hInv.end_done pid p hget (by rw [hx]; rfl)
        rw [hbl] at h2
        rcases h2 with h3 | h3 <;> cases h3
  have hble : ∀ y, y ∈ V.blocked_list.erase pid → y ≠ pid ∧ y ∈ V.blocked_list :=
    fun y hy => ⟨(hInv.blocked_nodup.mem_erase_iff.mp hy).1,
      (hInv.blocked_nodup.mem_erase_iff.mp hy).2⟩
  obtain ⟨qs', hadd, hlen', hqne, hq1, hqle, hqpos⟩ :=
    add_to_ready_spec V.sched pid (tableModify V.process_table pid f) hInv.queues_len
  rw [hadd]
  refine ⟨?_, hInv.counter_pos, ?_, ?_, hInv.cur_ne0, hlen', ?_, ?_, ?_, ?_, ?_, ?_, ?_,
    ?_, ?_, hInv.zombie_nodup, ?_, hInv.reap_default⟩
  · intro k hk
    rw [isSome_tableModify] at hk
    exact hInv.keys_lt k hk
  · show (tableGet (tableModify V.process_table pid f) 0).isSome
    rw [isSome_tableModify]
    exact hInv.init_mem
  · intro p0 h0
    by_cases h0p : (0 : Nat) = pid
    · subst h0p
      rw [ht1pid] at h0
      injection h0 with h1
      rw [← h1, hf_end p]
      exact hInv.init_alive p hget
    · rw [ht1ne 0 h0p] at h0
      exact hInv.init_alive p0 h0
  · intro x h1
    by_cases hx : x = pid
    · subst hx
      exact ⟨f p, ht1pid, hf_state p⟩
    · rw [hqne x hx] at h1
      obtain ⟨p2, hp2, hps2⟩ := hInv.queued_ready x h1
      rw [ht1ne x hx, hp2]
      exact ⟨p2, rfl, hps2⟩
  · intro x
    by_cases hx : x = pid
    · subst hx
      rw [hq1 hq0]
    · rw [hqne x hx]
      exact hInv.queue_once x
  · intro x hcur
    have hx : x ≠ pid := by
      intro h2
      rw [h2] at hcur
      exact hnotcur hcur
    obtain ⟨p2, hp2, hps2⟩ := hInv.running_run x hcur
    rw [ht1ne x hx, hp2]
    exact ⟨p2, rfl, hps2⟩
  · intro x hcur
    have hx : x ≠ pid := by
      intro h2
      rw [h2] at hcur
      exact hnotcur hcur
    rw [hqne x hx]
    exact hInv.cur_not_queued x hcur
  · intro x hcur hmem2
    exact hInv.cur_not_blocked x hcur (hble x hmem2).2
  · intro x hmem2
    obtain ⟨hx, hmem'⟩ := hble x hmem2
    obtain ⟨p2, hp2, hps2⟩ := hInv.blocked_mem x hmem'
    rw [ht1ne x hx, hp2]
    exact ⟨p2, rfl, hps2⟩
  · exact hInv.blocked_nodup.erase pid
  · intro x p' hp' hz
    by_cases hx : x = pid
    · subst hx
      rw [ht1pid] at hp'
      injection hp' with h1
      rw [← h1, hf_state p] at hz
      cases hz
    · rw [ht1ne x hx] at hp'
      exact hInv.zombie_state x p' hp' hz
  · intro x hmem2
    have hx : x ≠ pid := fun h2 => hnotz (h2 ▸ hmem2)
    obtain ⟨p2, hp2, hps2⟩ := hInv.zombie_mem x hmem2
    rw [ht1ne x hx, hp2]
    exact ⟨p2, rfl, hps2⟩
  · intro x p' hp' hsome
    by_cases hx : x = pid
    · subst hx
      rw [ht1pid] at hp'
      injection hp' with h1
      rw [← h1, hf_end p, hendnone] at hsome
      cases hsome
    · rw [ht1ne x hx] at hp'
      exact hInv.end_done x p' hp' hsome

theorem engineInv_handleBlockedStep (l : List Nat) : ∀ (e : SimulatorEngine) (acc : List Nat),
    l.Nodup →
    (∀ q ∈ l, q ∈ acc.foldl (fun bl z => bl.erase z) e.blocked_list) →
    EngineInv { e with blocked_list := acc.foldl (fun bl z => bl.erase z) e.blocked_list } →
    EngineInv { (handleBlockedStep l e acc).1 with
      blocked_list := (handleBlockedStep l e acc).2.foldl (fun bl z => bl.erase z)
        (handleBlockedStep l e acc).1.blocked_list } := by
  induction l with
  | nil => intro e acc _ _ Hv; exact Hv
  | cons pid rest ih =>
      intro e acc hnd Hl Hv
      have hnd' : rest.Nodup := (List.nodup_cons.mp hnd).2
      have hpidrest : pid ∉ rest := (List.nodup_cons.mp hnd).1
      cases hg : tableGet e.process_table pid with
      | none =>
          simp only [handleBlockedStep, hg]
          exact ih e acc hnd' (fun q hq => Hl q (List.mem_cons_of_mem _ hq)) Hv
      | some p =>
          have hpmem : pid ∈ acc.foldl (fun bl z => bl.erase z) e.blocked_list :=
            Hl pid (List.mem_cons_self pid rest)
          have hbl : p.state = PState.BLOCKED := by
            obtain ⟨p2, hp2, hps2⟩ := Hv.blocked_mem pid hpmem
            have hp2' : tableGet e.process_table pid = some p2 := hp2
            rw [hg] at hp2'
            injection hp2' with h3
            rw [← h3] at hps2
            exact hps2
          have hfold : (acc ++ [pid]).foldl (fun bl z => bl.erase z) e.blocked_list =
              (acc.foldl (fun bl z => bl.erase z) e.blocked_list).erase pid := by
            rw [List.foldl_append]
            rfl
          by_cases hio : (if p.io_remaining > 0 then { p with io_remaining := p.io_remaining - 1 } else p).io_remaining = 0
          · simp only [handleBlockedStep, hg, if_pos hio]
            refine ih _ _ hnd' ?_ ?_
            · intro q hq
              show q ∈ (acc ++ [pid]).foldl (fun bl z => bl.erase z) e.blocked_list
              rw [hfold]
              have hqvb : q ∈ acc.foldl (fun bl z => bl.erase z) e.blocked_list :=
                Hl q (List.mem_cons_of_mem _ hq)
              have hnodvb : (acc.foldl (fun bl z => bl.erase z) e.blocked_list).Nodup :=
                Hv.blocked_nodup
              refine hnodvb.mem_erase_iff.mpr ⟨?_, hqvb⟩
              intro h2
              rw [h2] at hq
              exact hpidrest hq
            · show EngineInv { e with
                process_table := tableModify e.process_table pid
                  (fun q => { (if q.io_remaining > 0 then { q with io_remaining := q.io_remaining - 1 } else q) with state := PState.READY }),
                sched := add_to_ready e.sched pid (tableModify e.process_table pid
                  (fun q => { (if q.io_remaining > 0 then { q with io_remaining := q.io_remaining - 1 } else q) with state := PState.READY })),
                blocked_list := (acc ++ [pid]).foldl (fun bl z => bl.erase z) e.blocked_list }
              rw [hfold]
              exact engineInv_unblock
                { e with blocked_list := acc.foldl (fun bl z => bl.erase z) e.blocked_list }
                pid p hg hbl _
                (fun q => rfl)
                (fun q => by by_cases h : q.io_remaining > 0
                             · rw [if_pos h]
                             · rw [if_neg h])
                Hv
          · simp only [handleBlockedStep, hg, if_neg hio]
            refine ih _ _ hnd' ?_ ?_
            · intro q hq
              exact Hl q (List.mem_cons_of_mem _ hq)
            · show EngineInv { e with
                process_table := tableModify e.process_table pid
                  (fun q => if q.io_remaining > 0 then { q with io_remaining := q.io_remaining - 1 } else q),
                blocked_list := acc.foldl (fun bl z => bl.erase z) e.blocked_list }
              refine EngineInv_transport
                { e with blocked_list := acc.foldl (fun bl z => bl.erase z) e.blocked_list }
                _ rfl
                (fun x => isSome_tableModify _ _ _ x)
                ?_ ?_ (fun x => rfl) Hv.queues_len rfl rfl rfl rfl Hv
              · apply map_state_tableModify
                intro q
                by_cases h : q.io_remaining > 0
                · rw [if_pos h]
                · rw [if_neg h]
              · apply bind_end_tableModify
                intro q
                by_cases h : q.io_remaining > 0
                · rw [if_pos h]
                · rw [if_neg h]

theorem engineInv_handleBlocked (e : SimulatorEngine) (hInv : EngineInv e) :
    EngineInv (handle_blocked_processes e) := by
  have h0 := engineInv_handleBlockedStep e.blocked_list e [] hInv.blocked_nodup
    (fun q hq => hq) hInv
  cases heq : handleBlockedStep e.blocked_list e [] with
  | mk e1 unblocked =>
      rw [heq] at h0
      have h1 : handle_blocked_processes e =
          { e1 with blocked_list := unblocked.foldl (fun bl z => bl.erase z) e1.blocked_list } := by
        simp only [handle_blocked_processes, heq]
      rw [h1]
      exact h0

theorem engineInv_autoReapStep (l : List Nat) : ∀ (e : SimulatorEngine),
    l.Nodup → (∀ q ∈ l, q ∈ e.zombie_list) → EngineInv e →
    EngineInv (autoReapStep l e) := by
  induction l with
  | nil => intro e _ _ hInv; exact hInv
  | cons pid rest ih =>
      intro e hnd Hl hInv
      have hnd' : rest.Nodup := (List.nodup_cons.mp hnd).2
      have hpidrest : pid ∉ rest := (List.nodup_cons.mp hnd).1
      cases hg : tableGet e.process_table pid with
      | none =>
          simp only [autoReapStep, hg]
          exact ih e hnd' (fun q hq => Hl q (List.mem_cons_of_mem _ hq)) hInv
      | some p =>
          have hz : p.state = PState.ZOMBIE := by
            obtain ⟨p2, hp2, hps2⟩ := hInv.zombie_mem pid (Hl pid (List.mem_cons_self pid rest))
            rw [hg] at hp2
            injection hp2 with h3
            rw [← h3] at hps2
            exact hps2
          by_cases hage : (e.tick : Int) - ((p.end_tick.getD 0 : Nat) : Int) ≥ e.auto_reap_after
          · simp only [autoReapStep, hg, if_pos hage]
            refine ih _ hnd' ?_ (engineInv_waitReap e pid p hg hz hInv)
            intro q hq
            show q ∈ e.zombie_list.erase pid
            refine hInv.zombie_nodup.mem_erase_iff.mpr ⟨?_, Hl q (List.mem_cons_of_mem _ hq)⟩
            intro h2
            rw [h2] at hq
            exact hpidrest hq
          · simp only [autoReapStep, hg, if_neg hage]
            exact ih e hnd' (fun q hq => Hl q (List.mem_cons_of_mem _ hq)) hInv

theorem engineInv_autoReap (e : SimulatorEngine) (hInv : EngineInv e) :
    EngineInv (auto_reap_zombies e) :=
  engineInv_autoReapStep e.zombie_list e hInv.zombie_nodup (fun _ hq => hq) hInv

theorem remove_from_ready_of_not_queued (s : PriorityScheduler) (pid : Nat)
    (h : qcount s.queues pid = 0) : remove_from_ready s pid = s := by
  unfold remove_from_ready
  have hfind : (List.range 10).find? (fun i => decide (pid ∈ qget s.queues i)) = none := by
    rw [List.find?_eq_none]
    intro i _
    simp only [decide_eq_true_eq]
    exact not_mem_qget_of_qcount_zero h i
  rw [hfind]

theorem engineInv_idle (e : SimulatorEngine) (hInv : EngineInv e) :
    EngineInv { e with idle_ticks := e.idle_ticks + 1 } :=
  ⟨hInv.keys_lt, hInv.counter_pos, hInv.init_mem, hInv.init_alive, hInv.cur_ne0,
   hInv.queues_len, hInv.queued_ready, hInv.queue_once, hInv.running_run,
   hInv.cur_not_queued, hInv.cur_not_blocked, hInv.blocked_mem, hInv.blocked_nodup,
   hInv.zombie_state, hInv.zombie_mem, hInv.zombie_nodup, hInv.end_done,
   hInv.reap_default⟩

theorem engineInv_busy (e : SimulatorEngine) (hInv : EngineInv e) :
    EngineInv { e with cpu_busy_ticks := e.cpu_busy_ticks + 1 } :=
  ⟨hInv.keys_lt, hInv.counter_pos, hInv.init_mem, hInv.init_alive, hInv.cur_ne0,
   hInv.queues_len, hInv.queued_ready, hInv.queue_once, hInv.running_run,
   hInv.cur_not_queued, hInv.cur_not_blocked, hInv.blocked_mem, hInv.blocked_nodup,
   hInv.zombie_state, hInv.zombie_mem, hInv.zombie_nodup, hInv.end_done,
   hInv.reap_default⟩

theorem engineInv_schedNoCur (e : SimulatorEngine) (s' : PriorityScheduler)
    (hq : s'.queues = e.sched.queues)
    (hc : s'.current_running_pid = none)
    (hInv : EngineInv e) : EngineInv { e with sched := s' } := by
  refine ⟨hInv.keys_lt, hInv.counter_pos, hInv.init_mem, hInv.init_alive, ?_, ?_, ?_, ?_,
    ?_, ?_, ?_, hInv.blocked_mem, hInv.blocked_nodup, hInv.zombie_state, hInv.zombie_mem,
    hInv.zombie_nodup, hInv.end_done, hInv.reap_default⟩
  · show s'.current_running_pid ≠ some 0
    rw [hc]
    intro h
    cases h
  · show s'.queues.length = 10
    rw [hq]
    exact hInv.queues_len
  · intro x h1
    show ∃ p, tableGet e.process_table x = some p ∧ p.state = PState.READY
    have h2 : qcount s'.queues x = qcount e.sched.queues x := by rw [hq]
    rw [h2] at h1
    exact hInv.queued_ready x h1
  · intro x
    show qcount s'.queues x ≤ 1
    rw [hq]
    exact hInv.queue_once x
  · intro x h1
    rw [hc] at h1
    cases h1
  · intro x h1
    rw [hc] at h1
    cases h1
  · intro x h1
    rw [hc] at h1
    cases h1

theorem engineInv_execTerminate (E : SimulatorEngine) (pid : Nat) (p : Process)
    (hget : tableGet E.process_table pid = some p)
    (hcur : E.sched.current_running_pid = some pid)
    (hInv : EngineInv E) :
    EngineInv (applyTerminationDecision { E with
      process_table := tableModify E.process_table pid
        (fun q => { q with end_tick := some E.tick }),
      sched := { E.sched with current_running_pid := none,
                              current_quantum_used := 0 } } pid) := by
  have hrun : p.state = PState.RUNNING := by
    obtain ⟨p2, hp2, hps2⟩ := hInv.running_run pid hcur
    rw [hget] at hp2
    injection hp2 with h3
    rw [← h3] at hps2
    exact hps2
  have hne0 : pid ≠ 0 := by
    intro h2
    rw [h2] at hcur
    exact hInv.cur_ne0 hcur
  have hq0 : qcount E.sched.queues pid = 0 := hInv.cur_not_queued pid hcur
  have hnb : pid ∉ E.blocked_list := hInv.cur_not_blocked pid hcur
  have hnz : pid ∉ E.zombie_list := by
    intro hmem
    obtain ⟨p2, hp2, hps2⟩ := hInv.zombie_mem pid hmem
    rw [hget] at hp2
    injection hp2 with h3
    rw [← h3, hrun] at hps2
    cases hps2
  have hble : E.blocked_list.erase pid = E.blocked_list := List.erase_of_not_mem hnb
  have hzle : E.zombie_list.erase pid = E.zombie_list := List.erase_of_not_mem hnz
  have hrem : remove_from_ready
      { E.sched with current_running_pid := none, current_quantum_used := 0 } pid =
      { E.sched with current_running_pid := none, current_quantum_used := 0 } :=
    remove_from_ready_of_not_queued _ pid hq0
  have hget2 : tableGet (tableModify E.process_table pid
      (fun q => { q with end_tick := some E.tick })) pid
      = some { p with end_tick := some E.tick } := by
    rw [tableGet_tableModify_self, hget]
    rfl
  obtain ⟨st, g, zl', hcase, heq, hg_state, _⟩ :=
    applyTD_shape { E with
      process_table := tableModify E.process_table pid
        (fun q => { q with end_tick := some E.tick }),
      sched := { E.sched with current_running_pid := none,
                              current_quantum_used := 0 } } pid
      { p with end_tick := some E.tick } hget2
  rw [heq]
  have hcase' : st = PState.ZOMBIE ∧ zl' = E.zombie_list.erase pid ++ [pid] ∨
      st = PState.TERMINATED ∧ zl' = E.zombie_list.erase pid := by
    rcases hcase with ⟨h1, h2⟩ | ⟨h1, h2⟩
    · exact Or.inl ⟨h1, by rw [hzle]; exact h2⟩
    · exact Or.inr ⟨h1, by rw [hzle]; exact h2⟩
  have hfin := engineInv_sealed E pid p hget hne0
    { E.sched with current_running_pid := none, current_quantum_used := 0 }
    rfl (fun x hx => by cases hx) st
    (fun q => g { q with end_tick := some E.tick }) zl' hcase'
    (fun w => hg_state _) hInv
  rw [hrem, hble] at hfin
  show EngineInv { E with
    process_table := tableModify (tableModify E.process_table pid
      (fun q => { q with end_tick := some E.tick })) pid g,
    sched := { E.sched with current_running_pid := none, current_quantum_used := 0 },
    zombie_list := zl' }
  rw [tableModify_tableModify]
  exact hfin

theorem engineInv_execBlock (E : SimulatorEngine) (pid : Nat) (p : Process) (io : Int)
    (hget : tableGet E.process_table pid = some p)
    (hcur : E.sched.current_running_pid = some pid)
    (hInv : EngineInv E) :
    EngineInv { E with
      process_table := tableModify E.process_table pid
        (fun q => { q with state := PState.BLOCKED, io_remaining := io,
                           blocked_count := q.blocked_count + 1 }),
      blocked_list := E.blocked_list ++ [pid],
      sched := { E.sched with current_running_pid := none,
                              current_quantum_used := 0 } } := by
  have hrun : p.state = PState.RUNNING := by
    obtain ⟨p2, hp2, hps2⟩ := hInv.running_run pid hcur
    rw [hget] at hp2
    injection hp2 with h3
    rw [← h3] at hps2
    exact hps2
  have hne0 : pid ≠ 0 := by
    intro h2
    rw [h2] at hcur
    exact hInv.cur_ne0 hcur
  have hq0 : qcount E.sched.queues pid = 0 := hInv.cur_not_queued pid hcur
  have hrem : remove_from_ready
      { E.sched with current_running_pid := none, current_quantum_used := 0 } pid =
      { E.sched with current_running_pid := none, current_quantum_used := 0 } :=
    remove_from_ready_of_not_queued _ pid hq0
  have hfin := engineInv_forceBlock_main E pid p io
    { E.sched with current_running_pid := none, current_quantum_used := 0 }
    hget hne0 (Or.inr hrun) rfl (fun x hx => by cases hx) hInv
  rw [hrem] at hfin
  exact hfin

theorem engineInv_preemptProcess (E : SimulatorEngine) (pid : Nat) (p : Process)
    (hget : tableGet E.process_table pid = some p)
    (hcur : E.sched.current_running_pid = some pid)
    (hInv : EngineInv E) :
    ∀ t2 s2, preempt_process E.sched pid E.process_table = (t2, s2) →
      EngineInv { E with process_table := t2, sched := s2 } := by
  have hrun : p.state = PState.RUNNING := by
    obtain ⟨p2, hp2, hps2⟩ := hInv.running_run pid hcur
    rw [hget] at hp2
    injection hp2 with h3
    rw [← h3] at hps2
    exact hps2
  have hne0 : pid ≠ 0 := by
    intro h2
    rw [h2] at hcur
    exact hInv.cur_ne0 hcur
  have hq0 : qcount E.sched.queues pid = 0 := hInv.cur_not_queued pid hcur
  have hnb : pid ∉ E.blocked_list := hInv.cur_not_blocked pid hcur
  have hnz : pid ∉ E.zombie_list := by
    intro hmem
    obtain ⟨p2, hp2, hps2⟩ := hInv.zombie_mem pid hmem
    rw [hget] at hp2
    injection hp2 with h3
    rw [← h3, hrun] at hps2
    cases hps2
  have hendnone : p.end_tick = none := by
    cases hx : p.end_tick with
    | none => rfl
    | some v =>
        have h2 := hInv.end_done pid p hget (by rw [hx]; rfl)
        rw [hrun] at h2
        rcases h2 with h3 | h3 <;> cases h3
  have ht1pid : tableGet (tableModify E.process_table pid (fun q =>
      { q with state := PState.READY, preempt_count := q.preempt_count + 1 })) pid
      = some { p with state := PState.READY, preempt_count := p.preempt_count + 1 } := by
    rw [tableGet_tableModify_self, hget]
    rfl
  have ht1ne : ∀ x, x ≠ pid →
      tableGet (tableModify E.process_table pid (fun q =>
        { q with state := PState.READY, preempt_count := q.preempt_count + 1 })) x
        = tableGet E.process_table x :=
    fun x hx => tableGet_tableModify_ne _ _ _ hx _
  obtain ⟨qs', hadd, hlen', hqne, hq1, _, _⟩ :=
    add_to_ready_spec E.sched pid (tableModify E.process_table pid (fun q =>
      { q with state := PState.READY, preempt_count := q.preempt_count + 1 }))
      hInv.queues_len
  intro t2 s2 heq
  simp only [preempt_process] at heq
  rw [hadd] at heq
  injection heq with h1 h2
  subst h1
  subst h2
  refine ⟨?_, hInv.counter_pos, ?_, ?_, ?_, ?_, ?_, ?_, ?_, ?_, ?_, ?_,
    hInv.blocked_nodup, ?_, ?_, hInv.zombie_nodup, ?_, hInv.reap_default⟩
  · intro k hk
    rw [isSome_tableModify] at hk
    exact hInv.keys_lt k hk
  · show (tableGet (tableModify E.process_table pid _) 0).isSome
    rw [isSome_tableModify]
    exact hInv.init_mem
  · intro p0 h0
    rw [ht1ne 0 (fun h => hne0 h.symm)] at h0
    exact hInv.init_alive p0 h0
  · show (none : Option Nat) ≠ some 0
    intro h
    cases h
  · show qs'.length = 10
    exact hlen'
  · intro x h1
    show ∃ q, tableGet (tableModify E.process_table pid (fun w =>
      { w with state := PState.READY, preempt_count := w.preempt_count + 1 })) x = some q ∧
        q.state = PState.READY
    have h1' : 1 ≤ qcount qs' x := h1
    by_cases hx : x = pid
    · subst hx
      exact ⟨_, ht1pid, rfl⟩
    · rw [hqne x hx] at h1'
      obtain ⟨p2, hp2, hps2⟩ := hInv.queued_ready x h1'
      rw [ht1ne x hx, hp2]
      exact ⟨p2, rfl, hps2⟩
  · intro x
    show qcount qs' x ≤ 1
    by_cases hx : x = pid
    · subst hx
      rw [hq1 hq0]
    · rw [hqne x hx]
      exact hInv.queue_once x
  · intro x h1
    cases h1
  · intro x h1
    cases h1
  · intro x h1
    cases h1
  · intro x hmem
    obtain ⟨p2, hp2, hps2⟩ := hInv.blocked_mem x hmem
    have hx : x ≠ pid := by
      intro h2
      rw [h2, hget] at hp2
      injection hp2 with h3
      rw [← h3, hrun] at hps2
      cases hps2
    rw [ht1ne x hx, hp2]
    exact ⟨p2, rfl, hps2⟩
  · intro x p' hp' hz
    by_cases hx : x = pid
    · subst hx
      rw [ht1pid] at hp'
      injection hp' with h1
      rw [← h1] at hz
      cases hz
    · rw [ht1ne x hx] at hp'
      exact hInv.zombie_state x p' hp' hz
  · intro x hmem
    have hx : x ≠ pid := fun h2 => hnz (h2 ▸ hmem)
    obtain ⟨p2, hp2, hps2⟩ := hInv.zombie_mem x hmem
    rw [ht1ne x hx, hp2]
    exact ⟨p2, rfl, hps2⟩
  · intro x p' hp' hsome
    by_cases hx : x = pid
    · subst hx
      rw [ht1pid] at hp'
      injection hp' with h1
      rw [← h1] at hsome
      have h2 : ({ p with state := PState.READY, preempt_count := p.preempt_count + 1 } : Process).end_tick = p.end_tick := rfl
      rw [h2, hendnone] at hsome
      cases hsome
    · rw [ht1ne x hx] at hp'
      exact hInv.end_done x p' hp' hsome

theorem engineInv_preemptCurrent (E : SimulatorEngine) (hInv : EngineInv E) :
    ∀ t2 s2, preempt_current E.sched E.process_table = (t2, s2) →
      EngineInv { E with process_table := t2, sched := s2 } := by
  intro t2 s2 heq
  cases hcur : E.sched.current_running_pid with
  | none =>
      simp only [preempt_current, hcur] at heq
      injection heq with h1 h2
      subst h1
      subst h2
      exact ⟨hInv.keys_lt, hInv.counter_pos, hInv.init_mem, hInv.init_alive, hInv.cur_ne0,
        hInv.queues_len, hInv.queued_ready, hInv.queue_once, hInv.running_run,
        hInv.cur_not_queued, hInv.cur_not_blocked, hInv.blocked_mem, hInv.blocked_nodup,
        hInv.zombie_state, hInv.zombie_mem, hInv.zombie_nodup, hInv.end_done,
        hInv.reap_default⟩
  | some pid =>
      cases hg : tableGet E.process_table pid with
      | none =>
          simp only [preempt_current, hcur, hg] at heq
          injection heq with h1 h2
          subst h1
          subst h2
          exact ⟨hInv.keys_lt, hInv.counter_pos, hInv.init_mem, hInv.init_alive, hInv.cur_ne0,
            hInv.queues_len, hInv.queued_ready, hInv.queue_once, hInv.running_run,
            hInv.cur_not_queued, hInv.cur_not_blocked, hInv.blocked_mem, hInv.blocked_nodup,
            hInv.zombie_state, hInv.zombie_mem, hInv.zombie_nodup, hInv.end_done,
            hInv.reap_default⟩
      | some p =>
          by_cases hpr : (List.range 10).any
              (fun q => decide ((q : Int) < p.priority) && !(qget E.sched.queues q).isEmpty) = true
          · simp only [preempt_current, hcur, hg, if_pos hpr] at heq
            exact engineInv_preemptProcess E pid p hg hcur hInv t2 s2 heq
          · by_cases hqu : (E.sched.current_quantum_used : Int) ≥ E.sched.quantum
            · simp only [preempt_current, hcur, hg, if_neg hpr, if_pos hqu] at heq
              exact engineInv_preemptProcess E pid p hg hcur hInv t2 s2 heq
            · simp only [preempt_current, hcur, hg, if_neg hpr, if_neg hqu] at heq
              injection heq with h1 h2
              subst h1
              subst h2
              exact ⟨hInv.keys_lt, hInv.counter_pos, hInv.init_mem, hInv.init_alive,
                hInv.cur_ne0, hInv.queues_len, hInv.queued_ready, hInv.queue_once,
                hInv.running_run, hInv.cur_not_queued, hInv.cur_not_blocked, hInv.blocked_mem,
                hInv.blocked_nodup, hInv.zombie_state, hInv.zombie_mem, hInv.zombie_nodup,
                hInv.end_done, hInv.reap_default⟩

theorem engineInv_executeCurrent (e : SimulatorEngine) (o : TickOracle)
    (hInv : EngineInv e) : EngineInv (executeCurrent e o) := by
  cases hcur : e.sched.current_running_pid with
  | none =>
      simp only [executeCurrent, hcur]
      exact hInv
  | some pid =>
      cases hg : tableGet e.process_table pid with
      | none =>
          simp only [executeCurrent, hcur, hg]
          exact engineInv_schedNoCur e _ rfl rfl hInv
      | some p0 =>
          cases hst : schedTick e.sched e.process_table o.agingCoins with
          | mk t1 s1 =>
              have hfacts := schedTick_facts e.sched e.process_table o.agingCoins
                hInv.queues_len t1 s1 hst
              obtain ⟨hlen1, hqc1, hsome1, hstate1, hend1, hcur1, _⟩ := hfacts
              have hInv1 : EngineInv { e with cpu_busy_ticks := e.cpu_busy_ticks + 1 } :=
                engineInv_busy e hInv
              have hInv2 : EngineInv { e with
                  cpu_busy_ticks := e.cpu_busy_ticks + 1,
                  process_table := t1, sched := s1 } :=
                EngineInv_transport { e with cpu_busy_ticks := e.cpu_busy_ticks + 1 } _
                  rfl hsome1 hstate1 hend1 hqc1 hlen1 hcur1 rfl rfl rfl hInv1
              have hInv3 : EngineInv { e with
                  cpu_busy_ticks := e.cpu_busy_ticks + 1,
                  process_table := tableModify t1 pid
                    (fun q => { q with remaining_burst := q.remaining_burst - 1 }),
                  sched := s1 } := by
                refine EngineInv_transport { e with
                    cpu_busy_ticks := e.cpu_busy_ticks + 1,
                    process_table := t1, sched := s1 } _
                  rfl (fun x => isSome_tableModify _ _ _ x) ?_ ?_ (fun x => rfl)
                  hlen1 rfl rfl rfl rfl hInv2
                · apply map_state_tableModify
                  intro q
                  rfl
                · apply bind_end_tableModify
                  intro q
                  rfl
              have hcur3 : s1.current_running_pid = some pid := by
                rw [hcur1]
                exact hcur
              cases hg3 : tableGet (tableModify t1 pid
                  (fun q => { q with remaining_burst := q.remaining_burst - 1 })) pid with
              | none =>
                  simp only [executeCurrent, hcur, hg, hst, hg3]
                  exact hInv3
              | some p =>
                  by_cases hb : p.remaining_burst ≤ 0
                  · simp only [executeCurrent, hcur, hg, hst, hg3, if_pos hb]
                    exact engineInv_execTerminate { e with
                        cpu_busy_ticks := e.cpu_busy_ticks + 1,
                        process_table := tableModify t1 pid
                          (fun q => { q with remaining_burst := q.remaining_burst - 1 }),
                        sched := s1 } pid p hg3 hcur3 hInv3
                  · by_cases hrb : o.rBlock < e.p_block
                    · simp only [executeCurrent, hcur, hg, hst, hg3, if_neg hb, if_pos hrb]
                      exact engineInv_execBlock { e with
                          cpu_busy_ticks := e.cpu_busy_ticks + 1,
                          process_table := tableModify t1 pid
                            (fun q => { q with remaining_burst := q.remaining_burst - 1 }),
                          sched := s1 } pid p o.ioTime hg3 hcur3 hInv3
                    · cases hpre : preempt_current s1 (tableModify t1 pid
                          (fun q => { q with remaining_burst := q.remaining_burst - 1 })) with
                      | mk t4 s4 =>
                          simp only [executeCurrent, hcur, hg, hst, hg3, if_neg hb,
                            if_neg hrb, hpre]
                          exact engineInv_preemptCurrent { e with
                              cpu_busy_ticks := e.cpu_busy_ticks + 1,
                              process_table := tableModify t1 pid
                                (fun q => { q with remaining_burst := q.remaining_burst - 1 }),
                              sched := s1 } hInv3 t4 s4 hpre

theorem engineInv_dequeue (e : SimulatorEngine)
    (hcur : e.sched.current_running_pid = none)
    (hInv : EngineInv e) :
    EngineInv { e with sched := (get_next_process e.sched).2 } := by
  cases hnext : (get_next_process e.sched).1 with
  | none =>
      rw [(get_next_facts e.sched hInv.queues_len).1 hnext]
      exact ⟨hInv.keys_lt, hInv.counter_pos, hInv.init_mem, hInv.init_alive, hInv.cur_ne0,
        hInv.queues_len, hInv.queued_ready, hInv.queue_once, hInv.running_run,
        hInv.cur_not_queued, hInv.cur_not_blocked, hInv.blocked_mem, hInv.blocked_nodup,
        hInv.zombie_state, hInv.zombie_mem, hInv.zombie_nodup, hInv.end_done,
        hInv.reap_default⟩
  | some npid =>
      obtain ⟨hlen2, hcur2, hge1, hdec⟩ := (get_next_facts e.sched hInv.queues_len).2 npid hnext
      have hcurn : (get_next_process e.sched).2.current_running_pid = none := by
        rw [hcur2]
        exact hcur
      refine ⟨hInv.keys_lt, hInv.counter_pos, hInv.init_mem, hInv.init_alive, ?_, hlen2,
        ?_, ?_, ?_, ?_, ?_, hInv.blocked_mem, hInv.blocked_nodup, hInv.zombie_state,
        hInv.zombie_mem, hInv.zombie_nodup, hInv.end_done, hInv.reap_default⟩
      · show (get_next_process e.sched).2.current_running_pid ≠ some 0
        rw [hcurn]
        intro h
        cases h
      · intro x h1
        have h1' : 1 ≤ qcount (get_next_process e.sched).2.queues x := h1
        have h2 := hdec x
        have h3 : 1 ≤ qcount e.sched.queues x := by omega
        exact hInv.queued_ready x h3
      · intro x
        show qcount (get_next_process e.sched).2.queues x ≤ 1
        have h2 := hdec x
        have h3 := hInv.queue_once x
        omega
      · intro x h1
        rw [hcurn] at h1
        cases h1
      · intro x h1
        rw [hcurn] at h1
        cases h1
      · intro x h1
        rw [hcurn] at h1
        cases h1

theorem engineInv_setRunning (e : SimulatorEngine) (npid : Nat) (p : Process)
    (hget : tableGet e.process_table npid = some p)
    (hready : p.state = PState.READY)
    (hne0 : npid ≠ 0)
    (hq0 : qcount e.sched.queues npid = 0)
    (hInv : EngineInv e) :
    EngineInv { e with
      process_table := tableModify e.process_table npid
        (fun q => { q with state := PState.RUNNING }),
      sched := { e.sched with current_running_pid := some npid, current_quantum_used := 0,
                              context_switches := e.sched.context_switches + 1 } } := by
  have ht1pid : tableGet (tableModify e.process_table npid
      (fun q => { q with state := PState.RUNNING })) npid
      = some { p with state := PState.RUNNING } := by
    rw [tableGet_tableModify_self, hget]
    rfl
  have ht1ne : ∀ x, x ≠ npid →
      tableGet (tableModify e.process_table npid
        (fun q => { q with state := PState.RUNNING })) x = tableGet e.process_table x :=
    fun x hx => tableGet_tableModify_ne _ _ _ hx _
  have hnb : npid ∉ e.blocked_list := by
    intro hmem
    obtain ⟨p2, hp2, hps2⟩ := hInv.blocked_mem npid hmem
    rw [hget] at hp2
    injection hp2 with h3
    rw [← h3, hready] at hps2
    cases hps2
  have hnz : npid ∉ e.zombie_list := by
    intro hmem
    obtain ⟨p2, hp2, hps2⟩ := hInv.zombie_mem npid hmem
    rw [hget] at hp2
    injection hp2 with h3
    rw [← h3, hready] at hps2
    cases hps2
  have hendnone : p.end_tick = none := by
    cases hx : p.end_tick with
    | none => rfl
    | some v =>
        have h2 := hInv.end_done npid p hget (by rw [hx]; rfl)
        rw [hready] at h2
        rcases h2 with h3 | h3 <;> cases h3
  refine ⟨?_, hInv.counter_pos, ?_, ?_, ?_, hInv.queues_len, ?_, hInv.queue_once,
    ?_, ?_, ?_, ?_, hInv.blocked_nodup, ?_, ?_, hInv.zombie_nodup, ?_, hInv.reap_default⟩
  · intro k hk
    rw [isSome_tableModify] at hk
    exact hInv.keys_lt k hk
  · show (tableGet (tableModify e.process_table npid _) 0).isSome
    rw [isSome_tableModify]
    exact hInv.init_mem
  · intro p0 h0
    rw [ht1ne 0 (fun h => hne0 h.symm)] at h0
    exact hInv.init_alive p0 h0
  · show some npid ≠ some 0
    intro h
    injection h with h2
    exact hne0 h2
  · intro x h1
    obtain ⟨p2, hp2, hps2⟩ := hInv.queued_ready x h1
    have hx : x ≠ npid := by
      intro h2
      rw [h2] at h1
      rw [hq0] at h1
      omega
    rw [ht1ne x hx, hp2]
    exact ⟨p2, rfl, hps2⟩
  · intro x h1
    have h2 : some npid = some x := h1
    injection h2 with h3
    subst h3
    exact ⟨_, ht1pid, rfl⟩
  · intro x h1
    have h2 : some npid = some x := h1
    injection h2 with h3
    subst h3
    exact hq0
  · intro x h1
    have h2 : some npid = some x := h1
    injection h2 with h3
    subst h3
    exact hnb
  · intro x hmem
    obtain ⟨p2, hp2, hps2⟩ := hInv.blocked_mem x hmem
    have hx : x ≠ npid := by
      intro h2
      rw [h2, hget] at hp2
      injection hp2 with h3
      rw [← h3, hready] at hps2
      cases hps2
    rw [ht1ne x hx, hp2]
    exact ⟨p2, rfl, hps2⟩
  · intro x p' hp' hz
    by_cases hx : x = npid
    · subst hx
      rw [ht1pid] at hp'
      injection hp' with h1
      rw [← h1] at hz
      cases hz
    · rw [ht1ne x hx] at hp'
      exact hInv.zombie_state x p' hp' hz
  · intro x hmem
    have hx : x ≠ npid := fun h2 => hnz (h2 ▸ hmem)
    obtain ⟨p2, hp2, hps2⟩ := hInv.zombie_mem x hmem
    rw [ht1ne x hx, hp2]
    exact ⟨p2, rfl, hps2⟩
  · intro x p' hp' hsome
    by_cases hx : x = npid
    · subst hx
      rw [ht1pid] at hp'
      injection hp' with h1
      rw [← h1] at hsome
      have h2 : ({ p with state := PState.RUNNING } : Process).end_tick = p.end_tick := rfl
      rw [h2, hendnone] at hsome
      cases hsome
    · rw [ht1ne x hx] at hp'
      exact hInv.end_done x p' hp' hsome

theorem engineInv_schedule (e : SimulatorEngine) (o : TickOracle) (hInv : EngineInv e) :
    EngineInv (schedule_processes e o) := by
  by_cases hc : e.sched.current_running_pid = none
  · cases hnp : get_next_process e.sched with
    | mk next s1 =>
        cases next with
        | none =>
            have h := (get_next_facts e.sched hInv.queues_len).1
            rw [hnp] at h
            have hs1 : s1 = e.sched := h rfl
            have hcur1 : s1.current_running_pid = none := by rw [hs1]; exact hc
            simp only [schedule_processes, if_pos hc, hnp, hcur1, Option.isSome_none]
            rw [if_neg Bool.false_ne_true]
            refine engineInv_idle { e with sched := s1 } ?_
            rw [hs1]
            exact hInv
        | some npid =>
            have hInvA : EngineInv { e with sched := s1 } := by
              have h := engineInv_dequeue e hc hInv
              rw [hnp] at h
              exact h
            have hfacts := (get_next_facts e.sched hInv.queues_len).2 npid (by rw [hnp])
            rw [hnp] at hfacts
            obtain ⟨hlen2, hcur2, hge1, hdec⟩ := hfacts
            have hcur1 : s1.current_running_pid = none := by
              have : s1.current_running_pid = e.sched.current_running_pid := hcur2
              rw [this]
              exact hc
            by_cases hcond : npid ≠ 0 ∧ (tableGet e.process_table npid).isSome = true
            · obtain ⟨hne0, hsome⟩ := hcond
              cases hgA : tableGet e.process_table npid with
              | none => rw [hgA] at hsome; cases hsome
              | some p =>
                  have hready : p.state = PState.READY := by
                    obtain ⟨p2, hp2, hps2⟩ := hInv.queued_ready npid hge1
                    rw [hgA] at hp2
                    injection hp2 with h3
                    rw [← h3] at hps2
                    exact hps2
                  have hq0s1 : qcount s1.queues npid = 0 := by
                    have h2 : qcount s1.queues npid + (if npid = npid then 1 else 0) =
                        qcount e.sched.queues npid := hdec npid
                    rw [if_pos rfl] at h2
                    have h3 := hInv.queue_once npid
                    omega
                  have hInvB := engineInv_setRunning { e with sched := s1 } npid p hgA
                    hready hne0 hq0s1 hInvA
                  have hInvC : EngineInv { e with
                      process_table := tableModify (tableModify e.process_table npid
                        (fun q => { q with state := PState.RUNNING })) npid
                        (fun q => if q.start_tick = none then { q with start_tick := some e.tick } else q),
                      sched := { s1 with current_running_pid := some npid, current_quantum_used := 0, context_switches := s1.context_switches + 1 } } := by
                    refine EngineInv_transport { e with
                        process_table := tableModify e.process_table npid
                          (fun q => { q with state := PState.RUNNING }),
                        sched := { s1 with current_running_pid := some npid, current_quantum_used := 0, context_switches := s1.context_switches + 1 } } _
                      rfl (fun x => isSome_tableModify _ _ _ x) ?_ ?_ (fun x => rfl)
                      ?_ rfl rfl rfl rfl hInvB
                    · apply map_state_tableModify
                      intro q
                      by_cases h : q.start_tick = none
                      · rw [if_pos h]
                      · rw [if_neg h]
                    · apply bind_end_tableModify
                      intro q
                      by_cases h : q.start_tick = none
                      · rw [if_pos h]
                      · rw [if_neg h]
                    · show s1.queues.length = 10
                      exact hlen2
                  simp only [schedule_processes, if_pos hc, hnp]
                  rw [if_pos (And.intro hne0 hsome)]
                  simp only [set_running, hgA, Option.isSome_some]
                  rw [if_pos True.intro]
                  apply engineInv_executeCurrent
                  exact hInvC
            · simp only [schedule_processes, if_pos hc, hnp]
              rw [if_neg hcond]
              simp only [hcur1, Option.isSome_none]
              rw [if_neg Bool.false_ne_true]
              exact engineInv_idle { e with sched := s1 } hInvA
  · cases hcur : e.sched.current_running_pid with
    | none => exact absurd hcur hc
    | some pid =>
        simp only [schedule_processes, if_neg hc]
        rw [hcur]
        simp only [Option.isSome_some]
        rw [if_pos True.intro]
        apply engineInv_executeCurrent
        exact hInv

theorem engineInv_tick (e : SimulatorEngine) (o : TickOracle) (hInv : EngineInv e) :
    EngineInv (tick_simulation e o) := by
  have h1 := engineInv_tick_bump e hInv
  have h2 := engineInv_handleBlocked _ h1
  have h3 := engineInv_moveNew _ h2
  have h4 := engineInv_schedule _ o h3
  simp only [tick_simulation]
  by_cases hr : (schedule_processes
      (move_new_to_ready (handle_blocked_processes { e with tick := e.tick + 1 })).1
      o).auto_reap_after > 0
  · rw [if_pos hr]
    exact engineInv_autoReap _ h4
  · rw [if_neg hr]
    exact h4

theorem reachable_inv (e : SimulatorEngine) (h : Reachable e) : EngineInv e := by
  induction h with
  | base => exact engineInv_mk
  | create e nm b pp pr dB dP _ ih => exact engineInv_create e nm b pp pr dB dP ih
  | move_new e _ ih => exact engineInv_moveNew e ih
  | block e pid io dIo _ ih => exact engineInv_forceBlock e pid io dIo ih
  | terminate e pid _ ih => exact engineInv_forceTerminate e pid ih
  | wait e pp _ ih => exact engineInv_wait e pp ih
  | tick e o _ ih => exact engineInv_tick e o ih
  | adjust e pid np _ ih => exact engineInv_adjust e pid np ih
  | quantum e q _ ih => exact engineInv_quantum e q ih
  | reset e _ ih => exact engineInv_reset e ih
  | config e pb _ ih => exact engineInv_config e pb ih

theorem waitStep_end_bind (l : List Nat) : ∀ (e : SimulatorEngine) (acc : List Nat) (x : Nat),
    (tableGet (waitStep l e acc).2.process_table x).bind Process.end_tick =
      (tableGet e.process_table x).bind Process.end_tick := by
  induction l with
  | nil => intro e acc x; rfl
  | cons c rest ih =>
      intro e acc x
      cases hg : tableGet e.process_table c with
      | none =>
          simp only [waitStep, hg]
          exact ih e acc x
      | some child =>
          simp only [waitStep, hg]
          by_cases hz : child.state = PState.ZOMBIE
          · simp only [if_pos hz]
            rw [ih]
            exact bind_end_tableModify e.process_table c
              (fun q => { q with state := PState.TERMINATED, reaped := true }) (fun q => rfl) x
          · simp only [if_neg hz]
            exact ih e acc x

theorem autoReapStep_end_bind (l : List Nat) : ∀ (e : SimulatorEngine) (x : Nat),
    (tableGet (autoReapStep l e).process_table x).bind Process.end_tick =
      (tableGet e.process_table x).bind Process.end_tick := by
  induction l with
  | nil => intro e x; rfl
  | cons pid rest ih =>
      intro e x
      cases hg : tableGet e.process_table pid with
      | none =>
          simp only [autoReapStep, hg]
          exact ih e x
      | some p =>
          simp only [autoReapStep, hg]
          by_cases hage : (e.tick : Int) - ((p.end_tick.getD 0 : Nat) : Int) ≥ e.auto_reap_after
          · simp only [if_pos hage]
            rw [ih]
            exact bind_end_tableModify e.process_table pid
              (fun q => { q with state := PState.TERMINATED, reaped := true }) (fun q => rfl) x
          · simp only [if_neg hage]
            exact ih e x

theorem handleBlockedStep_untouched (l : List Nat) :
    ∀ (e : SimulatorEngine) (acc : List Nat) (x : Nat), x ∉ l →
    tableGet (handleBlockedStep l e acc).1.process_table x = tableGet e.process_table x := by
  induction l with
  | nil => intro e acc x _; rfl
  | cons pid rest ih =>
      intro e acc x hx
      have hxr : x ∉ rest := fun h => hx (List.mem_cons_of_mem _ h)
      have hxp : x ≠ pid := fun h => hx (h ▸ List.mem_cons_self pid rest)
      cases hg : tableGet e.process_table pid with
      | none =>
          simp only [handleBlockedStep, hg]
          exact ih e acc x hxr
      | some p =>
          by_cases hio : (if p.io_remaining > 0 then { p with io_remaining := p.io_remaining - 1 } else p).io_remaining = 0
          · simp only [handleBlockedStep, hg, if_pos hio]
            rw [ih _ _ x hxr]
            exact tableGet_tableModify_ne _ _ _ hxp _
          · simp only [handleBlockedStep, hg, if_neg hio]
            rw [ih _ _ x hxr]
            exact tableGet_tableModify_ne _ _ _ hxp _

theorem handle_blocked_untouched (e : SimulatorEngine) (x : Nat)
    (hx : x ∉ e.blocked_list) :
    tableGet (handle_blocked_processes e).process_table x = tableGet e.process_table x := by
  cases heq : handleBlockedStep e.blocked_list e [] with
  | mk e1 unblocked =>
      have h1 : handle_blocked_processes e =
          { e1 with blocked_list := unblocked.foldl (fun bl z => bl.erase z) e1.blocked_list } := by
        simp only [handle_blocked_processes, heq]
      rw [h1]
      show tableGet e1.process_table x = tableGet e.process_table x
      have h2 := handleBlockedStep_untouched e.blocked_list e [] x hx
      rw [heq] at h2
      exact h2

theorem moveNewStep_untouched (ks : List Nat) :
    ∀ (e : SimulatorEngine) (c : Nat) (x : Nat),
    (∀ p, tableGet e.process_table x = some p → ¬p.state = PState.NEW) →
    tableGet (moveNewStep ks e c).1.process_table x = tableGet e.process_table x := by
  induction ks with
  | nil => intro e c x _; rfl
  | cons pid rest ih =>
      intro e c x hx
      cases hg : tableGet e.process_table pid with
      | none =>
          simp only [moveNewStep, hg]
          exact ih e c x hx
      | some p =>
          simp only [moveNewStep, hg]
          by_cases hs : p.state = PState.NEW
          · simp only [if_pos hs]
            have hxp : x ≠ pid := by
              intro h
              rw [h] at hx
              exact hx p hg hs
            have hpres : tableGet (tableModify e.process_table pid
                (fun q => { q with state := PState.READY })) x = tableGet e.process_table x :=
              tableGet_tableModify_ne _ _ _ hxp _
            rw [ih _ _ x (by rw [hpres]; exact hx)]
            exact hpres
          · simp only [if_neg hs]
            exact ih e c x hx

theorem move_new_untouched (e : SimulatorEngine) (x : Nat)
    (hx : ∀ p, tableGet e.process_table x = some p → ¬p.state = PState.NEW) :
    tableGet (move_new_to_ready e).1.process_table x = tableGet e.process_table x :=
  moveNewStep_untouched (tableKeys e.process_table) e 0 x hx

theorem preempt_end_bind (s : PriorityScheduler) (t : Table) :
    ∀ t2 s2, preempt_current s t = (t2, s2) →
      ∀ y, (tableGet t2 y).bind Process.end_tick = (tableGet t y).bind Process.end_tick := by
  intro t2 s2 heq y
  cases hcur : s.current_running_pid with
  | none =>
      simp only [preempt_current, hcur] at heq
      injection heq with h1 h2
      rw [← h1]
  | some pid =>
      cases hg : tableGet t pid with
      | none =>
          simp only [preempt_current, hcur, hg] at heq
          injection heq with h1 h2
          rw [← h1]
      | some p =>
          have hpp : ∀ t3 s3, preempt_process s pid t = (t3, s3) →
              (tableGet t3 y).bind Process.end_tick = (tableGet t y).bind Process.end_tick := by
            intro t3 s3 heq2
            simp only [preempt_process] at heq2
            injection heq2 with h1 h2
            rw [← h1]
            exact bind_end_tableModify t pid
              (fun q => { q with state := PState.READY, preempt_count := q.preempt_count + 1 })
              (fun q => rfl) y
          by_cases hpr : (List.range 10).any
              (fun q => decide ((q : Int) < p.priority) && !(qget s.queues q).isEmpty) = true
          · simp only [preempt_current, hcur, hg, if_pos hpr] at heq
            exact hpp t2 s2 heq
          · by_cases hqu : (s.current_quantum_used : Int) ≥ s.quantum
            · simp only [preempt_current, hcur, hg, if_neg hpr, if_pos hqu] at heq
              exact hpp t2 s2 heq
            · simp only [preempt_current, hcur, hg, if_neg hpr, if_neg hqu] at heq
              injection heq with h1 h2
              rw [← h1]

theorem executeCurrent_end_sealed (e : SimulatorEngine) (o : TickOracle) (x : Nat)
    (hInv : EngineInv e)
    (hzt : (tableGet e.process_table x).map Process.state = some PState.ZOMBIE ∨
           (tableGet e.process_table x).map Process.state = some PState.TERMINATED) :
    (tableGet (executeCurrent e o).process_table x).bind Process.end_tick =
      (tableGet e.process_table x).bind Process.end_tick := by
  cases hcur : e.sched.current_running_pid with
  | none =>
      simp only [executeCurrent, hcur]
  | some pid =>
      cases hg : tableGet e.process_table pid with
      | none =>
          simp only [executeCurrent, hcur, hg]
      | some p0 =>
          cases hst : schedTick e.sched e.process_table o.agingCoins with
          | mk t1 s1 =>
              obtain ⟨hlen1, hqc1, hsome1, hstate1, hend1, hcur1, _⟩ :=
                schedTick_facts e.sched e.process_table o.agingCoins hInv.queues_len t1 s1 hst
              have hInv1 : EngineInv { e with cpu_busy_ticks := e.cpu_busy_ticks + 1 } :=
                engineInv_busy e hInv
              have hInv2 : EngineInv { e with
                  cpu_busy_ticks := e.cpu_busy_ticks + 1,
                  process_table := t1, sched := s1 } :=
                EngineInv_transport { e with cpu_busy_ticks := e.cpu_busy_ticks + 1 } _
                  rfl hsome1 hstate1 hend1 hqc1 hlen1 hcur1 rfl rfl rfl hInv1
              have hInv3 : EngineInv { e with
                  cpu_busy_ticks := e.cpu_busy_ticks + 1,
                  process_table := tableModify t1 pid
                    (fun q => { q with remaining_burst := q.remaining_burst - 1 }),
                  sched := s1 } := by
                refine EngineInv_transport { e with
                    cpu_busy_ticks := e.cpu_busy_ticks + 1,
                    process_table := t1, sched := s1 } _
                  rfl (fun y => isSome_tableModify _ _ _ y) ?_ ?_ (fun y => rfl)
                  hlen1 rfl rfl rfl rfl hInv2
                · apply map_state_tableModify
                  intro q
                  rfl
                · apply bind_end_tableModify
                  intro q
                  rfl
              have hcur3 : s1.current_running_pid = some pid := by
                rw [hcur1]
                exact hcur
              have hend3 : ∀ y, (tableGet (tableModify t1 pid
                  (fun q => { q with remaining_burst := q.remaining_burst - 1 })) y).bind
                    Process.end_tick = (tableGet e.process_table y).bind Process.end_tick := by
                intro y
                rw [bind_end_tableModify t1 pid
                  (fun q => { q with remaining_burst := q.remaining_burst - 1 }) (fun q => rfl) y]
                exact hend1 y
              have hstate3 : ∀ y, (tableGet (tableModify t1 pid
                  (fun q => { q with remaining_burst := q.remaining_burst - 1 })) y).map
                    Process.state = (tableGet e.process_table y).map Process.state := by
                intro y
                rw [map_state_tableModify t1 pid
                  (fun q => { q with remaining_burst := q.remaining_burst - 1 }) (fun q => rfl) y]
                exact hstate1 y
              cases hg3 : tableGet (tableModify t1 pid
                  (fun q => { q with remaining_burst := q.remaining_burst - 1 })) pid with
              | none =>
                  simp only [executeCurrent, hcur, hg, hst, hg3]
                  exact hend3 x
              | some p =>
                  have hpx : pid ≠ x := by
                    intro h
                    obtain ⟨p2, hp2, hps2⟩ := hInv3.running_run pid hcur3
                    have hp2' : tableGet (tableModify t1 pid
                        (fun q => { q with remaining_burst := q.remaining_burst - 1 })) pid
                        = some p2 := hp2
                    have h4 := hstate3 x
                    rw [← h, hp2'] at h4
                    rcases hzt with h5 | h5 <;> rw [← h] at h5 <;> rw [h5] at h4 <;>
                      simp only [Option.map_some'] at h4 <;> rw [hps2] at h4 <;> cases h4
                  by_cases hb : p.remaining_burst ≤ 0
                  · simp only [executeCurrent, hcur, hg, hst, hg3, if_pos hb]
                    have hget4 : tableGet (tableModify (tableModify t1 pid
                        (fun q => { q with remaining_burst := q.remaining_burst - 1 })) pid
                        (fun q => { q with end_tick := some e.tick })) pid
                        = some { p with end_tick := some e.tick } := by
                      rw [tableGet_tableModify_self, hg3]
                      rfl
                    obtain ⟨st, g, zl', hcase, heq, hg_state, hg_end⟩ :=
                      applyTD_shape { e with
                        cpu_busy_ticks := e.cpu_busy_ticks + 1,
                        process_table := tableModify (tableModify t1 pid
                          (fun q => { q with remaining_burst := q.remaining_burst - 1 })) pid
                          (fun q => { q with end_tick := some e.tick }),
                        sched := { s1 with current_running_pid := none, current_quantum_used := 0 } } pid
                        { p with end_tick := some e.tick } hget4
                    rw [heq]
                    show (tableGet (tableModify (tableModify (tableModify t1 pid
                        (fun q => { q with remaining_burst := q.remaining_burst - 1 })) pid
                        (fun q => { q with end_tick := some e.tick })) pid g) x).bind
                          Process.end_tick =
                      (tableGet e.process_table x).bind Process.end_tick
                    rw [tableGet_tableModify_ne _ _ _ (fun h => hpx h.symm) _,
                        tableGet_tableModify_ne _ _ _ (fun h => hpx h.symm) _]
                    exact hend3 x
                  · by_cases hrb : o.rBlock < e.p_block
                    · simp only [executeCurrent, hcur, hg, hst, hg3, if_neg hb, if_pos hrb]
                      show (tableGet (tableModify (tableModify t1 pid
                          (fun q => { q with remaining_burst := q.remaining_burst - 1 })) pid
                          (fun q => { q with state := PState.BLOCKED, io_remaining := o.ioTime, blocked_count := q.blocked_count + 1 })) x).bind
                            Process.end_tick =
                        (tableGet e.process_table x).bind Process.end_tick
                      rw [bind_end_tableModify (tableModify t1 pid
                        (fun q => { q with remaining_burst := q.remaining_burst - 1 })) pid
                        (fun q => { q with state := PState.BLOCKED, io_remaining := o.ioTime, blocked_count := q.blocked_count + 1 })
                        (fun q => rfl) x]
                      exact hend3 x
                    · cases hpre : preempt_current s1 (tableModify t1 pid
                          (fun q => { q with remaining_burst := q.remaining_burst - 1 })) with
                      | mk t4 s4 =>
                          simp only [executeCurrent, hcur, hg, hst, hg3, if_neg hb,
                            if_neg hrb, hpre]
                          show (tableGet t4 x).bind Process.end_tick =
                            (tableGet e.process_table x).bind Process.end_tick
                          rw [preempt_end_bind s1 _ t4 s4 hpre x]
                          exact hend3 x

theorem schedule_end_sealed (e : SimulatorEngine) (o : TickOracle) (x : Nat)
    (hInv : EngineInv e)
    (hzt : (tableGet e.process_table x).map Process.state = some PState.ZOMBIE ∨
           (tableGet e.process_table x).map Process.state = some PState.TERMINATED) :
    (tableGet (schedule_processes e o).process_table x).bind Process.end_tick =
      (tableGet e.process_table x).bind Process.end_tick := by
  by_cases hc : e.sched.current_running_pid = none
  · cases hnp : get_next_process e.sched with
    | mk next s1 =>
        cases next with
        | none =>
            have h := (get_next_facts e.sched hInv.queues_len).1
            rw [hnp] at h
            have hs1 : s1 = e.sched := h rfl
            have hcur1 : s1.current_running_pid = none := by rw [hs1]; exact hc
            simp only [schedule_processes, if_pos hc, hnp, hcur1, Option.isSome_none]
            rw [if_neg Bool.false_ne_true]
        | some npid =>
            have hInvA : EngineInv { e with sched := s1 } := by
              have h := engineInv_dequeue e hc hInv
              rw [hnp] at h
              exact h
            have hfacts := (get_next_facts e.sched hInv.queues_len).2 npid (by rw [hnp])
            rw [hnp] at hfacts
            obtain ⟨hlen2, hcur2, hge1, hdec⟩ := hfacts
            have hcur1 : s1.current_running_pid = none := by
              have h : s1.current_running_pid = e.sched.current_running_pid := hcur2
              rw [h]
              exact hc
            by_cases hcond : npid ≠ 0 ∧ (tableGet e.process_table npid).isSome = true
            · obtain ⟨hne0, hsome⟩ := hcond
              cases hgA : tableGet e.process_table npid with
              | none => rw [hgA] at hsome; cases hsome
              | some p =>
                  have hready : p.state = PState.READY := by
                    obtain ⟨p2, hp2, hps2⟩ := hInv.queued_ready npid hge1
                    rw [hgA] at hp2
                    injection hp2 with h3
                    rw [← h3] at hps2
                    exact hps2
                  have hnx : npid ≠ x := by
                    intro h
                    rw [← h, hgA] at hzt
                    rcases hzt with h5 | h5 <;> simp only [Option.map_some'] at h5 <;>
                      rw [hready] at h5 <;> cases h5
                  have hq0s1 : qcount s1.queues npid = 0 := by
                    have h2 : qcount s1.queues npid + (if npid = npid then 1 else 0) =
                        qcount e.sched.queues npid := hdec npid
                    rw [if_pos rfl] at h2
                    have h3 := hInv.queue_once npid
                    omega
                  have hInvB := engineInv_setRunning { e with sched := s1 } npid p hgA
                    hready hne0 hq0s1 hInvA
                  have hInvC : EngineInv { e with
                      process_table := tableModify (tableModify e.process_table npid
                        (fun q => { q with state := PState.RUNNING })) npid
                        (fun q => if q.start_tick = none then { q with start_tick := some e.tick } else q),
                      sched := { s1 with current_running_pid := some npid, current_quantum_used := 0, context_switches := s1.context_switches + 1 } } := by
                    refine EngineInv_transport { e with
                        process_table := tableModify e.process_table npid
                          (fun q => { q with state := PState.RUNNING }),
                        sched := { s1 with current_running_pid := some npid, current_quantum_used := 0, context_switches := s1.context_switches + 1 } } _
                      rfl (fun y => isSome_tableModify _ _ _ y) ?_ ?_ (fun y => rfl)
                      ?_ rfl rfl rfl rfl hInvB
                    · apply map_state_tableModify
                      intro q
                      by_cases h : q.start_tick = none
                      · rw [if_pos h]
                      · rw [if_neg h]
                    · apply bind_end_tableModify
                      intro q
                      by_cases h : q.start_tick = none
                      · rw [if_pos h]
                      · rw [if_neg h]
                    · show s1.queues.length = 10
                      exact hlen2
                  have huntouched : tableGet (tableModify (tableModify e.process_table npid
                      (fun q => { q with state := PState.RUNNING })) npid
                      (fun q => if q.start_tick = none then { q with start_tick := some e.tick } else q)) x
                      = tableGet e.process_table x := by
                    rw [tableGet_tableModify_ne _ _ _ (fun h => hnx h.symm) _,
                        tableGet_tableModify_ne _ _ _ (fun h => hnx h.symm) _]
                  simp only [schedule_processes, if_pos hc, hnp]
                  rw [if_pos (And.intro hne0 hsome)]
                  simp only [set_running, hgA, Option.isSome_some]
                  rw [if_pos True.intro]
                  have hfin := executeCurrent_end_sealed { e with
                      process_table := tableModify (tableModify e.process_table npid
                        (fun q => { q with state := PState.RUNNING })) npid
                        (fun q => if q.start_tick = none then { q with start_tick := some e.tick } else q),
                      sched := { s1 with current_running_pid := some npid, current_quantum_used := 0, context_switches := s1.context_switches + 1 } } o x hInvC
                    (by rw [show (tableGet ({ e with
                      process_table := tableModify (tableModify e.process_table npid
                        (fun q => { q with state := PState.RUNNING })) npid
                        (fun q => if q.start_tick = none then { q with start_tick := some e.tick } else q),
                      sched := { s1 with current_running_pid := some npid, current_quantum_used := 0, context_switches := s1.context_switches + 1 } } : SimulatorEngine).process_table x).map Process.state
                        = (tableGet e.process_table x).map Process.state from by rw [show ({ e with
                      process_table := tableModify (tableModify e.process_table npid
                        (fun q => { q with state := PState.RUNNING })) npid
                        (fun q => if q.start_tick = none then { q with start_tick := some e.tick } else q),
                      sched := { s1 with current_running_pid := some npid, current_quantum_used := 0, context_switches := s1.context_switches + 1 } } : SimulatorEngine).process_table = tableModify (tableModify e.process_table npid
                        (fun q => { q with state := PState.RUNNING })) npid
                        (fun q => if q.start_tick = none then { q with start_tick := some e.tick } else q) from rfl, huntouched]]; exact hzt)
                  rw [hfin]
                  show (tableGet (tableModify (tableModify e.process_table npid
                      (fun q => { q with state := PState.RUNNING })) npid
                      (fun q => if q.start_tick = none then { q with start_tick := some e.tick } else q)) x).bind Process.end_tick
                    = (tableGet e.process_table x).bind Process.end_tick
                  rw [huntouched]
            · simp only [schedule_processes, if_pos hc, hnp]
              rw [if_neg hcond]
              simp only [hcur1, Option.isSome_none]
              rw [if_neg Bool.false_ne_true]
  · cases hcur : e.sched.current_running_pid with
    | none => exact absurd hcur hc
    | some pid =>
        simp only [schedule_processes, if_neg hc]
        rw [hcur]
        simp only [Option.isSome_some]
        rw [if_pos True.intro]
        exact executeCurrent_end_sealed e o x hInv hzt

theorem tick_end_sealed (e : SimulatorEngine) (o : TickOracle) (x : Nat) (p : Process)
    (hInv : EngineInv e)
    (hget : tableGet e.process_table x = some p)
    (hzt : p.state = PState.ZOMBIE ∨ p.state = PState.TERMINATED) :
    (tableGet (tick_simulation e o).process_table x).bind Process.end_tick = p.end_tick := by
  have hInv0 : EngineInv { e with tick := e.tick + 1 } := engineInv_tick_bump e hInv
  have hxbl : x ∉ ({ e with tick := e.tick + 1 } : SimulatorEngine).blocked_list := by
    intro hmem
    obtain ⟨p2, hp2, hps2⟩ := hInv0.blocked_mem x hmem
    have hp2' : tableGet e.process_table x = some p2 := hp2
    rw [hget] at hp2'
    injection hp2' with h3
    rw [← h3] at hps2
    rcases hzt with h | h <;> rw [h] at hps2 <;> cases hps2
  have hH : tableGet (handle_blocked_processes { e with tick := e.tick + 1 }).process_table x
      = some p := by
    rw [handle_blocked_untouched _ x hxbl]
    exact hget
  have hInvH : EngineInv (handle_blocked_processes { e with tick := e.tick + 1 }) :=
    engineInv_handleBlocked _ hInv0
  have hM : tableGet (move_new_to_ready
      (handle_blocked_processes { e with tick := e.tick + 1 })).1.process_table x
      = some p := by
    rw [move_new_untouched _ x ?h]
    · exact hH
    case h =>
      intro p' hp' hnew
      rw [hH] at hp'
      injection hp' with h3
      rw [← h3] at hnew
      rcases hzt with h | h <;> rw [h] at hnew <;> cases hnew
  have hInvM : EngineInv (move_new_to_ready
      (handle_blocked_processes { e with tick := e.tick + 1 })).1 :=
    engineInv_moveNew _ hInvH
  have hS : (tableGet (schedule_processes (move_new_to_ready
      (handle_blocked_processes { e with tick := e.tick + 1 })).1 o).process_table x).bind
        Process.end_tick = p.end_tick := by
    rw [schedule_end_sealed _ o x hInvM ?hz]
    · rw [hM]
      rfl
    case hz =>
      rw [hM]
      rcases hzt with h | h
      · exact Or.inl (by show some p.state = some PState.ZOMBIE; rw [h])
      · exact Or.inr (by show some p.state = some PState.TERMINATED; rw [h])
  simp only [tick_simulation]
  by_cases hr : (schedule_processes
      (move_new_to_ready (handle_blocked_processes { e with tick := e.tick + 1 })).1
      o).auto_reap_after > 0
  · rw [if_pos hr]
    show (tableGet (auto_reap_zombies (schedule_processes (move_new_to_ready
      (handle_blocked_processes { e with tick := e.tick + 1 })).1 o)).process_table x).bind
        Process.end_tick = p.end_tick
    rw [auto_reap_zombies]
    rw [autoReapStep_end_bind]
    exact hS
  · rw [if_neg hr]
    exact hS

theorem create_end_bind (e : SimulatorEngine) (nm : Option String) (b : Option Int)
    (pp : Option Nat) (pr : Option Int) (dB dP : Int) (hInv : EngineInv e) (x : Nat)
    (hx : (tableGet e.process_table x).isSome) :
    (tableGet (create_process e nm b pp pr dB dP).2.process_table x).bind Process.end_tick =
      (tableGet e.process_table x).bind Process.end_tick := by
  have hxlt : x < e.pid_counter := hInv.keys_lt x hx
  have hxne : e.pid_counter ≠ x := by omega
  have ht1 : ∀ y, y ≠ e.pid_counter →
      tableGet (tableSet e.process_table e.pid_counter
        { pid := e.pid_counter, name := nm.getD ("P" ++ toString e.pid_counter),
          state := PState.NEW, total_burst := b.getD dB, remaining_burst := b.getD dB,
          priority := pr.getD dP, parent_pid := pp, children := [], created_tick := e.tick,
          start_tick := none, end_tick := none, blocked_count := 0, preempt_count := 0,
          io_remaining := 0, waiting_for_child := false, reaped := false }) y
        = tableGet e.process_table y :=
    fun y hy => tableGet_tableSet_ne _ _ _ hy _
  simp only [create_process]
  by_cases hcond : optTruthy pp ∧ (pp.bind (tableGet (tableSet e.process_table e.pid_counter
      { pid := e.pid_counter, name := nm.getD ("P" ++ toString e.pid_counter),
        state := PState.NEW, total_burst := b.getD dB, remaining_burst := b.getD dB,
        priority := pr.getD dP, parent_pid := pp, children := [], created_tick := e.tick,
        start_tick := none, end_tick := none, blocked_count := 0, preempt_count := 0,
        io_remaining := 0, waiting_for_child := false, reaped := false }))).isSome = true
  · rw [if_pos hcond]
    show (tableGet (tableModify (tableSet e.process_table e.pid_counter _) (pp.getD 0)
      (fun q => { q with children := q.children ++ [e.pid_counter] })) x).bind
        Process.end_tick = (tableGet e.process_table x).bind Process.end_tick
    rw [bind_end_tableModify _ (pp.getD 0)
      (fun q => { q with children := q.children ++ [e.pid_counter] }) (fun q => rfl) x]
    rw [ht1 x (fun h => hxne h.symm)]
  · rw [if_neg hcond]
    show (tableGet (tableSet e.process_table e.pid_counter _) x).bind Process.end_tick =
      (tableGet e.process_table x).bind Process.end_tick
    rw [ht1 x (fun h => hxne h.symm)]

theorem forceBlock_end_bind (e : SimulatorEngine) (pid : Nat) (io_time : Option Int)
    (dIo : Int) (x : Nat) :
    (tableGet (force_block_process e pid io_time dIo).2.process_table x).bind
      Process.end_tick = (tableGet e.process_table x).bind Process.end_tick := by
  cases hg : tableGet e.process_table pid with
  | none => simp only [force_block_process, hg]
  | some p =>
      by_cases h0p : pid = 0
      · simp only [force_block_process, hg, if_pos h0p]
      · by_cases hrr : p.state = PState.READY ∨ p.state = PState.RUNNING
        · simp only [force_block_process, hg, if_neg h0p, if_pos hrr]
          show (tableGet (tableModify e.process_table pid
            (fun q => { q with state := PState.BLOCKED, io_remaining := io_time.getD dIo, blocked_count := q.blocked_count + 1 })) x).bind Process.end_tick
            = (tableGet e.process_table x).bind Process.end_tick
          exact bind_end_tableModify e.process_table pid
            (fun q => { q with state := PState.BLOCKED, io_remaining := io_time.getD dIo, blocked_count := q.blocked_count + 1 })
            (fun q => rfl) x
        · simp only [force_block_process, hg, if_neg h0p, if_neg hrr]

theorem adjust_end_bind (e : SimulatorEngine) (pid : Nat) (np : Int) (x : Nat) :
    (tableGet (adjust_priority e pid np).process_table x).bind Process.end_tick =
      (tableGet e.process_table x).bind Process.end_tick := by
  cases hg : tableGet e.process_table pid with
  | none => simp only [adjust_priority, sched_adjust_priority, hg]
  | some p =>
      by_cases hs : p.state = PState.READY
      · simp only [adjust_priority, sched_adjust_priority, hg, if_pos hs]
        show (tableGet (tableModify e.process_table pid
          (fun q => { q with priority := max 0 (min np 9) })) x).bind Process.end_tick
          = (tableGet e.process_table x).bind Process.end_tick
        exact bind_end_tableModify_priority _ _ _ x
      · simp only [adjust_priority, sched_adjust_priority, hg, if_neg hs]
        show (tableGet (tableModify e.process_table pid
          (fun q => { q with priority := max 0 (min np 9) })) x).bind Process.end_tick
          = (tableGet e.process_table x).bind Process.end_tick
        exact bind_end_tableModify_priority _ _ _ x

theorem wait_end_bind (e : SimulatorEngine) (pp : Nat) (x : Nat) :
    (tableGet (wait_for_child e pp).2.process_table x).bind Process.end_tick =
      (tableGet e.process_table x).bind Process.end_tick := by
  cases hg : tableGet e.process_table pp with
  | none => simp only [wait_for_child, hg]
  | some parent =>
      simp only [wait_for_child, hg]
      exact waitStep_end_bind parent.children e [] x

theorem moveNew_end_bind (ks : List Nat) : ∀ (e : SimulatorEngine) (c : Nat) (x : Nat),
    (tableGet (moveNewStep ks e c).1.process_table x).bind Process.end_tick =
      (tableGet e.process_table x).bind Process.end_tick := by
  induction ks with
  | nil => intro e c x; rfl
  | cons pid rest ih =>
      intro e c x
      cases hg : tableGet e.process_table pid with
      | none =>
          simp only [moveNewStep, hg]
          exact ih e c x
      | some p =>
          simp only [moveNewStep, hg]
          by_cases hs : p.state = PState.NEW
          · simp only [if_pos hs]
            rw [ih]
            exact bind_end_tableModify e.process_table pid
              (fun q => { q with state := PState.READY }) (fun q => rfl) x
          · simp only [if_neg hs]
            exact ih e c x

theorem forceTerminate_end_bind_other (e : SimulatorEngine) (q : Nat) (x : Nat)
    (hqx : q ≠ x) :
    (tableGet (force_terminate_process e q).2.process_table x).bind Process.end_tick =
      (tableGet e.process_table x).bind Process.end_tick := by
  cases hg : tableGet e.process_table q with
  | none => simp only [force_terminate_process, hg]
  | some p =>
      by_cases h0p : q = 0
      · simp only [force_terminate_process, hg, if_pos h0p]
      · by_cases hT : p.state = PState.TERMINATED
        · simp only [force_terminate_process, hg, if_neg h0p, if_pos hT]
        · have main : ∀ s1 : PriorityScheduler,
              (tableGet (applyTerminationDecision { e with
                process_table := tableModify e.process_table q
                  (fun w => { w with remaining_burst := 0, end_tick := some e.tick }),
                sched := remove_from_ready s1 q,
                blocked_list := e.blocked_list.erase q,
                zombie_list := e.zombie_list.erase q } q).process_table x).bind
                  Process.end_tick = (tableGet e.process_table x).bind Process.end_tick := by
            intro s1
            have hget2 : tableGet (tableModify e.process_table q
                (fun w => { w with remaining_burst := 0, end_tick := some e.tick })) q
                = some { p with remaining_burst := 0, end_tick := some e.tick } := by
              rw [tableGet_tableModify_self, hg]
              rfl
            obtain ⟨st, g, zl', hcase, heq, hg_state, hg_end⟩ :=
              applyTD_shape { e with
                process_table := tableModify e.process_table q
                  (fun w => { w with remaining_burst := 0, end_tick := some e.tick }),
                sched := remove_from_ready s1 q,
                blocked_list := e.blocked_list.erase q,
                zombie_list := e.zombie_list.erase q } q
                { p with remaining_burst := 0, end_tick := some e.tick } hget2
            rw [heq]
            show (tableGet (tableModify (tableModify e.process_table q
              (fun w => { w with remaining_burst := 0, end_tick := some e.tick })) q g) x).bind
                Process.end_tick = (tableGet e.process_table x).bind Process.end_tick
            rw [tableGet_tableModify_ne _ _ _ (fun h => hqx h.symm) _,
                tableGet_tableModify_ne _ _ _ (fun h => hqx h.symm) _]
          by_cases hc : e.sched.current_running_pid = some q
          · simp only [force_terminate_process, hg, if_neg h0p, if_neg hT, if_pos hc,
              remove_from_queues]
            exact main _
          · simp only [force_terminate_process, hg, if_neg h0p, if_neg hT, if_neg hc,
              remove_from_queues]
            exact main _

theorem forceTerminate_zombie_restamp (e : SimulatorEngine) (x : Nat) (p : Process)
    (hget : tableGet e.process_table x = some p)
    (hne0 : x ≠ 0)
    (hz : p.state = PState.ZOMBIE) :
    (tableGet (force_terminate_process e x).2.process_table x).bind Process.end_tick =
      some e.tick := by
  have hT : ¬p.state = PState.TERMINATED := by rw [hz]; intro h; cases h
  have main : ∀ s1 : PriorityScheduler,
      (tableGet (applyTerminationDecision { e with
        process_table := tableModify e.process_table x
          (fun w => { w with remaining_burst := 0, end_tick := some e.tick }),
        sched := remove_from_ready s1 x,
        blocked_list := e.blocked_list.erase x,
        zombie_list := e.zombie_list.erase x } x).process_table x).bind
          Process.end_tick = some e.tick := by
    intro s1
    have hget2 : tableGet (tableModify e.process_table x
        (fun w => { w with remaining_burst := 0, end_tick := some e.tick })) x
        = some { p with remaining_burst := 0, end_tick := some e.tick } := by
      rw [tableGet_tableModify_self, hget]
      rfl
    obtain ⟨st, g, zl', hcase, heq, hg_state, hg_end⟩ :=
      applyTD_shape { e with
        process_table := tableModify e.process_table x
          (fun w => { w with remaining_burst := 0, end_tick := some e.tick }),
        sched := remove_from_ready s1 x,
        blocked_list := e.blocked_list.erase x,
        zombie_list := e.zombie_list.erase x } x
        { p with remaining_burst := 0, end_tick := some e.tick } hget2
    rw [heq]
    show (tableGet (tableModify (tableModify e.process_table x
      (fun w => { w with remaining_burst := 0, end_tick := some e.tick })) x g) x).bind
        Process.end_tick = some e.tick
    rw [tableGet_tableModify_self, hget2]
    show (g { p with remaining_burst := 0, end_tick := some e.tick }).end_tick = some e.tick
    rw [hg_end]
  by_cases hc : e.sched.current_running_pid = some x
  · simp only [force_terminate_process, hget, if_neg hne0, if_neg hT, if_pos hc,
      remove_from_queues]
    exact main _
  · simp only [force_terminate_process, hget, if_neg hne0, if_neg hT, if_neg hc,
      remove_from_queues]
    exact main _

theorem forceTerminate_terminated_noop (e : SimulatorEngine) (x : Nat) (p : Process)
    (hget : tableGet e.process_table x = some p)
    (hne0 : x ≠ 0)
    (hT : p.state = PState.TERMINATED) :
    force_terminate_process e x = (false, e) := by
  simp only [force_terminate_process, hget, if_neg hne0, if_pos hT]

theorem reachable_engC6 : Reachable engC6 :=
  Reachable.tick engC6b oracleZ
    (Reachable.create engC6a none (some 1) (some 1) (some 0) 0 0
      (Reachable.create engV0 none (some 5) none (some 5) 0 0
        (Reachable.config mkEngine 0 Reachable.base)))

/-- C2 (amended): on every reachable engine, once a process carries
`end_tick = some t` it is ZOMBIE or TERMINATED, and `end_tick` is preserved
by `create_process`, `force_block_process`, `wait_for_child`,
`adjust_priority`, `tick_simulation`, and by `force_terminate_process` of any
other pid; `force_terminate_process` of a TERMINATED pid is rejected without
change.  The one exception to "never reassigned" is `force_terminate_process`
of the pid itself while it is a ZOMBIE, which overwrites `end_tick` with the
current tick. -/
theorem c2_end_tick_discipline (e : SimulatorEngine) (h : Reachable e) (x : Nat)
    (p : Process) (hget : tableGet e.process_table x = some p) (t : Nat)
    (hend : p.end_tick = some t) :
    (p.state = PState.ZOMBIE ∨ p.state = PState.TERMINATED) ∧
    (∀ nm b pp pr dB dP,
       endTickOf (create_process e nm b pp pr dB dP).2.process_table x = some t) ∧
    (∀ q io d, endTickOf (force_block_process e q io d).2.process_table x = some t) ∧
    (∀ q, endTickOf (wait_for_child e q).2.process_table x = some t) ∧
    (∀ q np, endTickOf (adjust_priority e q np).process_table x = some t) ∧
    (∀ o, endTickOf (tick_simulation e o).process_table x = some t) ∧
    (∀ q, q ≠ x → endTickOf (force_terminate_process e q).2.process_table x = some t) ∧
    (p.state = PState.TERMINATED → force_terminate_process e x = (false, e)) ∧
    (p.state = PState.ZOMBIE →
       endTickOf (force_terminate_process e x).2.process_table x = some e.tick) := by
  have hInv : EngineInv e := reachable_inv e h
  have hzt : p.state = PState.ZOMBIE ∨ p.state = PState.TERMINATED :=
    hInv.end_done x p hget (by rw [hend]; rfl)
  have hne0 : x ≠ 0 := by
    intro h0
    rw [h0] at hget
    have h2 := hInv.init_alive p hget
    rw [hend] at h2
    cases h2
  have hbind : (tableGet e.process_table x).bind Process.end_tick = some t := by
    rw [hget]
    show p.end_tick = some t
    exact hend
  refine ⟨hzt, ?_, ?_, ?_, ?_, ?_, ?_, ?_, ?_⟩
  · intro nm b pp pr dB dP
    show (tableGet (create_process e nm b pp pr dB dP).2.process_table x).bind
      Process.end_tick = some t
    rw [create_end_bind e nm b pp pr dB dP hInv x (by rw [hget]; rfl)]
    exact hbind
  · intro q io d
    show (tableGet (force_block_process e q io d).2.process_table x).bind
      Process.end_tick = some t
    rw [forceBlock_end_bind]
    exact hbind
  · intro q
    show (tableGet (wait_for_child e q).2.process_table x).bind Process.end_tick = some t
    rw [wait_end_bind]
    exact hbind
  · intro q np
    show (tableGet (adjust_priority e q np).process_table x).bind Process.end_tick = some t
    rw [adjust_end_bind]
    exact hbind
  · intro o
    show (tableGet (tick_simulation e o).process_table x).bind Process.end_tick = some t
    rw [tick_end_sealed e o x p hInv hget hzt]
    exact hend
  · intro q hqx
    show (tableGet (force_terminate_process e q).2.process_table x).bind
      Process.end_tick = some t
    rw [forceTerminate_end_bind_other e q x hqx]
    exact hbind
  · intro hT
    exact forceTerminate_terminated_noop e x p hget hne0 hT
  · intro hz
    show (tableGet (force_terminate_process e x).2.process_table x).bind
      Process.end_tick = some e.tick
    exact forceTerminate_zombie_restamp e x p hget hne0 hz

theorem c2_end_tick_discipline_witness :
    endTickOf (adjust_priority engC6 2 3).process_table 2 = some 1 ∧
    endTickOf (force_terminate_process engC6 2).2.process_table 2 = some engC6.tick := by
  have h := c2_end_tick_discipline engC6 reachable_engC6 2 procZ2 (by decide) 1 rfl
  exact ⟨h.2.2.2.2.1 2 3, h.2.2.2.2.2.2.2.2 rfl⟩

theorem autoReapStep_ages (l : List Nat) : ∀ (e : SimulatorEngine), l.Nodup →
    (autoReapStep l e).tick = e.tick ∧
    (autoReapStep l e).auto_reap_after = e.auto_reap_after ∧
    (∀ x, x ∉ l → tableGet (autoReapStep l e).process_table x = tableGet e.process_table x) ∧
    (∀ x, x ∈ l → ∀ p', tableGet (autoReapStep l e).process_table x = some p' →
       p'.state = PState.ZOMBIE →
       (e.tick : Int) - ((p'.end_tick.getD 0 : Nat) : Int) < e.auto_reap_after) ∧
    (∀ x, x ∈ l → ∀ p, tableGet e.process_table x = some p → p.state = PState.ZOMBIE →
       (e.tick : Int) - ((p.end_tick.getD 0 : Nat) : Int) ≥ e.auto_reap_after →
       tableGet (autoReapStep l e).process_table x =
         some { p with state := PState.TERMINATED, reaped := true }) := by
  induction l with
  | nil =>
      intro e _
      exact ⟨rfl, rfl, fun x _ => rfl, fun x hx => absurd hx (List.not_mem_nil x),
        fun x hx => absurd hx (List.not_mem_nil x)⟩
  | cons pid rest ih =>
      intro e hnd
      have hnd' : rest.Nodup := (List.nodup_cons.mp hnd).2
      have hpidrest : pid ∉ rest := (List.nodup_cons.mp hnd).1
      cases hg : tableGet e.process_table pid with
      | none =>
          have hred : autoReapStep (pid :: rest) e = autoReapStep rest e := by
            simp only [autoReapStep, hg]
          rw [hred]
          obtain ⟨h1, h2, h3, h4, h5⟩ := ih e hnd'
          refine ⟨h1, h2, fun x hx => h3 x (fun h => hx (List.mem_cons_of_mem _ h)), ?_, ?_⟩
          · intro x hx p' hp' hz
            rcases List.mem_cons.mp hx with hx1 | hx1
            · subst hx1
              rw [h3 x hpidrest, hg] at hp'
              cases hp'
            · exact h4 x hx1 p' hp' hz
          · intro x hx p hp hz hage
            rcases List.mem_cons.mp hx with hx1 | hx1
            · subst hx1
              rw [hg] at hp
              cases hp
            · exact h5 x hx1 p hp hz hage
      | some p =>
          by_cases hage : (e.tick : Int) - ((p.end_tick.getD 0 : Nat) : Int) ≥ e.auto_reap_after
          · have hred : autoReapStep (pid :: rest) e = autoReapStep rest { e with
                process_table := tableModify e.process_table pid
                  (fun q => { q with state := PState.TERMINATED, reaped := true }),
                zombie_list := e.zombie_list.erase pid } := by
              simp only [autoReapStep, hg, if_pos hage]
            rw [hred]
            obtain ⟨h1, h2, h3, h4, h5⟩ := ih { e with
              process_table := tableModify e.process_table pid
                (fun q => { q with state := PState.TERMINATED, reaped := true }),
              zombie_list := e.zombie_list.erase pid } hnd'
            have hE'pid : tableGet (tableModify e.process_table pid
                (fun q => { q with state := PState.TERMINATED, reaped := true })) pid
                = some { p with state := PState.TERMINATED, reaped := true } := by
              rw [tableGet_tableModify_self, hg]
              rfl
            have hE'ne : ∀ x, x ≠ pid →
                tableGet (tableModify e.process_table pid
                  (fun q => { q with state := PState.TERMINATED, reaped := true })) x
                  = tableGet e.process_table x :=
              fun x hx => tableGet_tableModify_ne _ _ _ hx _
            refine ⟨h1, h2, ?_, ?_, ?_⟩
            · intro x hx
              have hx1 : x ≠ pid := fun h => hx (h ▸ List.mem_cons_self pid rest)
              have hx2 : x ∉ rest := fun h => hx (List.mem_cons_of_mem _ h)
              rw [h3 x hx2]
              exact hE'ne x hx1
            · intro x hx p' hp' hz
              rcases List.mem_cons.mp hx with hx1 | hx1
              · subst hx1
                rw [h3 x hpidrest, hE'pid] at hp'
                injection hp' with h6
                rw [← h6] at hz
                cases hz
              · exact h4 x hx1 p' hp' hz
            · intro x hx p0 hp0 hz hage0
              rcases List.mem_cons.mp hx with hx1 | hx1
              · subst hx1
                rw [hg] at hp0
                injection hp0 with h6
                rw [h3 x hpidrest, hE'pid, h6]
              · have hx2 : x ≠ pid := fun h => hpidrest (h ▸ hx1)
                refine h5 x hx1 p0 ?_ hz hage0
                rw [hE'ne x hx2]
                exact hp0
          · have hred : autoReapStep (pid :: rest) e = autoReapStep rest e := by
              simp only [autoReapStep, hg, if_neg hage]
            rw [hred]
            obtain ⟨h1, h2, h3, h4, h5⟩ := ih e hnd'
            refine ⟨h1, h2, fun x hx => h3 x (fun h => hx (List.mem_cons_of_mem _ h)), ?_, ?_⟩
            · intro x hx p' hp' hz
              rcases List.mem_cons.mp hx with hx1 | hx1
              · subst hx1
                rw [h3 x hpidrest, hg] at hp'
                injection hp' with h6
                rw [← h6]
                omega
              · exact h4 x hx1 p' hp' hz
            · intro x hx p0 hp0 hz hage0
              rcases List.mem_cons.mp hx with hx1 | hx1
              · subst hx1
                rw [hg] at hp0
                injection hp0 with h6
                rw [h6] at hage
                exact absurd hage0 hage
              · exact h5 x hx1 p0 hp0 hz hage0

theorem auto_reap_ages_inv (E : SimulatorEngine) (hInv : EngineInv E) :
    (auto_reap_zombies E).tick = E.tick ∧
    (auto_reap_zombies E).auto_reap_after = E.auto_reap_after ∧
    (∀ x p', tableGet (auto_reap_zombies E).process_table x = some p' →
       p'.state = PState.ZOMBIE →
       (E.tick : Int) - ((p'.end_tick.getD 0 : Nat) : Int) < E.auto_reap_after) := by
  obtain ⟨h1, h2, h3, h4, h5⟩ := autoReapStep_ages E.zombie_list E hInv.zombie_nodup
  refine ⟨h1, h2, ?_⟩
  intro x p' hp' hz
  by_cases hmem : x ∈ E.zombie_list
  · exact h4 x hmem p' hp' hz
  · have hp2 : tableGet (autoReapStep E.zombie_list E).process_table x = some p' := hp'
    rw [h3 x hmem] at hp2
    exact absurd (hInv.zombie_state x p' hp2 hz) hmem

/-- C7: on every reachable engine a `tick_simulation` call leaves
`auto_reap_after` at its default 10 and leaves no ZOMBIE whose age
`tick - (end_tick or 0)` has reached 10; and on any engine satisfying the
state invariant, the auto-reap pass turns every ZOMBIE whose age has reached
`auto_reap_after` into TERMINATED with `reaped = true`, with no
`wait_for_child` call involved. -/
theorem c7_auto_reap :
    (∀ e o, Reachable e →
       (tick_simulation e o).auto_reap_after = 10 ∧
       (∀ x p', tableGet (tick_simulation e o).process_table x = some p' →
          p'.state = PState.ZOMBIE →
          ((tick_simulation e o).tick : Int) - ((p'.end_tick.getD 0 : Nat) : Int) < 10)) ∧
    (∀ E, EngineInv E → ∀ x p, tableGet E.process_table x = some p →
       p.state = PState.ZOMBIE →
       (E.tick : Int) - ((p.end_tick.getD 0 : Nat) : Int) ≥ E.auto_reap_after →
       tableGet (auto_reap_zombies E).process_table x =
         some { p with state := PState.TERMINATED, reaped := true }) := by
  constructor
  · intro e o h
    have hInv4 := engineInv_schedule
      (move_new_to_ready (handle_blocked_processes { e with tick := e.tick + 1 })).1 o
      (engineInv_moveNew _ (engineInv_handleBlocked _
        (engineInv_tick_bump e (reachable_inv e h))))
    have h10 : (schedule_processes
        (move_new_to_ready (handle_blocked_processes { e with tick := e.tick + 1 })).1
        o).auto_reap_after = 10 := hInv4.reap_default
    have hpos : (schedule_processes
        (move_new_to_ready (handle_blocked_processes { e with tick := e.tick + 1 })).1
        o).auto_reap_after > 0 := by
      rw [h10]
      decide
    have htick : tick_simulation e o = auto_reap_zombies (schedule_processes
        (move_new_to_ready (handle_blocked_processes { e with tick := e.tick + 1 })).1 o) := by
      simp only [tick_simulation]
      rw [if_pos hpos]
    obtain ⟨ht, ha, hages⟩ := auto_reap_ages_inv _ hInv4
    constructor
    · rw [htick, ha, h10]
    · intro x p' hp' hz
      rw [htick] at hp' ⊢
      rw [ht]
      have h6 := hages x p' hp' hz
      rw [h10] at h6
      exact h6
  · intro E hInvE x p hp hz hage
    obtain ⟨_, _, _, _, h5⟩ := autoReapStep_ages E.zombie_list E hInvE.zombie_nodup
    exact h5 x (hInvE.zombie_state x p hp hz) p hp hz hage

theorem c7_auto_reap_witness :
    (tick_simulation engC6 oracleZ).auto_reap_after = 10 ∧
    (((tick_simulation engC6 oracleZ).tick : Int) - ((procZ2.end_tick.getD 0 : Nat) : Int) < 10) ∧
    tableGet (auto_reap_zombies { engC6 with tick := 20 }).process_table 2 =
      some { procZ2 with state := PState.TERMINATED, reaped := true } := by
  have h := c7_auto_reap
  have h1 := h.1 engC6 oracleZ reachable_engC6
  have hInv : EngineInv engC6 := reachable_inv engC6 reachable_engC6
  have hInv20 : EngineInv { engC6 with tick := 20 } :=
    ⟨hInv.keys_lt, hInv.counter_pos, hInv.init_mem, hInv.init_alive, hInv.cur_ne0,
     hInv.queues_len, hInv.queued_ready, hInv.queue_once, hInv.running_run,
     hInv.cur_not_queued, hInv.cur_not_blocked, hInv.blocked_mem, hInv.blocked_nodup,
     hInv.zombie_state, hInv.zombie_mem, hInv.zombie_nodup, hInv.end_done,
     hInv.reap_default⟩
  refine ⟨h1.1, ?_, ?_⟩
  · have h3 : tableGet (tick_simulation engC6 oracleZ).process_table 2 =
        some { procZ2 with created_tick := 0 } := by decide
    have h4 := h1.2 2 { procZ2 with created_tick := 0 } h3 (by decide)
    exact h4
  · exact h.2 { engC6 with tick := 20 } hInv20 2 procZ2 (by decide) rfl (by decide)

theorem runCreates_pids : ∀ (as : List CreateArgs) (e : SimulatorEngine),
    (runCreates e as).1 = List.range' e.pid_counter as.length := by
  intro as
  induction as with
  | nil => intro e; rfl
  | cons a rest ih =>
      intro e
      cases hc : create_process e a.name a.burst a.parent_pid a.priority a.dBurst a.dPriority with
      | mk pid e1 =>
          have hc2 := hc
          simp only [create_process] at hc2
          injection hc2 with h1 h2
          cases hr : runCreates e1 rest with
          | mk pids e2 =>
              have hih := ih e1
              rw [hr] at hih
              have hih' : pids = List.range' e1.pid_counter rest.length := hih
              have hcnt : e1.pid_counter = e.pid_counter + 1 := by
                rw [← h2]
              simp only [runCreates, hc, hr]
              show pid :: pids = List.range' e.pid_counter (rest.length + 1)
              rw [List.range'_succ]
              rw [← h1]
              have hih2 : pids = List.range' (e.pid_counter + 1) rest.length := by
                rw [hih', hcnt]
              rw [hih2]

/-- C8: every sequence of `create_process` calls on a fresh engine returns
the strictly increasing pids 1, 2, ..., n; and on every reachable engine the
init process (pid 0) is in the table and `create_process` never returns
pid 0. -/
theorem c8_pid_discipline :
    (∀ as : List CreateArgs, (runCreates mkEngine as).1 = List.range' 1 as.length) ∧
    (∀ e, Reachable e → (tableGet e.process_table 0).isSome ∧
       ∀ nm b pp pr dB dP, (create_process e nm b pp pr dB dP).1 ≠ 0) := by
  constructor
  · intro as
    exact runCreates_pids as mkEngine
  · intro e h
    have hInv := reachable_inv e h
    refine ⟨hInv.init_mem, ?_⟩
    intro nm b pp pr dB dP
    show e.pid_counter ≠ 0
    have := hInv.counter_pos
    omega

theorem c8_pid_discipline_witness :
    (runCreates mkEngine [argsA, argsA]).1 = List.range' 1 2 ∧
    (tableGet engC6.process_table 0).isSome ∧
    (create_process engC6 none (some 2) none (some 1) 0 0).1 ≠ 0 := by
  have h := c8_pid_discipline
  have h2 := h.2 engC6 reachable_engC6
  exact ⟨h.1 [argsA, argsA], h2.1, h2.2 none (some 2) none (some 1) 0 0⟩
